import Mathlib

/-!
# Automatron: the test-definition core (`FTestSpecBase`)

A shallow embedding of `Source/Automatron/Public/Base/TestSpecBase.h` and
`Source/Automatron/Private/Base/TestSpecBase.cpp`:

* the id / description composer (`GetDescription`, `GetId`),
* the definition API (`Describe`, `It`, `BeforeEach`, `AfterEach`) building the scope tree,
* the flattening pass `PostDefine`,
* the latent commands and their `Update` state machines,
* the entry points the automation framework calls (`RunTest`, `GetTests`,
  `GetTestSourceFileName`, `GetTestSourceFileLine`) with `EnsureDefinitions` and `Redefine`.

Conventions of the embedding.

* `FString` is a list of characters; `TArray<T>` is a `List T` in array order
  (`Push`/`Add` appends at the end, `Last()` is the last element).
* A `TSharedRef<IAutomationLatentCommand>` is a reference `CmdRef` into the pool
  `FTestSpecBase.Objects` of command objects created by `MakeShared`/`MakeShareable`.
* A `TSharedRef<FSpecDefinitionScope>` held on `DefinitionScopeStack` is the position of
  the scope in the tree owned by `RootDefinitionScope` (the child indices from the root).
* A `TFunction` is a handle `FnId`; a body passed to `Describe` is the list of
  declarations it makes.
* Engine assertions (`check`, array range checks, dereferencing a null pointer) are
  results `Except.error` of type `Fault`.
* `FChar::IsWhitespace` is engine code; every function that consults it takes it as the
  parameter `IsWhitespace`.
* `FDateTime` and `FTimespan` are engine types holding an `int64` count of ticks;
  `StartedRunning + Timeout` is the `int64` sum of the two counts, which wraps around
  (`FDateTime.Plus`).
* Two `FString`s are the same key of `IdToSpecMap` when the engine's `operator==` says so,
  and that is `Stricmp`, which ignores the case of the letters A to Z (`FStringEquals`);
  `FString::StartsWith` is called with its default `ESearchCase::IgnoreCase` and ignores the
  case likewise.
* The queue of latent commands of `FAutomationTestFramework` is a list of command references,
  handed to `RunTest` and returned by it.
* The user's `Define()` is the list of declarations its body makes; `EnsureDefinitions`
  reports how many times it called `Define()` and `PostDefine()`.
-/

namespace Automatron

/-! ## Basic types -/

/-- An `FString`: the sequence of its characters. -/
abbrev FString := List Char

/-- An `FDateTime`, in ticks. -/
abbrev FDateTime := Int

/-- An `FTimespan`, in ticks. -/
abbrev FTimespan := Int

/-- The value an `int64` holds after an operation whose exact result is `x`: the result
taken into the range from `-2^63` to `2^63 - 1` by two's-complement wrap-around. -/
def WrapInt64 (x : Int) : Int :=
  (x + 2 ^ 63) % 2 ^ 64 - 2 ^ 63

/-- `FDateTime::operator+(const FTimespan&)`: the date whose tick count is the `int64` sum of
the two tick counts. -/
def FDateTime.Plus (Date : FDateTime) (Span : FTimespan) : FDateTime :=
  WrapInt64 (Date + Span)

/-- `FTimespan::MaxValue()`, in ticks. -/
def FTimespan.MaxValue : FTimespan := 9223372036854775807

/-- A handle of a user-supplied `TFunction` (a test body or a hook body). -/
abbrev FnId := Nat

/-- A `TSharedRef<IAutomationLatentCommand>`: the index of the command object in the pool. -/
abbrev CmdRef := Nat

/-- A `TSharedRef<FSpecDefinitionScope>` during definition: child indices from the root. -/
abbrev ScopeRef := List Nat

/-- The engine's `EAsyncExecution`. -/
inductive EAsyncExecution
  | TaskGraph
  | Thread
  | ThreadPool
  deriving DecidableEq, Repr

/-- Assertion failures of the engine, as error results. -/
inductive Fault
  /-- The `check(!IdToSpecMap.Contains(Spec->Id))` of `PostDefine` fired. -/
  | DuplicateId
  /-- An array range check fired (`Last()`/`Pop()` of an empty array, `RemoveAt` out of range). -/
  | RangeCheck
  /-- A null `TSharedPtr` was dereferenced. -/
  | NullPointer
  /-- The iteration bound of the embedding of a `while` loop was exhausted. -/
  | OutOfFuel
  deriving DecidableEq, Repr

/-! ## `FString` operations used by the composer -/

/-- The text `TEXT(".")`. -/
def DotText : FString := ['.']

/-- The text `TEXT(" ")`. -/
def SpaceText : FString := [' ']

/-- `FString::EndsWith(TEXT("]"))`: the last character is the closing bracket. -/
def EndsWithBracket (s : FString) : Bool :=
  match s.getLast? with
  | some c => c == ']'
  | none => false

/-- The scan of `FString::FindLastChar`: the index of the last occurrence of `c`, reading
the characters from index `i` on, `found` being the last occurrence seen so far. -/
def FindLastCharFrom (c : Char) : FString → Nat → Option Nat → Option Nat
  | [], _, found => found
  | x :: rest, i, found => FindLastCharFrom c rest (i + 1) (if x == c then some i else found)

/-- `FString::FindLastChar(c, Index)`: `some Index` when `c` occurs, `none` (the call returns
false) when it does not. -/
def FindLastChar (s : FString) (c : Char) : Option Nat :=
  FindLastCharFrom c s 0 none

/-- The folding `Stricmp` and `Strnicmp` apply to a character before they compare: a letter
from A to Z is taken to the letter from a to z, every other character is kept. -/
def LowerAscii (c : Char) : Char :=
  if 'A' ≤ c ∧ c ≤ 'Z' then Char.ofNat (c.toNat + 32) else c

/-- A string as the comparisons that ignore case read it. -/
def IgnoreCase (s : FString) : FString :=
  s.map LowerAscii

/-- `FString::operator==`, which is `Stricmp(*Lhs, *Rhs) == 0`; the key comparison of
`TMap<FString, ...>`. -/
def FStringEquals (Lhs Rhs : FString) : Bool :=
  IgnoreCase Lhs == IgnoreCase Rhs

/-- `FString::RightChop(Count)`: the string without its first `Count` characters. -/
def RightChop (s : FString) (Count : Nat) : FString :=
  s.drop Count

/-- `FString::Printf(TEXT("%s.%s"), *A, *B)`. -/
def PrintfDot (A B : FString) : FString :=
  A ++ '.' :: B

/-- `FString::Printf(TEXT("%s %s"), *A, *B)`. -/
def PrintfSpace (A B : FString) : FString :=
  A ++ ' ' :: B

/-- `FChar::IsWhitespace(S[S.Len() - 1])` for a string `S`; false on the empty string, where
the source never evaluates it. -/
def LastIsWhitespace (IsWhitespace : Char → Bool) (S : FString) : Bool :=
  match S.getLast? with
  | some c => IsWhitespace c
  | none => false

/-- `FChar::IsWhitespace(S[0])` for a string `S`; false on the empty string, where the
source never evaluates it. -/
def FirstIsWhitespace (IsWhitespace : Char → Bool) (S : FString) : Bool :=
  match S.head? with
  | some c => IsWhitespace c
  | none => false

/-! ## `GetDescription` and `GetId` (TestSpecBase.h 562-627) -/

/-- The loop of `FTestSpecBase::GetDescription` over the remaining entries of `Description`,
`CompleteDescription` being the text built so far. -/
def GetDescriptionLoop (IsWhitespace : Char → Bool) : List FString → FString → FString
  | [], CompleteDescription => CompleteDescription
  | Entry :: rest, CompleteDescription =>
    if Entry.isEmpty then
      GetDescriptionLoop IsWhitespace rest CompleteDescription
    else if CompleteDescription.isEmpty then
      GetDescriptionLoop IsWhitespace rest Entry
    else if LastIsWhitespace IsWhitespace CompleteDescription
        || FirstIsWhitespace IsWhitespace Entry then
      GetDescriptionLoop IsWhitespace rest ((CompleteDescription ++ DotText) ++ Entry)
    else
      GetDescriptionLoop IsWhitespace rest (PrintfDot CompleteDescription Entry)

/-- `FTestSpecBase::GetDescription` on the description stack `Description`. -/
def GetDescription (IsWhitespace : Char → Bool) (Description : List FString) : FString :=
  GetDescriptionLoop IsWhitespace Description []

/-- The second loop of `FTestSpecBase::GetId` (lines 604-624). -/
def GetIdLoop (IsWhitespace : Char → Bool) : List FString → FString → FString
  | [], CompleteId => CompleteId
  | Entry :: rest, CompleteId =>
    if Entry.isEmpty then
      GetIdLoop IsWhitespace rest CompleteId
    else if CompleteId.isEmpty then
      GetIdLoop IsWhitespace rest Entry
    else if LastIsWhitespace IsWhitespace CompleteId
        || FirstIsWhitespace IsWhitespace Entry then
      GetIdLoop IsWhitespace rest (CompleteId ++ Entry)
    else
      GetIdLoop IsWhitespace rest (PrintfSpace CompleteId Entry)

/-- The bracket override of `FTestSpecBase::GetId` (lines 591-602) on the last stack entry:
`some CommandId` when the function returns from inside the `if`, `none` when it falls
through to the loop. -/
def GetIdOverride (Last : FString) : Option FString :=
  if EndsWithBracket Last then
    let ItDescription := Last.dropLast
    match FindLastChar ItDescription '[' with
    | some StartingBraceIndex =>
      if StartingBraceIndex != ItDescription.length - 1 then
        some (RightChop ItDescription (StartingBraceIndex + 1))
      else none
    | none => none
  else none

/-- `FTestSpecBase::GetId` on the description stack `Description`. `Description.Last()` of
an empty stack is a range-check failure. -/
def GetId (IsWhitespace : Char → Bool) (Description : List FString) : Except Fault FString :=
  match Description.getLast? with
  | none => .error .RangeCheck
  | some Last =>
    match GetIdOverride Last with
    | some CommandId => .ok CommandId
    | none => .ok (GetIdLoop IsWhitespace Description [])

/-! ## Latent commands: the objects (TestSpecBase.h 13-262) -/

/-- The members of `FSingleExecuteLatentCommand`. -/
structure FSingleExecuteLatentCommand where
  Predicate : FnId
  bSkipIfErrored : Bool
  deriving DecidableEq, Repr

/-- The members of `FUntilDoneLatentCommand`. -/
structure FUntilDoneLatentCommand where
  Predicate : FnId
  Timeout : FTimespan
  bSkipIfErrored : Bool
  bIsRunning : Bool
  StartedRunning : FDateTime
  bDone : Bool
  deriving DecidableEq, Repr

/-- The members of `FAsyncUntilDoneLatentCommand`; `Future` is `Future.IsValid()`. -/
structure FAsyncUntilDoneLatentCommand where
  Execution : EAsyncExecution
  Predicate : FnId
  Timeout : FTimespan
  bSkipIfErrored : Bool
  bDone : Bool
  StartedRunning : FDateTime
  Future : Bool
  deriving DecidableEq, Repr

/-- The members of `FAsyncLatentCommand`; `Future` is `Future.IsValid()`. -/
structure FAsyncLatentCommand where
  Execution : EAsyncExecution
  Predicate : FnId
  Timeout : FTimespan
  bSkipIfErrored : Bool
  bDone : Bool
  StartedRunning : FDateTime
  Future : Bool
  deriving DecidableEq, Repr

/-- An object behind an `IAutomationLatentCommand` reference: one of the four classes. -/
inductive IAutomationLatentCommand
  | SingleExecute (c : FSingleExecuteLatentCommand)
  | UntilDone (c : FUntilDoneLatentCommand)
  | AsyncUntilDone (c : FAsyncUntilDoneLatentCommand)
  | Async (c : FAsyncLatentCommand)
  deriving DecidableEq, Repr

/-- The constructor of `FSingleExecuteLatentCommand` (lines 16-20). -/
def FSingleExecuteLatentCommand.New (InPredicate : FnId) (bInSkipIfErrored : Bool) :
    FSingleExecuteLatentCommand :=
  { Predicate := InPredicate, bSkipIfErrored := bInSkipIfErrored }

/-- The constructor of `FUntilDoneLatentCommand` (lines 47-54): not running, not done. -/
def FUntilDoneLatentCommand.New (InPredicate : FnId) (InTimeout : FTimespan)
    (bInSkipIfErrored : Bool) : FUntilDoneLatentCommand :=
  { Predicate := InPredicate, Timeout := InTimeout, bSkipIfErrored := bInSkipIfErrored,
    bIsRunning := false, StartedRunning := 0, bDone := false }

/-- The constructor of `FAsyncUntilDoneLatentCommand` (lines 118-125): no future, not done. -/
def FAsyncUntilDoneLatentCommand.New (InExecution : EAsyncExecution) (InPredicate : FnId)
    (InTimeout : FTimespan) (bInSkipIfErrored : Bool) : FAsyncUntilDoneLatentCommand :=
  { Execution := InExecution, Predicate := InPredicate, Timeout := InTimeout,
    bSkipIfErrored := bInSkipIfErrored, bDone := false, StartedRunning := 0, Future := false }

/-- The constructor of `FAsyncLatentCommand` (lines 192-199): no future, not done. -/
def FAsyncLatentCommand.New (InExecution : EAsyncExecution) (InPredicate : FnId)
    (InTimeout : FTimespan) (bInSkipIfErrored : Bool) : FAsyncLatentCommand :=
  { Execution := InExecution, Predicate := InPredicate, Timeout := InTimeout,
    bSkipIfErrored := bInSkipIfErrored, bDone := false, StartedRunning := 0, Future := false }

/-! ## The data of a spec (TestSpecBase.h 264-322) -/

/-- `FTestSpecBase::FSpecIt`. -/
structure FSpecIt where
  Description : FString
  Id : FString
  Filename : FString
  LineNumber : Int
  Command : CmdRef
  deriving DecidableEq, Repr

/-- `FTestSpecBase::FSpecDefinitionScope`. -/
structure FSpecDefinitionScope where
  Description : FString
  BeforeEach : List CmdRef
  It : List FSpecIt
  AfterEach : List CmdRef
  Children : List FSpecDefinitionScope

/-- `FTestSpecBase::FSpec`. -/
structure FSpec where
  Id : FString
  Description : FString
  Filename : FString
  LineNumber : Int
  Commands : List CmdRef
  deriving DecidableEq, Repr

/-- The members of `FTestSpecBase`, with the two members of `FAutomationTestBase` that the
core reads or writes (`TestName`, and the errors of the execution info, written by
`AddError` and read by `HasAnyErrors`), and the pool `Objects` of the command objects
created so far. `IdToSpecMap` lists the entries of the `TMap` in insertion order. -/
structure FTestSpecBase where
  TestName : FString
  Errors : List FString
  DefaultTimeout : FTimespan
  bEnableSkipIfError : Bool
  TestsRemaining : Int
  Description : List FString
  IdToSpecMap : List FSpec
  RootDefinitionScope : Option FSpecDefinitionScope
  DefinitionScopeStack : List ScopeRef
  bHasBeenDefined : Bool
  Objects : List IAutomationLatentCommand

/-- `MakeShared<FSpecDefinitionScope>()`: a scope with no description, hooks, tests or
children. -/
def FSpecDefinitionScope.New : FSpecDefinitionScope :=
  { Description := [], BeforeEach := [], It := [], AfterEach := [], Children := [] }

/-- `FTimespan::FromSeconds(30)`, in ticks of 100 nanoseconds. -/
def ThirtySeconds : FTimespan := 300000000

/-- The constructor `FTestSpecBase(InName, bInComplexTask)` (lines 327-332) with the member
initialisers of lines 305-322: a fresh root scope, and the scope stack holding it. -/
def FTestSpecBase.New (InName : FString) : FTestSpecBase :=
  { TestName := InName, Errors := [], DefaultTimeout := ThirtySeconds,
    bEnableSkipIfError := true, TestsRemaining := 0, Description := [], IdToSpecMap := [],
    RootDefinitionScope := some FSpecDefinitionScope.New, DefinitionScopeStack := [[]],
    bHasBeenDefined := false, Objects := [] }

/-- `FAutomationTestBase::HasAnyErrors()`. -/
def FTestSpecBase.HasAnyErrors (self : FTestSpecBase) : Bool :=
  !self.Errors.isEmpty

/-- `FAutomationTestBase::AddError(InError, StackOffset)`: the sink records the error. -/
def FTestSpecBase.AddError (self : FTestSpecBase) (InError : FString) : FTestSpecBase :=
  { self with Errors := self.Errors ++ [InError] }

/-- The text `TEXT("Latent command timed out.")`. -/
def TimedOutText : FString := "Latent command timed out.".toList

/-- `FTestSpecBase::GetNumTests` (line 537). -/
def FTestSpecBase.GetNumTests (self : FTestSpecBase) : Nat :=
  self.IdToSpecMap.length

/-- `FTestSpecBase::GetTestsRemaining` (line 538). -/
def FTestSpecBase.GetTestsRemaining (self : FTestSpecBase) : Int :=
  self.TestsRemaining

/-! ## Arrays, the map and references -/

/-- `TArray::Last()`: the last element; a range-check failure on an empty array. -/
def Last {α : Type} (A : List α) : Except Fault α :=
  match A.getLast? with
  | none => .error .RangeCheck
  | some x => .ok x

/-- `TArray::RemoveAt(Num() - Count, Count)`: the array without its last `Count` elements; a
range-check failure when it holds fewer. -/
def RemoveLast {α : Type} (A : List α) (Count : Nat) : Except Fault (List α) :=
  if Count ≤ A.length then .ok (A.take (A.length - Count)) else .error .RangeCheck

/-- `TMap::Contains(Key)` on `IdToSpecMap`; keys are compared with `FString::operator==`. -/
def MapContains (Map : List FSpec) (Key : FString) : Bool :=
  Map.any (fun s => FStringEquals s.Id Key)

/-- `TMap::Find(Key)` on `IdToSpecMap`; keys are compared with `FString::operator==`. -/
def MapFind (Map : List FSpec) (Key : FString) : Option FSpec :=
  Map.find? (fun s => FStringEquals s.Id Key)

/-- `TMap::Add(Key, Value)` on `IdToSpecMap`, every value being stored under its own `Id`: the
value of an existing key is replaced in place, a new key is appended. -/
def MapAdd : List FSpec → FSpec → List FSpec
  | [], Value => [Value]
  | Entry :: rest, Value =>
    if FStringEquals Entry.Id Value.Id then Value :: rest else Entry :: MapAdd rest Value

/-- The scope a reference points to, from the root of the tree. -/
def FSpecDefinitionScope.At : FSpecDefinitionScope → ScopeRef → Option FSpecDefinitionScope
  | Scope, [] => some Scope
  | Scope, Index :: rest =>
    match Scope.Children.get? Index with
    | none => none
    | some Child => Child.At rest

/-- The tree after the scope a reference points to has been changed by `f`. -/
def FSpecDefinitionScope.Modify (f : FSpecDefinitionScope → FSpecDefinitionScope) :
    FSpecDefinitionScope → ScopeRef → FSpecDefinitionScope
  | Scope, [] => f Scope
  | Scope, Index :: rest =>
    { Scope with Children := Scope.Children.modify (fun Child => Child.Modify f rest) Index }

/-- Reading through a scope reference held by the spec. -/
def FTestSpecBase.ReadScope (self : FTestSpecBase) (Ref : ScopeRef) :
    Except Fault FSpecDefinitionScope :=
  match self.RootDefinitionScope with
  | none => .error .NullPointer
  | some Root =>
    match Root.At Ref with
    | none => .error .NullPointer
    | some Scope => .ok Scope

/-- Writing through a scope reference held by the spec. -/
def FTestSpecBase.WriteScope (self : FTestSpecBase) (Ref : ScopeRef)
    (f : FSpecDefinitionScope → FSpecDefinitionScope) : Except Fault FTestSpecBase :=
  match self.RootDefinitionScope with
  | none => .error .NullPointer
  | some Root =>
    match Root.At Ref with
    | none => .error .NullPointer
    | some _ => .ok { self with RootDefinitionScope := some (Root.Modify f Ref) }

/-- `MakeShared`/`MakeShareable` of a latent command: the object joins the pool and the
reference to it is returned. -/
def FTestSpecBase.MakeShared (self : FTestSpecBase) (Object : IAutomationLatentCommand) :
    CmdRef × FTestSpecBase :=
  (self.Objects.length, { self with Objects := self.Objects ++ [Object] })

/-! ## The definition API (TestSpecBase.h 380-560, TestSpecBase.cpp 87-104) -/

/-- The work arguments of the overloads of `It`/`LatentIt`, `BeforeEach`/`LatentBeforeEach`
and `AfterEach`/`LatentAfterEach`; `Timeout` is `none` in the overloads without a timeout. -/
inductive Work
  /-- `(TFunction<void()> DoWork)` -/
  | Sync (DoWork : FnId)
  /-- `(EAsyncExecution Execution, [const FTimespan& Timeout,] TFunction<void()> DoWork)` -/
  | Async (Execution : EAsyncExecution) (Timeout : Option FTimespan) (DoWork : FnId)
  /-- `([const FTimespan& Timeout,] TFunction<void(const FDoneDelegate&)> DoWork)` -/
  | Latent (Timeout : Option FTimespan) (DoWork : FnId)
  /-- `(EAsyncExecution Execution, [const FTimespan& Timeout,]
  TFunction<void(const FDoneDelegate&)> DoWork)` -/
  | LatentAsync (Execution : EAsyncExecution) (Timeout : Option FTimespan) (DoWork : FnId)
  deriving DecidableEq, Repr

/-- The command object an overload constructs from its work arguments, the spec's
`DefaultTimeout` and the skip flag it passes. -/
def Work.Command (DefaultTimeout : FTimespan) (bSkipIfErrored : Bool) :
    Work → IAutomationLatentCommand
  | .Sync DoWork => .SingleExecute (FSingleExecuteLatentCommand.New DoWork bSkipIfErrored)
  | .Async Execution Timeout DoWork =>
    .Async (FAsyncLatentCommand.New Execution DoWork (Timeout.getD DefaultTimeout) bSkipIfErrored)
  | .Latent Timeout DoWork =>
    .UntilDone (FUntilDoneLatentCommand.New DoWork (Timeout.getD DefaultTimeout) bSkipIfErrored)
  | .LatentAsync Execution Timeout DoWork =>
    .AsyncUntilDone
      (FAsyncUntilDoneLatentCommand.New Execution DoWork (Timeout.getD DefaultTimeout)
        bSkipIfErrored)

/-- `FTestSpecBase::PushDescription` (lines 552-555). -/
def FTestSpecBase.PushDescription (self : FTestSpecBase) (InDescription : FString) :
    FTestSpecBase :=
  { self with Description := self.Description ++ [InDescription] }

/-- `FTestSpecBase::PopDescription` (lines 557-560): `RemoveAt(Num() - 1)`. -/
def FTestSpecBase.PopDescription (self : FTestSpecBase) (_InDescription : FString) :
    Except Fault FTestSpecBase :=
  if self.Description.isEmpty then .error .RangeCheck
  else .ok { self with Description := self.Description.dropLast }

/-- The overloads of `FTestSpecBase::It` and `FTestSpecBase::LatentIt` (lines 383-451).
`Filename` and `LineNumber` are what `FPlatformStackWalk::GetStack(1, 1)` reports for the
call site. -/
def FTestSpecBase.It (IsWhitespace : Char → Bool) (InDescription Filename : FString)
    (LineNumber : Int) (DoWork : Work) (self : FTestSpecBase) : Except Fault FTestSpecBase := do
  let CurrentScope ← Last self.DefinitionScopeStack
  let self := self.PushDescription InDescription
  let Id ← GetId IsWhitespace self.Description
  let (Command, self) :=
    self.MakeShared (DoWork.Command self.DefaultTimeout self.bEnableSkipIfError)
  let NewIt : FSpecIt :=
    { Description := GetDescription IsWhitespace self.Description, Id := Id,
      Filename := Filename, LineNumber := LineNumber, Command := Command }
  let self ← self.WriteScope CurrentScope (fun Scope => { Scope with It := Scope.It ++ [NewIt] })
  self.PopDescription InDescription

/-- The overloads of `FTestSpecBase::BeforeEach` and `FTestSpecBase::LatentBeforeEach`
(lines 453-493): the command carries `bEnableSkipIfError`. -/
def FTestSpecBase.BeforeEach (DoWork : Work) (self : FTestSpecBase) :
    Except Fault FTestSpecBase := do
  let CurrentScope ← Last self.DefinitionScopeStack
  let (Command, self) :=
    self.MakeShared (DoWork.Command self.DefaultTimeout self.bEnableSkipIfError)
  self.WriteScope CurrentScope
    (fun Scope => { Scope with BeforeEach := Scope.BeforeEach ++ [Command] })

/-- The overloads of `FTestSpecBase::AfterEach` and `FTestSpecBase::LatentAfterEach`
(lines 495-535): the constructors are called without the skip argument, whose default is
`false`. -/
def FTestSpecBase.AfterEach (DoWork : Work) (self : FTestSpecBase) :
    Except Fault FTestSpecBase := do
  let CurrentScope ← Last self.DefinitionScopeStack
  let (Command, self) := self.MakeShared (DoWork.Command self.DefaultTimeout false)
  self.WriteScope CurrentScope
    (fun Scope => { Scope with AfterEach := Scope.AfterEach ++ [Command] })

/-- `FTestSpecBase::Describe` (TestSpecBase.cpp 87-104). The new scope is referred to by its
position, the last child of the parent; `Children.Remove(NewScope)` removes that child. -/
def FTestSpecBase.Describe (InDescription : FString)
    (DoWork : FTestSpecBase → Except Fault FTestSpecBase) (self : FTestSpecBase) :
    Except Fault FTestSpecBase := do
  let ParentScope ← Last self.DefinitionScopeStack
  let Parent ← self.ReadScope ParentScope
  let NewScope : ScopeRef := ParentScope ++ [Parent.Children.length]
  let self ← self.WriteScope ParentScope (fun Scope =>
    { Scope with
      Children := Scope.Children ++ [{ FSpecDefinitionScope.New with Description := InDescription }] })
  let self := { self with DefinitionScopeStack := self.DefinitionScopeStack ++ [NewScope] }
  let self := self.PushDescription InDescription
  let self ← DoWork self
  let self ← self.PopDescription InDescription
  let _ ← Last self.DefinitionScopeStack
  let self := { self with DefinitionScopeStack := self.DefinitionScopeStack.dropLast }
  let New ← self.ReadScope NewScope
  if New.It.length == 0 && New.Children.length == 0 then
    self.WriteScope ParentScope (fun Scope =>
      { Scope with Children := Scope.Children.eraseIdx Parent.Children.length })
  else
    .ok self

/-- A declaration made by a definition body: a call of the definition API. `It` stands for
the overloads of `It` and `LatentIt`, `BeforeEach` and `AfterEach` for theirs and the latent
ones; `Disabled d` is the `x`-variant of the declaration `d` (`xDescribe`, `xIt`, ...). -/
inductive Declaration
  | Describe (InDescription : FString) (DoWork : List Declaration)
  | It (InDescription Filename : FString) (LineNumber : Int) (DoWork : Work)
  | BeforeEach (DoWork : Work)
  | AfterEach (DoWork : Work)
  | Disabled (d : Declaration)

mutual
/-- Executing one declaration on the spec. The `x`-variants have empty bodies (lines 348-377). -/
def Declaration.Run (IsWhitespace : Char → Bool) :
    Declaration → FTestSpecBase → Except Fault FTestSpecBase
  | .Describe InDescription DoWork, self =>
    self.Describe InDescription (RunAll IsWhitespace DoWork)
  | .It InDescription Filename LineNumber DoWork, self =>
    self.It IsWhitespace InDescription Filename LineNumber DoWork
  | .BeforeEach DoWork, self => self.BeforeEach DoWork
  | .AfterEach DoWork, self => self.AfterEach DoWork
  | .Disabled _, self => .ok self
/-- Executing a definition body: its declarations in order. -/
def RunAll (IsWhitespace : Char → Bool) :
    List Declaration → FTestSpecBase → Except Fault FTestSpecBase
  | [], self => .ok self
  | d :: rest, self => do
    let self ← d.Run IsWhitespace self
    RunAll IsWhitespace rest self
end

/-- The user's `Define()` with body `Body`, on a freshly constructed spec named `InName`. -/
def Define (IsWhitespace : Char → Bool) (InName : FString) (Body : List Declaration) :
    Except Fault FTestSpecBase :=
  RunAll IsWhitespace Body (FTestSpecBase.New InName)

/-! ## `PostDefine` (TestSpecBase.cpp 106-170) and `Redefine` (172-179) -/

/-- The loop of lines 133-136: `AfterEachIndex` runs from `Count - 1` down to `0`, each
`AfterEach[AfterEachIndex]` is added to `Commands`. -/
def AddAfterEachReversed (AfterEach : List CmdRef) : Nat → List CmdRef → List CmdRef
  | 0, Commands => Commands
  | AfterEachIndex + 1, Commands =>
    match AfterEach.get? AfterEachIndex with
    | some Command => AddAfterEachReversed AfterEach AfterEachIndex (Commands ++ [Command])
    | none => AddAfterEachReversed AfterEach AfterEachIndex Commands

/-- Lines 125-136: the `FSpec` compiled from one `FSpecIt` under the accumulated hooks. -/
def CompileIt (BeforeEach AfterEach : List CmdRef) (It : FSpecIt) : FSpec :=
  { Id := It.Id, Description := It.Description, Filename := It.Filename,
    LineNumber := It.LineNumber,
    Commands := AddAfterEachReversed AfterEach AfterEach.length (([] ++ BeforeEach) ++ [It.Command]) }

/-- The loop of lines 121-140 over the tests of a scope: each is compiled and added to the
map; the `check` fails on an id the map already contains. -/
def CompileIts (BeforeEach AfterEach : List CmdRef) :
    List FSpecIt → List FSpec → Except Fault (List FSpec)
  | [], IdToSpecMap => .ok IdToSpecMap
  | It :: rest, IdToSpecMap =>
    let Spec := CompileIt BeforeEach AfterEach It
    if MapContains IdToSpecMap Spec.Id then .error .DuplicateId
    else CompileIts BeforeEach AfterEach rest (MapAdd IdToSpecMap Spec)

/-- The local variables of `PostDefine` together with the map it fills. `Stack` is kept with
its top first: `Stack.Last()` is the head, `Stack.Append(A)` puts the elements of `A` in front
with the last of them first. Every scope of the tree has a single owner, so a reference on
`Stack` is the scope itself. -/
structure Traversal where
  Stack : List FSpecDefinitionScope
  BeforeEach : List CmdRef
  AfterEach : List CmdRef
  IdToSpecMap : List FSpec

/-- The loop of lines 150-163: while the top of the stack has neither children nor tests it
is popped and as many hooks as it has are removed from the back of the accumulators. -/
def PopFinished : List FSpecDefinitionScope → List CmdRef → List CmdRef →
    Except Fault (List FSpecDefinitionScope × List CmdRef × List CmdRef)
  | [], BeforeEach, AfterEach => .ok ([], BeforeEach, AfterEach)
  | Top :: below, BeforeEach, AfterEach =>
    if Top.Children.length == 0 && Top.It.length == 0 then do
      let BeforeEach ←
        if Top.BeforeEach.length > 0 then RemoveLast BeforeEach Top.BeforeEach.length
        else .ok BeforeEach
      let AfterEach ←
        if Top.AfterEach.length > 0 then RemoveLast AfterEach Top.AfterEach.length
        else .ok AfterEach
      PopFinished below BeforeEach AfterEach
    else .ok (Top :: below, BeforeEach, AfterEach)

/-- One iteration of the loop of lines 114-165, on a non-empty stack with top `Scope`. -/
def PostDefineStep (Scope : FSpecDefinitionScope) (below : List FSpecDefinitionScope)
    (T : Traversal) : Except Fault Traversal := do
  let BeforeEach := T.BeforeEach ++ Scope.BeforeEach
  let AfterEach := T.AfterEach ++ Scope.AfterEach
  let IdToSpecMap ← CompileIts BeforeEach AfterEach Scope.It T.IdToSpecMap
  let Scope := { Scope with It := [] }
  if Scope.Children.length > 0 then
    .ok { Stack := Scope.Children.reverse ++ ({ Scope with Children := [] } :: below),
          BeforeEach := BeforeEach, AfterEach := AfterEach, IdToSpecMap := IdToSpecMap }
  else do
    let (Stack, BeforeEach, AfterEach) ← PopFinished (Scope :: below) BeforeEach AfterEach
    .ok { Stack := Stack, BeforeEach := BeforeEach, AfterEach := AfterEach,
          IdToSpecMap := IdToSpecMap }

/-- The loop of lines 114-165, with a bound on the number of iterations. -/
def PostDefineLoop : Nat → Traversal → Except Fault Traversal
  | Fuel, T =>
    match T.Stack with
    | [] => .ok T
    | Scope :: below =>
      match Fuel with
      | 0 => .error .OutOfFuel
      | Fuel + 1 => do
        let T ← PostDefineStep Scope below T
        PostDefineLoop Fuel T

mutual
/-- The number of scopes of a tree. -/
def FSpecDefinitionScope.NumScopes : FSpecDefinitionScope → Nat
  | ⟨_, _, _, _, Children⟩ => 1 + NumScopesAll Children
/-- The number of scopes of a list of trees. -/
def NumScopesAll : List FSpecDefinitionScope → Nat
  | [] => 0
  | Scope :: rest => Scope.NumScopes + NumScopesAll rest
end

/-- `FTestSpecBase::PostDefine`. The loop is run for as many iterations as the tree has
scopes: every iteration takes up one scope that no earlier iteration took up. -/
def FTestSpecBase.PostDefine (self : FTestSpecBase) : Except Fault FTestSpecBase :=
  match self.RootDefinitionScope with
  | none => .error .NullPointer
  | some Root => do
    let T ← PostDefineLoop Root.NumScopes
      { Stack := [Root], BeforeEach := [], AfterEach := [], IdToSpecMap := self.IdToSpecMap }
    .ok { self with IdToSpecMap := T.IdToSpecMap, RootDefinitionScope := none,
                    DefinitionScopeStack := [], bHasBeenDefined := true }

/-- `FTestSpecBase::Redefine`. -/
def FTestSpecBase.Redefine (self : FTestSpecBase) : FTestSpecBase :=
  { self with Description := [], IdToSpecMap := [], RootDefinitionScope := none,
              DefinitionScopeStack := [], bHasBeenDefined := false }

/-- A definition pass on a fresh spec: the user's `Define()` and then `PostDefine()`, as
`EnsureDefinitions` (lines 630-637) runs them on a spec that has not been defined. -/
def Compile (IsWhitespace : Char → Bool) (InName : FString) (Body : List Declaration) :
    Except Fault FTestSpecBase := do
  let self ← Define IsWhitespace InName Body
  self.PostDefine

/-! ## Latent commands: `Update` (TestSpecBase.h 25-34, 59-100, 130-173, 204-249) -/

/-- What the core observes of one call of a user body on the calling thread: the owning spec
after the call (a body may report errors), and whether the body executed the done delegate
it was handed before it returned. -/
structure BodyRun where
  Spec : FTestSpecBase
  bDoneExecuted : Bool

/-- The user bodies behind the `TFunction` handles: what a call does to the owning spec. -/
abbrev Bodies := FnId → FTestSpecBase → BodyRun

/-- What the environment supplies to one `Update`: the value `FDateTime::UtcNow()` has where
`StartedRunning` is assigned, the value it has in the timeout test, and whether the done flag
is set from another thread (the done delegate executed there, or the worker finishing) during
this `Update` before the flag is tested. On a path of `Update` that does not test the flag
the last plays no role: a write by another thread then counts as made after the call, by
`Done`. -/
structure Tick where
  Started : FDateTime
  Now : FDateTime
  bDoneSignalled : Bool
  deriving DecidableEq, Repr

/-- The result of one `Update`: the returned flag, the command object and the owning spec
after the call, the bodies the call invoked on the calling thread and the bodies it handed to
`Async`. -/
structure UpdateResult (Command : Type) where
  bReturn : Bool
  Self : Command
  Spec : FTestSpecBase
  Invoked : List FnId
  Dispatched : List FnId

/-- `FSingleExecuteLatentCommand::Update` (lines 25-34). -/
def FSingleExecuteLatentCommand.Update (Body : Bodies) (self : FSingleExecuteLatentCommand)
    (Spec : FTestSpecBase) : UpdateResult FSingleExecuteLatentCommand :=
  if self.bSkipIfErrored && Spec.HasAnyErrors then
    { bReturn := true, Self := self, Spec := Spec, Invoked := [], Dispatched := [] }
  else
    { bReturn := true, Self := self, Spec := (Body self.Predicate Spec).Spec,
      Invoked := [self.Predicate], Dispatched := [] }

/-- `FUntilDoneLatentCommand::Done` (lines 90-93). -/
def FUntilDoneLatentCommand.Done (self : FUntilDoneLatentCommand) : FUntilDoneLatentCommand :=
  { self with bDone := true }

/-- `FUntilDoneLatentCommand::Reset` (lines 95-100). -/
def FUntilDoneLatentCommand.Reset (self : FUntilDoneLatentCommand) : FUntilDoneLatentCommand :=
  { self with bDone := false, bIsRunning := false }

/-- Lines 73-85 of `FUntilDoneLatentCommand::Update`: the test of the done flag and of the
timeout. -/
def FUntilDoneLatentCommand.Conclude (T : Tick) (self : FUntilDoneLatentCommand)
    (Spec : FTestSpecBase) (Invoked : List FnId) : UpdateResult FUntilDoneLatentCommand :=
  let self := if T.bDoneSignalled then self.Done else self
  if self.bDone then
    { bReturn := true, Self := self.Reset, Spec := Spec, Invoked := Invoked, Dispatched := [] }
  else if T.Now ≥ FDateTime.Plus self.StartedRunning self.Timeout then
    { bReturn := true, Self := self.Reset, Spec := Spec.AddError TimedOutText,
      Invoked := Invoked, Dispatched := [] }
  else
    { bReturn := false, Self := self, Spec := Spec, Invoked := Invoked, Dispatched := [] }

/-- `FUntilDoneLatentCommand::Update` (lines 59-86). -/
def FUntilDoneLatentCommand.Update (Body : Bodies) (T : Tick) (self : FUntilDoneLatentCommand)
    (Spec : FTestSpecBase) : UpdateResult FUntilDoneLatentCommand :=
  if !self.bIsRunning then
    if self.bSkipIfErrored && Spec.HasAnyErrors then
      { bReturn := true, Self := self, Spec := Spec, Invoked := [], Dispatched := [] }
    else
      let Run := Body self.Predicate Spec
      let self := if Run.bDoneExecuted then self.Done else self
      let self := { self with bIsRunning := true, StartedRunning := T.Started }
      self.Conclude T Run.Spec [self.Predicate]
  else
    self.Conclude T Spec []

/-- `FAsyncUntilDoneLatentCommand::Done` (lines 163-166). -/
def FAsyncUntilDoneLatentCommand.Done (self : FAsyncUntilDoneLatentCommand) :
    FAsyncUntilDoneLatentCommand :=
  { self with bDone := true }

/-- `FAsyncUntilDoneLatentCommand::Reset` (lines 168-173). -/
def FAsyncUntilDoneLatentCommand.Reset (self : FAsyncUntilDoneLatentCommand) :
    FAsyncUntilDoneLatentCommand :=
  { self with bDone := false, Future := false }

/-- Lines 146-158 of `FAsyncUntilDoneLatentCommand::Update`. -/
def FAsyncUntilDoneLatentCommand.Conclude (T : Tick) (self : FAsyncUntilDoneLatentCommand)
    (Spec : FTestSpecBase) (Dispatched : List FnId) :
    UpdateResult FAsyncUntilDoneLatentCommand :=
  let self := if T.bDoneSignalled then self.Done else self
  if self.bDone then
    { bReturn := true, Self := self.Reset, Spec := Spec, Invoked := [], Dispatched := Dispatched }
  else if T.Now ≥ FDateTime.Plus self.StartedRunning self.Timeout then
    { bReturn := true, Self := self.Reset, Spec := Spec.AddError TimedOutText,
      Invoked := [], Dispatched := Dispatched }
  else
    { bReturn := false, Self := self, Spec := Spec, Invoked := [], Dispatched := Dispatched }

/-- `FAsyncUntilDoneLatentCommand::Update` (lines 130-159): the body is handed to `Async`. -/
def FAsyncUntilDoneLatentCommand.Update (T : Tick) (self : FAsyncUntilDoneLatentCommand)
    (Spec : FTestSpecBase) : UpdateResult FAsyncUntilDoneLatentCommand :=
  if !self.Future then
    if self.bSkipIfErrored && Spec.HasAnyErrors then
      { bReturn := true, Self := self, Spec := Spec, Invoked := [], Dispatched := [] }
    else
      let self := { self with Future := true, StartedRunning := T.Started }
      self.Conclude T Spec [self.Predicate]
  else
    self.Conclude T Spec []

/-- `FAsyncLatentCommand::Done` (lines 239-242), and the last statement of the lambda handed
to `Async` (line 215). -/
def FAsyncLatentCommand.Done (self : FAsyncLatentCommand) : FAsyncLatentCommand :=
  { self with bDone := true }

/-- `FAsyncLatentCommand::Reset` (lines 244-249). -/
def FAsyncLatentCommand.Reset (self : FAsyncLatentCommand) : FAsyncLatentCommand :=
  { self with bDone := false, Future := false }

/-- Lines 221-234 of `FAsyncLatentCommand::Update`. -/
def FAsyncLatentCommand.Conclude (T : Tick) (self : FAsyncLatentCommand)
    (Spec : FTestSpecBase) (Dispatched : List FnId) : UpdateResult FAsyncLatentCommand :=
  let self := if T.bDoneSignalled then self.Done else self
  if self.bDone then
    { bReturn := true, Self := self.Reset,
      Spec := { Spec with TestsRemaining := Spec.TestsRemaining - 1 },
      Invoked := [], Dispatched := Dispatched }
  else if T.Now ≥ FDateTime.Plus self.StartedRunning self.Timeout then
    { bReturn := true, Self := self.Reset, Spec := Spec.AddError TimedOutText,
      Invoked := [], Dispatched := Dispatched }
  else
    { bReturn := false, Self := self, Spec := Spec, Invoked := [], Dispatched := Dispatched }

/-- `FAsyncLatentCommand::Update` (lines 204-235): the body is handed to `Async`. -/
def FAsyncLatentCommand.Update (T : Tick) (self : FAsyncLatentCommand)
    (Spec : FTestSpecBase) : UpdateResult FAsyncLatentCommand :=
  if !self.Future then
    if self.bSkipIfErrored && Spec.HasAnyErrors then
      { bReturn := true, Self := self, Spec := Spec, Invoked := [], Dispatched := [] }
    else
      let self := { self with Future := true, StartedRunning := T.Started }
      self.Conclude T Spec [self.Predicate]
  else
    self.Conclude T Spec []

/-- A sequence of `Update` calls of one `FUntilDoneLatentCommand`, one per tick, with nothing
else touching the command or the spec in between: the returned flags in order, and the
command and the spec after the last call. -/
def FUntilDoneLatentCommand.Updates (Body : Bodies) :
    List Tick → FUntilDoneLatentCommand → FTestSpecBase →
      List Bool × FUntilDoneLatentCommand × FTestSpecBase
  | [], self, Spec => ([], self, Spec)
  | T :: rest, self, Spec =>
    let r := self.Update Body T Spec
    let (Flags, self, Spec) := FUntilDoneLatentCommand.Updates Body rest r.Self r.Spec
    (r.bReturn :: Flags, self, Spec)

/-! ## The driver: `EnsureDefinitions`, `RunTest`, the source location, `GetTests`
(TestSpecBase.h 630-637, TestSpecBase.cpp 6-85) -/

/-- The member `bSkipIfErrored` of the object behind a command reference. -/
def IAutomationLatentCommand.bSkipIfErrored : IAutomationLatentCommand → Bool
  | .SingleExecute c => c.bSkipIfErrored
  | .UntilDone c => c.bSkipIfErrored
  | .AsyncUntilDone c => c.bSkipIfErrored
  | .Async c => c.bSkipIfErrored

/-- The member `Predicate` of the object behind a command reference: the body it was
constructed with. -/
def IAutomationLatentCommand.Predicate : IAutomationLatentCommand → FnId
  | .SingleExecute c => c.Predicate
  | .UntilDone c => c.Predicate
  | .AsyncUntilDone c => c.Predicate
  | .Async c => c.Predicate

/-- The virtual `IAutomationLatentCommand::Update`: the `Update` of the class of the object. -/
def IAutomationLatentCommand.Update (Body : Bodies) (T : Tick) :
    IAutomationLatentCommand → FTestSpecBase → UpdateResult IAutomationLatentCommand
  | .SingleExecute c, Spec =>
    let r := c.Update Body Spec
    { bReturn := r.bReturn, Self := .SingleExecute r.Self, Spec := r.Spec,
      Invoked := r.Invoked, Dispatched := r.Dispatched }
  | .UntilDone c, Spec =>
    let r := c.Update Body T Spec
    { bReturn := r.bReturn, Self := .UntilDone r.Self, Spec := r.Spec,
      Invoked := r.Invoked, Dispatched := r.Dispatched }
  | .AsyncUntilDone c, Spec =>
    let r := c.Update T Spec
    { bReturn := r.bReturn, Self := .AsyncUntilDone r.Self, Spec := r.Spec,
      Invoked := r.Invoked, Dispatched := r.Dispatched }
  | .Async c, Spec =>
    let r := c.Update T Spec
    { bReturn := r.bReturn, Self := .Async r.Self, Spec := r.Spec,
      Invoked := r.Invoked, Dispatched := r.Dispatched }

/-- What one call of `EnsureDefinitions` did: the spec after it, and how many times it called
the user's `Define()` and `PostDefine()`. -/
structure Ensured where
  Spec : FTestSpecBase
  DefineCalls : Nat
  PostDefineCalls : Nat

/-- `FTestSpecBase::EnsureDefinitions` (TestSpecBase.h 630-637); `Body` is the body of the
user's `Define()`. -/
def FTestSpecBase.EnsureDefinitions (IsWhitespace : Char → Bool) (Body : List Declaration)
    (self : FTestSpecBase) : Except Fault Ensured :=
  if !self.bHasBeenDefined then do
    let self ← RunAll IsWhitespace Body self
    let self ← self.PostDefine
    .ok { Spec := self, DefineCalls := 1, PostDefineCalls := 1 }
  else
    .ok { Spec := self, DefineCalls := 0, PostDefineCalls := 0 }

/-- `FAutomationTestFramework::EnqueueLatentCommand`: the command joins the end of the
framework's queue of latent commands. -/
def EnqueueLatentCommand (Queue : List CmdRef) (Command : CmdRef) : List CmdRef :=
  Queue ++ [Command]

/-- The loop over `Commands[Index]` of lines 15-18 and 28-31: every command of the list is
enqueued, in index order. -/
def EnqueueCommands : List CmdRef → List CmdRef → List CmdRef
  | [], Queue => Queue
  | Command :: rest, Queue => EnqueueCommands rest (EnqueueLatentCommand Queue Command)

/-- The loop over `Specs[SpecIndex]` of lines 26-32. -/
def EnqueueSpecs : List FSpec → List CmdRef → List CmdRef
  | [], Queue => Queue
  | Spec :: rest, Queue => EnqueueSpecs rest (EnqueueCommands Spec.Commands Queue)

/-- `TMap::GenerateValueArray` on `IdToSpecMap`: the values in the order of the map. -/
def GenerateValueArray (Map : List FSpec) : List FSpec :=
  Map

/-- What one call of `RunTest` did: the returned flag, the spec and the framework's queue
after the call, and the calls of `Define()` and `PostDefine()` it made. -/
structure RunTestResult where
  bReturn : Bool
  Spec : FTestSpecBase
  Queue : List CmdRef
  DefineCalls : Nat
  PostDefineCalls : Nat

/-- `FTestSpecBase::RunTest` (TestSpecBase.cpp 6-37); `Queue` is the framework's queue of
latent commands before the call. -/
def FTestSpecBase.RunTest (IsWhitespace : Char → Bool) (Body : List Declaration)
    (InParameters : FString) (Queue : List CmdRef) (self : FTestSpecBase) :
    Except Fault RunTestResult := do
  let E ← self.EnsureDefinitions IsWhitespace Body
  let self := E.Spec
  let Queue :=
    if !InParameters.isEmpty then
      match MapFind self.IdToSpecMap InParameters with
      | some SpecToRun => EnqueueCommands SpecToRun.Commands Queue
      | none => Queue
    else
      EnqueueSpecs (GenerateValueArray self.IdToSpecMap) Queue
  let self := { self with TestsRemaining := (self.GetNumTests : Int) }
  .ok { bReturn := true, Spec := self, Queue := Queue, DefineCalls := E.DefineCalls,
        PostDefineCalls := E.PostDefineCalls }

/-- `FString::StartsWith(InPrefix)` with the default `ESearchCase::IgnoreCase`:
`InPrefix.Len() > 0 && !Strnicmp(**this, *InPrefix, InPrefix.Len())`. -/
def StartsWith (s InPrefix : FString) : Bool :=
  !InPrefix.isEmpty && (IgnoreCase InPrefix).isPrefixOf (IgnoreCase s)

/-- Lines 41-45 (and 58-62): the key looked up for a test name, the name without a leading
`TestName + TEXT(" ")`. -/
def FTestSpecBase.TestIdOf (self : FTestSpecBase) (InTestName : FString) : FString :=
  if StartsWith InTestName (self.TestName ++ SpaceText) then
    RightChop InTestName (self.TestName.length + 1)
  else
    InTestName

/-- `FTestSpecBase::GetTestSourceFileName(InTestName)` (TestSpecBase.cpp 39-54);
`BaseFileName` is what `FAutomationTestBase::GetTestSourceFileName()` returns. -/
def FTestSpecBase.GetTestSourceFileName (BaseFileName : FString) (self : FTestSpecBase)
    (InTestName : FString) : FString :=
  let TestId := self.TestIdOf InTestName
  match MapFind self.IdToSpecMap TestId with
  | some Spec => Spec.Filename
  | none => BaseFileName

/-- `FTestSpecBase::GetTestSourceFileLine(InTestName)` (TestSpecBase.cpp 56-71);
`BaseLine` is what `FAutomationTestBase::GetTestSourceFileLine()` returns. -/
def FTestSpecBase.GetTestSourceFileLine (BaseLine : Int) (self : FTestSpecBase)
    (InTestName : FString) : Int :=
  let TestId := self.TestIdOf InTestName
  match MapFind self.IdToSpecMap TestId with
  | some Spec => Spec.LineNumber
  | none => BaseLine

/-- What one call of `GetTests` did: the two output arrays and the spec after the call, and
the calls of `Define()` and `PostDefine()` it made. -/
structure GetTestsResult where
  OutBeautifiedNames : List FString
  OutTestCommands : List FString
  Spec : FTestSpecBase
  DefineCalls : Nat
  PostDefineCalls : Nat

/-- The loop of lines 80-84 of `GetTests` over `Specs[Index]`. -/
def GetTestsLoop : List FSpec → List FString → List FString → List FString × List FString
  | [], OutBeautifiedNames, OutTestCommands => (OutBeautifiedNames, OutTestCommands)
  | Spec :: rest, OutBeautifiedNames, OutTestCommands =>
    GetTestsLoop rest (OutBeautifiedNames ++ [Spec.Description]) (OutTestCommands ++ [Spec.Id])

/-- `FTestSpecBase::GetTests` (TestSpecBase.cpp 73-85); the two arrays are the caller's. -/
def FTestSpecBase.GetTests (IsWhitespace : Char → Bool) (Body : List Declaration)
    (OutBeautifiedNames OutTestCommands : List FString) (self : FTestSpecBase) :
    Except Fault GetTestsResult := do
  let E ← self.EnsureDefinitions IsWhitespace Body
  let self := E.Spec
  let Out := GetTestsLoop (GenerateValueArray self.IdToSpecMap) OutBeautifiedNames OutTestCommands
  .ok { OutBeautifiedNames := Out.1, OutTestCommands := Out.2, Spec := self,
        DefineCalls := E.DefineCalls, PostDefineCalls := E.PostDefineCalls }

/-- A call the automation framework makes on a spec. -/
inductive DriverCall
  | RunTest (InParameters : FString)
  | GetTests
  deriving DecidableEq, Repr

/-- What is recorded of one call of a sequence: the calls of `Define()` and `PostDefine()` it
made, and `IdToSpecMap` after it. -/
structure CallRecord where
  DefineCalls : Nat
  PostDefineCalls : Nat
  IdToSpecMap : List FSpec
  deriving DecidableEq, Repr

/-- A sequence of calls of `RunTest` and `GetTests` on one spec, with nothing else touching
the spec in between; `GetTests` is handed two empty arrays. The result is the record of
every call, and the spec and the framework's queue after the last. -/
def DriverCalls (IsWhitespace : Char → Bool) (Body : List Declaration) :
    List DriverCall → FTestSpecBase → List CmdRef →
      Except Fault (List CallRecord × FTestSpecBase × List CmdRef)
  | [], self, Queue => .ok ([], self, Queue)
  | .RunTest InParameters :: rest, self, Queue => do
    let r ← self.RunTest IsWhitespace Body InParameters Queue
    let (Records, self, Queue) ← DriverCalls IsWhitespace Body rest r.Spec r.Queue
    .ok ({ DefineCalls := r.DefineCalls, PostDefineCalls := r.PostDefineCalls,
           IdToSpecMap := r.Spec.IdToSpecMap } :: Records, self, Queue)
  | .GetTests :: rest, self, Queue => do
    let r ← self.GetTests IsWhitespace Body [] []
    let (Records, self, Queue) ← DriverCalls IsWhitespace Body rest r.Spec Queue
    .ok ({ DefineCalls := r.DefineCalls, PostDefineCalls := r.PostDefineCalls,
           IdToSpecMap := r.Spec.IdToSpecMap } :: Records, self, Queue)

/-! ## Runs of a command object -/

/-- A sequence of `Update` calls of one command object of any class, one per tick, with
nothing else touching the command or the spec in between: the returned flags in order, and
the command and the spec after the last call. -/
def IAutomationLatentCommand.Updates (Body : Bodies) :
    List Tick → IAutomationLatentCommand → FTestSpecBase →
      List Bool × IAutomationLatentCommand × FTestSpecBase
  | [], self, Spec => ([], self, Spec)
  | T :: rest, self, Spec =>
    let r := self.Update Body T Spec
    let (Flags, self, Spec) := IAutomationLatentCommand.Updates Body rest r.Self r.Spec
    (r.bReturn :: Flags, self, Spec)

/-- The spec as the next `Update` of a command has it when the done flag and the timeout are
tested: after the body, where that `Update` calls the body on the calling thread, and
unchanged where it does not (the command is running, the guard skips, or the body is handed
to `Async`). -/
def IAutomationLatentCommand.AfterBody (Body : Bodies) :
    IAutomationLatentCommand → FTestSpecBase → FTestSpecBase
  | .SingleExecute c, Spec =>
    if c.bSkipIfErrored && Spec.HasAnyErrors then Spec else (Body c.Predicate Spec).Spec
  | .UntilDone c, Spec =>
    if !c.bIsRunning && !(c.bSkipIfErrored && Spec.HasAnyErrors) then
      (Body c.Predicate Spec).Spec
    else Spec
  | .AsyncUntilDone _, Spec => Spec
  | .Async _, Spec => Spec

/-! ## `FTestSpec`: the hooks of `PreDefine` and `PostDefine` (TestSpec.cpp 11-58) -/

/-- The declarations of `FTestSpec::PreDefine` (TestSpec.cpp 11-31): a `BeforeEach` that
advances the context and, unless `bUseWorld` is false, a `LatentBeforeEach` on the thread
pool that prepares the world. -/
def FTestSpec.PreDefine (bUseWorld : Bool) (NextContext PrepareWorld : FnId) :
    List Declaration :=
  .BeforeEach (.Sync NextContext)
    :: (if !bUseWorld then [] else [.BeforeEach (.LatentAsync .ThreadPool none PrepareWorld)])

/-- The declaration of `FTestSpec::PostDefine` (TestSpec.cpp 33-58): an `AfterEach` with the
tear-down hook. -/
def FTestSpec.PostDefine (TearDown : FnId) : List Declaration :=
  [.AfterEach (.Sync TearDown)]

/-- Whether the hook of `FTestSpec::PostDefine`, run on this spec, reaches the tear-down of
lines 45-54: it returns early when `bUsePIEWorld` is false (lines 37-40), and otherwise
tests `GetTestsRemaining() <= 0 || !bReusePIEWorldForAllTests` (line 43). -/
def FTestSpec.TearsDown (bUsePIEWorld bReusePIEWorldForAllTests : Bool)
    (Spec : FTestSpecBase) : Bool :=
  if !bUsePIEWorld then false
  else decide (Spec.GetTestsRemaining ≤ 0) || !bReusePIEWorldForAllTests

/-- The class `FAsyncLatentCommand` among the four classes. -/
def IAutomationLatentCommand.IsAsync : IAutomationLatentCommand → Bool
  | .Async _ => true
  | _ => false

/-- One call of `Update`, by the framework, on the command object behind a reference of its
queue; the object keeps the state the call leaves it in. -/
def FTestSpecBase.UpdateCommand (Body : Bodies) (T : Tick) (Ref : CmdRef)
    (self : FTestSpecBase) : Except Fault (Bool × FTestSpecBase) :=
  match self.Objects.get? Ref with
  | none => .error .NullPointer
  | some Command =>
    let r := Command.Update Body T self
    .ok (r.bReturn, { r.Spec with Objects := r.Spec.Objects.set Ref r.Self })

/-- A sequence of `Update` calls by the framework, each on the object behind a reference. -/
def FTestSpecBase.UpdateCommands (Body : Bodies) :
    List (CmdRef × Tick) → FTestSpecBase → Except Fault FTestSpecBase
  | [], self => .ok self
  | (Ref, T) :: rest, self => do
    let r ← self.UpdateCommand Body T Ref
    FTestSpecBase.UpdateCommands Body rest r.2

/-- Every reference of the sequence points to an object of the pool that is not an
`FAsyncLatentCommand`. -/
def FTestSpecBase.NoneAsync (self : FTestSpecBase) (Steps : List (CmdRef × Tick)) : Bool :=
  Steps.all (fun Step =>
    match self.Objects.get? Step.1 with
    | some Command => !Command.IsAsync
    | none => false)

/-! ## The scope tree a body declares, as a function of the body -/

/-- The id `GetId` computes on a stack, and the empty string where `GetId` fails. -/
def IdOf (IsWhitespace : Char → Bool) (Description : List FString) : FString :=
  match GetId IsWhitespace Description with
  | .ok Id => Id
  | .error _ => []

mutual
/-- The command objects a declaration creates, in the order of creation. -/
def Declaration.NewObjects (DefaultTimeout : FTimespan) (bEnableSkipIfError : Bool) :
    Declaration → List IAutomationLatentCommand
  | .Describe _ DoWork => NewObjectsAll DefaultTimeout bEnableSkipIfError DoWork
  | .It _ _ _ DoWork => [DoWork.Command DefaultTimeout bEnableSkipIfError]
  | .BeforeEach DoWork => [DoWork.Command DefaultTimeout bEnableSkipIfError]
  | .AfterEach DoWork => [DoWork.Command DefaultTimeout false]
  | .Disabled _ => []
/-- The command objects a body creates, in the order of creation. -/
def NewObjectsAll (DefaultTimeout : FTimespan) (bEnableSkipIfError : Bool) :
    List Declaration → List IAutomationLatentCommand
  | [] => []
  | d :: rest =>
    d.NewObjects DefaultTimeout bEnableSkipIfError
      ++ NewObjectsAll DefaultTimeout bEnableSkipIfError rest
end

mutual
/-- The current scope after a declaration, made while the description stack is `Description`
and `Next` command objects exist. -/
def Declaration.Declare (IsWhitespace : Char → Bool) :
    Declaration → List FString → Nat → FSpecDefinitionScope → FSpecDefinitionScope
  | .Describe InDescription DoWork, Description, Next, Scope =>
    let New := DeclareAll IsWhitespace DoWork (Description ++ [InDescription]) Next
      { FSpecDefinitionScope.New with Description := InDescription }
    if New.It.length == 0 && New.Children.length == 0 then Scope
    else { Scope with Children := Scope.Children ++ [New] }
  | .It InDescription Filename LineNumber _, Description, Next, Scope =>
    { Scope with
      It := Scope.It ++
        [{ Description := GetDescription IsWhitespace (Description ++ [InDescription]),
           Id := IdOf IsWhitespace (Description ++ [InDescription]),
           Filename := Filename, LineNumber := LineNumber, Command := Next }] }
  | .BeforeEach _, _, Next, Scope => { Scope with BeforeEach := Scope.BeforeEach ++ [Next] }
  | .AfterEach _, _, Next, Scope => { Scope with AfterEach := Scope.AfterEach ++ [Next] }
  | .Disabled _, _, _, Scope => Scope
/-- The current scope after the declarations of a body. -/
def DeclareAll (IsWhitespace : Char → Bool) :
    List Declaration → List FString → Nat → FSpecDefinitionScope → FSpecDefinitionScope
  | [], _, _, Scope => Scope
  | d :: rest, Description, Next, Scope =>
    DeclareAll IsWhitespace rest Description (Next + (d.NewObjects 0 false).length)
      (d.Declare IsWhitespace Description Next Scope)
end

/-! ## What the specification says about the composer -/

/-- The separator rule of the id: between the text accumulated so far and the next segment
a single space is inserted exactly when the accumulated text does not end in whitespace
and the next segment does not start with whitespace. -/
def JoinIdStep (IsWhitespace : Char → Bool) (Acc Next : FString) : FString :=
  if !LastIsWhitespace IsWhitespace Acc && !FirstIsWhitespace IsWhitespace Next then
    Acc ++ SpaceText ++ Next
  else
    Acc ++ Next

/-- The id as the specification words it: the left-to-right fold of `JoinIdStep` over the
non-empty segments. -/
def FoldedId (IsWhitespace : Char → Bool) (Segments : List FString) : FString :=
  match Segments.filter (fun s => !s.isEmpty) with
  | [] => []
  | First :: rest => rest.foldl (JoinIdStep IsWhitespace) First

/-- The last segment triggers the bracket override: it is `p ++ "[" ++ t ++ "]"` with a
non-empty tag `t` that holds no opening bracket. -/
def TriggersOverride (Last : FString) : Prop :=
  ∃ p t : FString, Last = p ++ '[' :: t ++ [']'] ∧ t ≠ [] ∧ '[' ∉ t


/-! ## What the specification says about the scope tree and its flattening -/

mutual
/-- Every scope strictly below this one has a test or a child. -/
def FSpecDefinitionScope.GroupsNonEmpty : FSpecDefinitionScope → Bool
  | ⟨_, _, _, _, Children⟩ => AllGroupsNonEmpty Children
/-- Every scope of the list has a test or a child, and so has every scope below it. -/
def AllGroupsNonEmpty : List FSpecDefinitionScope → Bool
  | [] => true
  | Child :: rest =>
    (!Child.It.isEmpty || !Child.Children.isEmpty) && Child.GroupsNonEmpty
      && AllGroupsNonEmpty rest
end

mutual
/-- The tests declared in a scope and in the scopes below it. -/
def FSpecDefinitionScope.AllIts : FSpecDefinitionScope → List FSpecIt
  | ⟨_, _, It, _, Children⟩ => It ++ AllItsOf Children
/-- The tests declared in the scopes of a list and below them. -/
def AllItsOf : List FSpecDefinitionScope → List FSpecIt
  | [] => []
  | Child :: rest => Child.AllIts ++ AllItsOf rest
end

/-- The command references a scope holds itself: its before-each hooks, the bodies of its
tests and its after-each hooks. -/
def FSpecDefinitionScope.OwnCommands (Scope : FSpecDefinitionScope) : List CmdRef :=
  Scope.BeforeEach ++ Scope.It.map FSpecIt.Command ++ Scope.AfterEach

mutual
/-- The command references held anywhere in a tree. -/
def FSpecDefinitionScope.AllCommands : FSpecDefinitionScope → List CmdRef
  | ⟨_, BeforeEach, It, AfterEach, Children⟩ =>
    (BeforeEach ++ It.map FSpecIt.Command ++ AfterEach) ++ AllCommandsOf Children
/-- The command references held anywhere in the trees of a list. -/
def AllCommandsOf : List FSpecDefinitionScope → List CmdRef
  | [] => []
  | Child :: rest => Child.AllCommands ++ AllCommandsOf rest
end

/-- An ancestor chain `s0 .. sk` of the tree with root `s0`: each scope is a child of the one
before it. -/
inductive IsChain : FSpecDefinitionScope → List FSpecDefinitionScope → Prop
  | root (Scope : FSpecDefinitionScope) : IsChain Scope [Scope]
  | child (Scope Child : FSpecDefinitionScope) (chain : List FSpecDefinitionScope) :
      Child ∈ Scope.Children → IsChain Child chain → IsChain Scope (Scope :: chain)

/-- The compiled test the specification asks for: the before-each hooks from the outermost
scope inwards, the body, the after-each hooks reversed. -/
def ExpectedSpec (BeforeEach AfterEach : List CmdRef) (It : FSpecIt) : FSpec :=
  { Id := It.Id, Description := It.Description, Filename := It.Filename,
    LineNumber := It.LineNumber,
    Commands := BeforeEach ++ [It.Command] ++ AfterEach.reverse }

mutual
/-- The compiled tests of a scope entered under the accumulated hooks, in the order in which
`PostDefine` adds them: the tests of the scope, then the child scopes from the last to the
first, each with all that lies below it. -/
def FSpecDefinitionScope.Flatten (BeforeEach AfterEach : List CmdRef) :
    FSpecDefinitionScope → List FSpec
  | ⟨_, Before, It, After, Children⟩ =>
    It.map (ExpectedSpec (BeforeEach ++ Before) (AfterEach ++ After))
      ++ FlattenChildren (BeforeEach ++ Before) (AfterEach ++ After) Children
/-- The compiled tests of the children of a scope, the last child first. -/
def FlattenChildren (BeforeEach AfterEach : List CmdRef) :
    List FSpecDefinitionScope → List FSpec
  | [] => []
  | Child :: rest =>
    FlattenChildren BeforeEach AfterEach rest ++ Child.Flatten BeforeEach AfterEach
end

/-- Adding compiled tests to the map one after the other, each behind the `check` that its id
is not in the map yet. -/
def AddAll : List FSpec → List FSpec → Except Fault (List FSpec)
  | [], IdToSpecMap => .ok IdToSpecMap
  | Spec :: rest, IdToSpecMap =>
    if MapContains IdToSpecMap Spec.Id then .error .DuplicateId
    else AddAll rest (MapAdd IdToSpecMap Spec)

mutual
/-- The number of calls of `It`/`LatentIt` a declaration makes. -/
def Declaration.NumIt : Declaration → Nat
  | .Describe _ DoWork => NumItAll DoWork
  | .It _ _ _ _ => 1
  | .BeforeEach _ => 0
  | .AfterEach _ => 0
  | .Disabled _ => 0
/-- The number of calls of `It`/`LatentIt` a body makes. -/
def NumItAll : List Declaration → Nat
  | [] => 0
  | d :: rest => d.NumIt + NumItAll rest
end

/-- What a test declaration carries besides its command: id, description, file name and line
number. -/
structure TestInfo where
  Id : FString
  Description : FString
  Filename : FString
  LineNumber : Int
  deriving DecidableEq, Repr

mutual
/-- The tests a declaration declares while the description stack is `Description`: for each
call of `It` the id and description of the stack with the test's description pushed, and the
call site. -/
def Declaration.Declared (IsWhitespace : Char → Bool) :
    Declaration → List FString → List TestInfo
  | .Describe InDescription DoWork, Description =>
    DeclaredAll IsWhitespace DoWork (Description ++ [InDescription])
  | .It InDescription Filename LineNumber _, Description =>
    [{ Id := IdOf IsWhitespace (Description ++ [InDescription]),
       Description := GetDescription IsWhitespace (Description ++ [InDescription]),
       Filename := Filename, LineNumber := LineNumber }]
  | .BeforeEach _, _ => []
  | .AfterEach _, _ => []
  | .Disabled _, _ => []
/-- The tests a body declares. -/
def DeclaredAll (IsWhitespace : Char → Bool) : List Declaration → List FString → List TestInfo
  | [], _ => []
  | d :: rest, Description =>
    d.Declared IsWhitespace Description ++ DeclaredAll IsWhitespace rest Description
end

/-- The id, description, file name and line number of a test declaration. -/
def FSpecIt.Info (It : FSpecIt) : TestInfo :=
  { Id := It.Id, Description := It.Description, Filename := It.Filename,
    LineNumber := It.LineNumber }

/-- The id, description, file name and line number of a compiled test. -/
def FSpec.Info (Spec : FSpec) : TestInfo :=
  { Id := Spec.Id, Description := Spec.Description, Filename := Spec.Filename,
    LineNumber := Spec.LineNumber }

/-- What `PostDefine` does once everything above `below` on the stack is finished: the pop
loop runs on `below`, then the outer loop continues for `Fuel` more iterations. -/
def ResumeBelow (Fuel : Nat) (below : List FSpecDefinitionScope) (BeforeEach AfterEach : List CmdRef)
    (IdToSpecMap : List FSpec) : Except Fault Traversal :=
  (PopFinished below BeforeEach AfterEach).bind (fun r =>
    PostDefineLoop Fuel
      { Stack := r.1, BeforeEach := r.2.1, AfterEach := r.2.2, IdToSpecMap := IdToSpecMap })

/-- A call `It(d, ...)` from file `f`, line `l`, with the work arguments `w`, that a body
makes while the enclosing `Describe` calls of the body have the descriptions `ds`, the
outermost first. -/
inductive MakesIt : List Declaration → List FString → FString → FString → Int → Work → Prop
  | here (Body : List Declaration) (d f : FString) (l : Int) (w : Work) :
      Declaration.It d f l w ∈ Body → MakesIt Body [] d f l w
  | inside (Body Inner : List Declaration) (x : FString) (ds : List FString) (d f : FString)
      (l : Int) (w : Work) :
      Declaration.Describe x Inner ∈ Body → MakesIt Inner ds d f l w →
      MakesIt Body (x :: ds) d f l w

/-- The body `Without` is the body `With` with one `x`-variant declaration deleted, at the
top level or inside the bodies of nested `Describe` calls. -/
inductive DropsDisabled : List Declaration → List Declaration → Prop
  | here (pre : List Declaration) (d : Declaration) (post : List Declaration) :
      DropsDisabled (pre ++ .Disabled d :: post) (pre ++ post)
  | inside (pre : List Declaration) (x : FString) (With Without post : List Declaration) :
      DropsDisabled With Without →
      DropsDisabled (pre ++ .Describe x With :: post) (pre ++ .Describe x Without :: post)

mutual
/-- The tests a declaration contributes to the table, in two parts: the tests of the current
scope, and the tests of the groups below the current scope. An `It` is a test of the
current scope; a `Describe` contributes, as one block of group tests, the tests of its own
scope followed by the tests of the groups below it. -/
def Declaration.TableOrder (IsWhitespace : Char → Bool) :
    Declaration → List FString → List TestInfo × List TestInfo
  | .Describe InDescription DoWork, Description =>
    let r := TableOrderAll IsWhitespace DoWork (Description ++ [InDescription])
    ([], r.1 ++ r.2)
  | .It InDescription Filename LineNumber _, Description =>
    ([{ Id := IdOf IsWhitespace (Description ++ [InDescription]),
        Description := GetDescription IsWhitespace (Description ++ [InDescription]),
        Filename := Filename, LineNumber := LineNumber }], [])
  | .BeforeEach _, _ => ([], [])
  | .AfterEach _, _ => ([], [])
  | .Disabled _, _ => ([], [])
/-- The tests a body contributes to the table: the tests of the current scope in the order
of declaration, and the blocks of the groups in the reverse order of declaration. -/
def TableOrderAll (IsWhitespace : Char → Bool) :
    List Declaration → List FString → List TestInfo × List TestInfo
  | [], _ => ([], [])
  | d :: rest, Description =>
    let a := d.TableOrder IsWhitespace Description
    let b := TableOrderAll IsWhitespace rest Description
    (a.1 ++ b.1, b.2 ++ a.2)
end

/-- The table order of a definition body: the root-level tests in the order of declaration,
then the blocks of the root-level groups, the group declared last first. -/
def ExpectedTable (IsWhitespace : Char → Bool) (Body : List Declaration) : List TestInfo :=
  (TableOrderAll IsWhitespace Body []).1 ++ (TableOrderAll IsWhitespace Body []).2

/-- The loop of `PostDefine` (lines 114-165) once more, with a record of the scope that
each iteration takes from the top of the stack, in the order of the iterations. -/
def PostDefineLoopVisits :
    Nat → Traversal → List FSpecDefinitionScope →
      Except Fault (Traversal × List FSpecDefinitionScope)
  | Fuel, T, Visited =>
    match T.Stack with
    | [] => .ok (T, Visited)
    | Scope :: below =>
      match Fuel with
      | 0 => .error .OutOfFuel
      | Fuel + 1 => do
        let T ← PostDefineStep Scope below T
        PostDefineLoopVisits Fuel T (Visited ++ [Scope])

/-- What the recording loop does once everything above `below` on the stack is finished. -/
def ResumeBelowVisits (Fuel : Nat) (below : List FSpecDefinitionScope)
    (BeforeEach AfterEach : List CmdRef) (Visited : List FSpecDefinitionScope)
    (IdToSpecMap : List FSpec) : Except Fault (Traversal × List FSpecDefinitionScope) :=
  (PopFinished below BeforeEach AfterEach).bind (fun r =>
    PostDefineLoopVisits Fuel
      { Stack := r.1, BeforeEach := r.2.1, AfterEach := r.2.2, IdToSpecMap := IdToSpecMap }
      Visited)

mutual
/-- The scopes of a tree: the scope itself and every scope below it. -/
def FSpecDefinitionScope.AllScopes : FSpecDefinitionScope → List FSpecDefinitionScope
  | ⟨Description, BeforeEach, It, AfterEach, Children⟩ =>
    ⟨Description, BeforeEach, It, AfterEach, Children⟩ :: AllScopesOf Children
/-- The scopes of the trees of a list. -/
def AllScopesOf : List FSpecDefinitionScope → List FSpecDefinitionScope
  | [] => []
  | Child :: rest => Child.AllScopes ++ AllScopesOf rest
end

mutual
/-- The scopes of a tree in the order in which `PostDefine` takes them up: a scope, then its
children from the last to the first, each with all that lies below it. -/
def FSpecDefinitionScope.VisitOrder : FSpecDefinitionScope → List FSpecDefinitionScope
  | ⟨Description, BeforeEach, It, AfterEach, Children⟩ =>
    ⟨Description, BeforeEach, It, AfterEach, Children⟩ :: VisitOrderOf Children
/-- The scopes of the children of a scope in the order of the visits, the last child first. -/
def VisitOrderOf : List FSpecDefinitionScope → List FSpecDefinitionScope
  | [] => []
  | Child :: rest => VisitOrderOf rest ++ Child.VisitOrder
end

/-! ## Example definition bodies -/

/-- A body with a group `A` that has hooks, a test `x`, and a nested group `B` with a hook
of its own, and a sibling group `S` with a hook. Its command objects are, in the order of
creation: `A.before` 0, `A.after` 1, the body of `x` 2, `B.before` 3, the body of `y` 4,
`S.before` 5, the body of `z` 6. -/
def ExampleGroups : List Declaration :=
  [ .Describe "A".toList
      [ .BeforeEach (.Sync 10), .AfterEach (.Sync 11),
        .It "x".toList "Example.spec.cpp".toList 4 (.Sync 12),
        .Describe "B".toList
          [ .BeforeEach (.Sync 13), .It "y".toList "Example.spec.cpp".toList 7 (.Latent none 14) ] ],
    .Describe "S".toList
      [ .BeforeEach (.Sync 15), .It "z".toList "Example.spec.cpp".toList 11 (.Sync 16) ] ]

/-- The definition body of the repository's own spec (Automatron.spec.cpp 11-19): one
root-level test, declared by `It` with a synchronous body. -/
def FAutomatronSpec : List Declaration :=
  [ .It "Can run a test".toList "Automatron.spec.cpp".toList 16 (.Sync 0) ]

/-- A body that declares, in one group, two tests whose descriptions differ only in the
case of the letters. -/
def ExampleCaseIds : List Declaration :=
  [ .Describe "Group".toList
      [ .It "same".toList "Example.spec.cpp".toList 3 (.Sync 0),
        .It "SAME".toList "Example.spec.cpp".toList 6 (.Sync 1) ] ]

/-- A body with a group "A" holding a group "B", one hook of each kind in each, and in "B"
two tests whose descriptions differ only in the case of the letters. -/
def ExampleCaseChain : List Declaration :=
  [ .Describe "A".toList
      [ .BeforeEach (.Sync 0), .AfterEach (.Sync 1),
        .Describe "B".toList
          [ .BeforeEach (.Sync 2), .AfterEach (.Sync 3),
            .It "t".toList "Example.spec.cpp".toList 5 (.Sync 4),
            .It "T".toList "Example.spec.cpp".toList 8 (.Sync 5) ] ] ]

/-- A body that declares two tests with the same description in the same scope. -/
def ExampleDuplicate : List Declaration :=
  [ .Describe "Group".toList
      [ .It "same".toList "Example.spec.cpp".toList 3 (.Sync 0),
        .It "same".toList "Example.spec.cpp".toList 6 (.Sync 1) ] ]

/-- A body with a group that registers hooks and holds only an empty group, next to a test. -/
def ExampleEmptyGroup : List Declaration :=
  [ .It "kept".toList "Example.spec.cpp".toList 2 (.Sync 0),
    .Describe "Empty".toList
      [ .BeforeEach (.Sync 1), .AfterEach (.Sync 2), .Describe "Inner".toList [] ] ]

/-- A body whose one group carries the name under which the spec is registered in the
examples that use it, "Spec". -/
def ExampleNamedGroup : List Declaration :=
  [ .Describe "Spec".toList [ .It "a".toList "Spec.cpp".toList 3 (.Sync 0) ] ]

/-- An example body for a spec class derived from `FTestSpec` with the declarations of the
repository's own spec: the hooks of `PreDefine` (bodies 100 and 101), the test, and the
hook of `PostDefine` (body 102), all at the root scope. The header that assembles `Define`
from these three parts is not among the translated sources, so the order of the parts is
that of their names; the statements about `TestsRemaining` hold for every body and do not
depend on it. Its command objects are, in the order of creation: 0 and 1 the before-each
hooks, 2 the body of the test, 3 the tear-down hook. -/
def ExampleTestSpec : List Declaration :=
  FTestSpec.PreDefine true 100 101 ++ FAutomatronSpec ++ FTestSpec.PostDefine 102

deriving instance DecidableEq for Except

/-! # Theorems -/

/-! ## The composer -/

theorem intercalate_cons_eq (sep : List Char) (x : List Char) (xs : List (List Char)) :
    List.intercalate sep (x :: xs) = x ++ (xs.map (fun s => sep ++ s)).flatten := by
  induction xs generalizing x with
  | nil => simp [List.intercalate]
  | cons y ys ih =>
    have h := ih y
    simp only [List.intercalate, List.intersperse, List.flatten_cons, List.map_cons] at h ⊢
    rw [h]; simp

theorem GetDescriptionLoop_acc (ws : Char → Bool) (D : List FString) (acc : FString)
    (hacc : acc ≠ []) :
    GetDescriptionLoop ws D acc
      = acc ++ ((D.filter (fun s => !s.isEmpty)).map (fun s => DotText ++ s)).flatten := by
  induction D generalizing acc with
  | nil => simp [GetDescriptionLoop]
  | cons d rest ih =>
    cases d with
    | nil => simpa [GetDescriptionLoop] using ih acc hacc
    | cons c cs =>
      have hne : acc.isEmpty = false := by cases acc <;> simp_all
      by_cases hw : (LastIsWhitespace ws acc || FirstIsWhitespace ws (c :: cs)) = true
      · simp [GetDescriptionLoop, hne, hw, ih, DotText]
      · simp [GetDescriptionLoop, hne, hw, ih, DotText, PrintfDot]

theorem GetDescription_eq_intercalate (ws : Char → Bool) (D : List FString) :
    GetDescription ws D = List.intercalate DotText (D.filter (fun s => !s.isEmpty)) := by
  unfold GetDescription
  induction D with
  | nil => simp [GetDescriptionLoop, List.intercalate]
  | cons d rest ih =>
    cases d with
    | nil => simpa [GetDescriptionLoop] using ih
    | cons c cs =>
      simp only [GetDescriptionLoop, List.isEmpty_cons, Bool.false_eq_true, if_false,
        List.isEmpty_nil, if_true]
      rw [GetDescriptionLoop_acc ws rest (c :: cs) (by simp)]
      simp [List.filter, intercalate_cons_eq]

theorem GetIdLoop_acc (ws : Char → Bool) (D : List FString) (acc : FString) (hacc : acc ≠ []) :
    GetIdLoop ws D acc = (D.filter (fun s => !s.isEmpty)).foldl (JoinIdStep ws) acc := by
  induction D generalizing acc with
  | nil => simp [GetIdLoop]
  | cons d rest ih =>
    cases d with
    | nil => simpa [GetIdLoop] using ih acc hacc
    | cons c cs =>
      have hne : acc.isEmpty = false := by cases acc <;> simp_all
      by_cases hw : (LastIsWhitespace ws acc || FirstIsWhitespace ws (c :: cs)) = true
      · have hj : JoinIdStep ws acc (c :: cs) = acc ++ c :: cs := by
          unfold JoinIdStep
          rcases Bool.or_eq_true _ _ |>.mp hw with h | h <;> simp [h]
        simp only [GetIdLoop, List.isEmpty_cons, Bool.false_eq_true, if_false, hne, hw, if_true,
          List.filter, Bool.not_false, List.foldl_cons, hj]
        exact ih _ (by simp)
      · have hw2 : LastIsWhitespace ws acc = false ∧ FirstIsWhitespace ws (c :: cs) = false := by
          simpa using hw
        have hj : JoinIdStep ws acc (c :: cs) = PrintfSpace acc (c :: cs) := by
          simp [JoinIdStep, hw2.1, hw2.2, PrintfSpace, SpaceText]
        simp only [GetIdLoop, List.isEmpty_cons, Bool.false_eq_true, if_false, hne, hw,
          List.filter, Bool.not_false, List.foldl_cons, hj]
        exact ih _ (by simp [PrintfSpace])

theorem GetIdLoop_eq_FoldedId (ws : Char → Bool) (D : List FString) :
    GetIdLoop ws D [] = FoldedId ws D := by
  unfold FoldedId
  induction D with
  | nil => simp [GetIdLoop]
  | cons d rest ih =>
    cases d with
    | nil => simpa [GetIdLoop] using ih
    | cons c cs =>
      simp only [GetIdLoop, List.isEmpty_cons, Bool.false_eq_true, if_false,
        List.isEmpty_nil, if_true, List.filter, Bool.not_false]
      exact GetIdLoop_acc ws rest (c :: cs) (by simp)

theorem FindLastCharFrom_spec (c : Char) (s : FString) (i : Nat) (found : Option Nat) :
    (c ∉ s ∧ FindLastCharFrom c s i found = found) ∨
    (∃ p t, s = p ++ c :: t ∧ c ∉ t ∧ FindLastCharFrom c s i found = some (i + p.length)) := by
  induction s generalizing i found with
  | nil => left; simp [FindLastCharFrom]
  | cons x rest ih =>
    simp only [FindLastCharFrom]
    rcases ih (i + 1) (if (x == c) = true then some i else found) with ⟨hn, he⟩ | ⟨p, t, hs, ht, he⟩
    · by_cases hx : x = c
      · right
        refine ⟨[], rest, by simp [hx], hn, ?_⟩
        rw [he]; simp [hx]
      · left
        refine ⟨by simp [hn, Ne.symm hx], ?_⟩
        rw [he]; simp [hx]
    · right
      refine ⟨x :: p, t, by simp [hs], ht, ?_⟩
      rw [he]; simp; omega

theorem FindLastChar_append (c : Char) (p t : FString) (ht : c ∉ t) :
    FindLastChar (p ++ c :: t) c = some p.length := by
  rcases FindLastCharFrom_spec c (p ++ c :: t) 0 none with ⟨hn, _⟩ | ⟨p2, t2, hs, ht2, he⟩
  · simp at hn
  · unfold FindLastChar
    rw [he]
    -- the two decompositions at the last occurrence coincide
    have hlen : p2.length = p.length := by
      rcases List.append_eq_append_iff.mp hs with ⟨a, h1, h2⟩ | ⟨a, h1, h2⟩
      · cases a with
        | nil => simp [h1]
        | cons x a =>
          simp only [List.cons_append, List.cons.injEq] at h2
          exact absurd (by rw [h2.2]; simp) ht
      · cases a with
        | nil => simp [h1]
        | cons x a =>
          simp only [List.cons_append, List.cons.injEq] at h2
          exact absurd (by rw [h2.2]; simp) ht2
    simp [hlen]

theorem EndsWithBracket_iff (s : FString) :
    EndsWithBracket s = true ↔ ∃ r, s = r ++ [']'] := by
  unfold EndsWithBracket
  constructor
  · intro h
    cases hl : s.getLast? with
    | none => simp [hl] at h
    | some c =>
      simp [hl] at h
      subst h
      obtain ⟨r, hr⟩ := List.getLast?_eq_some_iff.mp hl
      exact ⟨r, hr⟩
  · rintro ⟨r, rfl⟩
    simp

theorem GetIdOverride_tag (p t : FString) (hne : t ≠ []) (ht : '[' ∉ t) :
    GetIdOverride (p ++ '[' :: t ++ [']']) = some t := by
  have hE : EndsWithBracket (p ++ '[' :: t ++ [']']) = true :=
    (EndsWithBracket_iff _).mpr ⟨p ++ '[' :: t, by simp⟩
  have hd : (p ++ '[' :: t ++ [']']).dropLast = p ++ '[' :: t := by
    have : p ++ '[' :: t ++ [']'] = (p ++ '[' :: t) ++ [']'] := by simp
    rw [this, List.dropLast_concat]
  have hlen : 0 < t.length := List.length_pos.mpr hne
  simp only [GetIdOverride, hE, if_true, hd, FindLastChar_append '[' p t ht, RightChop]
  have h1 : (p.length != (p ++ '[' :: t).length - 1) = true := by
    simp only [List.length_append, List.length_cons, bne_iff_ne, ne_eq]; omega
  simp [h1, hne]

theorem GetIdOverride_some (Last x : FString) (h : GetIdOverride Last = some x) :
    TriggersOverride Last := by
  unfold GetIdOverride at h
  by_cases hE : EndsWithBracket Last = true
  · obtain ⟨r, rfl⟩ := (EndsWithBracket_iff _).mp hE
    simp only [hE, if_true, List.dropLast_concat] at h
    rcases FindLastCharFrom_spec '[' r 0 none with ⟨_, he⟩ | ⟨p, t, hs, ht, he⟩
    · simp [FindLastChar, he] at h
    · simp only [FindLastChar, he, Nat.zero_add] at h
      by_cases hidx : (p.length != r.length - 1) = true
      · refine ⟨p, t, by simp [hs], ?_, ht⟩
        rintro rfl
        simp [hs] at hidx
      · simp [hidx] at h
  · simp [hE] at h

theorem GetIdOverride_none_of_not_triggers (Last : FString) (h : ¬ TriggersOverride Last) :
    GetIdOverride Last = none := by
  cases hv : GetIdOverride Last with
  | none => rfl
  | some x => exact absurd (GetIdOverride_some Last x hv) h

theorem infix_intercalate_of_mem (sep x : List Char) (xs : List (List Char)) (h : x ∈ xs) :
    x <:+: List.intercalate sep xs := by
  cases xs with
  | nil => simp at h
  | cons y ys =>
    rw [intercalate_cons_eq]
    rcases List.mem_cons.mp h with rfl | hm
    · exact ⟨[], (ys.map (fun s => sep ++ s)).flatten, by simp⟩
    · have h1 : (sep ++ x) <:+: (ys.map (fun s => sep ++ s)).flatten :=
        List.infix_of_mem_flatten (List.mem_map.mpr ⟨x, hm, rfl⟩)
      have h2 : x <:+: sep ++ x := ⟨sep, [], by simp⟩
      obtain ⟨a, b, hab⟩ := h2.trans h1
      exact ⟨y ++ a, b, by rw [← hab]; simp⟩

theorem LastIsWhitespace_append (ws : Char → Bool) (a s : FString) (hs : s ≠ []) :
    LastIsWhitespace ws (a ++ s) = LastIsWhitespace ws s := by
  unfold LastIsWhitespace
  cases hl : s.getLast? with
  | none => exact absurd (List.getLast?_eq_none_iff.mp hl) hs
  | some c => simp [List.getLast?_append, hl]

theorem foldl_JoinIdStep_plain (ws : Char → Bool) (segs : List FString) (acc : FString)
    (hacc : LastIsWhitespace ws acc = false)
    (hsegs : ∀ s ∈ segs, s ≠ [] ∧ FirstIsWhitespace ws s = false ∧ LastIsWhitespace ws s = false) :
    segs.foldl (JoinIdStep ws) acc = acc ++ (segs.map (fun s => SpaceText ++ s)).flatten := by
  induction segs generalizing acc with
  | nil => simp
  | cons s rest ih =>
    obtain ⟨hne, hf, hl⟩ := hsegs s (by simp)
    have hj : JoinIdStep ws acc s = acc ++ SpaceText ++ s := by simp [JoinIdStep, hacc, hf]
    rw [List.foldl_cons, hj, ih _ (by rw [LastIsWhitespace_append ws _ s hne]; exact hl)
      (fun x hx => hsegs x (List.mem_cons_of_mem _ hx))]
    simp

theorem FoldedId_plain (ws : Char → Bool) (D : List FString)
    (hD : ∀ s ∈ D, FirstIsWhitespace ws s = false ∧ LastIsWhitespace ws s = false) :
    FoldedId ws D = List.intercalate SpaceText (D.filter (fun s => !s.isEmpty)) := by
  unfold FoldedId
  have hmem : ∀ s ∈ D.filter (fun s => !s.isEmpty),
      s ≠ [] ∧ FirstIsWhitespace ws s = false ∧ LastIsWhitespace ws s = false := by
    intro s hs
    obtain ⟨h1, h2⟩ := List.mem_filter.mp hs
    refine ⟨?_, hD s h1⟩
    rintro rfl
    simp at h2
  cases hf : D.filter (fun s => !s.isEmpty) with
  | nil => simp [List.intercalate]
  | cons a rest =>
    rw [hf] at hmem
    simp only
    rw [foldl_JoinIdStep_plain ws rest a (hmem a (by simp)).2.2
      (fun x hx => hmem x (List.mem_cons_of_mem _ hx)), intercalate_cons_eq]

/-- C4: for every list of outer segments, every prefix `p` and every non-empty tag `t` without
an opening bracket, `GetId` on the stack `outer ++ [p ++ "[" ++ t ++ "]"]` returns exactly `t`,
whatever the outer segments are, while `GetDescription` on the same stack still contains
every non-empty outer segment. -/
theorem C4_GetId_bracket_tag (IsWhitespace : Char → Bool) (outer : List FString)
    (p t : FString) (hne : t ≠ []) (ht : '[' ∉ t) :
    GetId IsWhitespace (outer ++ [p ++ '[' :: t ++ [']']]) = .ok t ∧
    ∀ seg ∈ outer, seg ≠ [] →
      seg <:+: GetDescription IsWhitespace (outer ++ [p ++ '[' :: t ++ [']']]) := by
  constructor
  · simp only [GetId, List.getLast?_concat, GetIdOverride_tag p t hne ht]
  · intro seg hseg hnz
    rw [GetDescription_eq_intercalate]
    apply infix_intercalate_of_mem
    apply List.mem_filter.mpr
    refine ⟨List.mem_append_left _ hseg, ?_⟩
    cases seg with
    | nil => exact absurd rfl hnz
    | cons c cs => rfl

/-- C4, at the input of the specification: "Foo [stable-id]" under "Group" has the id
"stable-id" and the description "Group.Foo [stable-id]", which contains "Group". -/
theorem C4_GetId_bracket_tag_witness :
    GetId Char.isWhitespace ["Group".toList, "Foo [stable-id]".toList] = .ok "stable-id".toList ∧
    GetDescription Char.isWhitespace ["Group".toList, "Foo [stable-id]".toList]
      = "Group.Foo [stable-id]".toList ∧
    "Group".toList <:+:
      GetDescription Char.isWhitespace ["Group".toList, "Foo [stable-id]".toList] :=
  have h := C4_GetId_bracket_tag Char.isWhitespace ["Group".toList] "Foo ".toList
    "stable-id".toList (by decide) (by decide)
  ⟨h.1, by decide, h.2 "Group".toList (by decide) (by decide)⟩

/-- C5: on a non-empty description stack whose last segment does not trigger the bracket
override, `GetId` is the left-to-right fold over the non-empty segments that inserts one
space exactly when the accumulated text does not end in whitespace and the next segment does
not start with whitespace; when no segment begins or ends with whitespace, that is the
non-empty segments joined by single spaces. -/
theorem C5_GetId_fold (IsWhitespace : Char → Bool) (Description : List FString) (Last : FString)
    (hLast : Description.getLast? = some Last) (hno : ¬ TriggersOverride Last) :
    GetId IsWhitespace Description = .ok (FoldedId IsWhitespace Description) ∧
    ((∀ s ∈ Description,
        FirstIsWhitespace IsWhitespace s = false ∧ LastIsWhitespace IsWhitespace s = false) →
      GetId IsWhitespace Description
        = .ok (List.intercalate SpaceText (Description.filter (fun s => !s.isEmpty)))) := by
  have h : GetId IsWhitespace Description = .ok (FoldedId IsWhitespace Description) := by
    simp only [GetId, hLast, GetIdOverride_none_of_not_triggers Last hno, GetIdLoop_eq_FoldedId]
  exact ⟨h, fun hD => by rw [h, FoldedId_plain IsWhitespace Description hD]⟩

theorem not_triggers_of_not_bracket (Last : FString) (h : EndsWithBracket Last = false) :
    ¬ TriggersOverride Last := by
  rintro ⟨p, t, rfl, _, _⟩
  have : EndsWithBracket (p ++ '[' :: t ++ [']']) = true :=
    (EndsWithBracket_iff _).mpr ⟨p ++ '[' :: t, by simp⟩
  rw [this] at h
  exact Bool.noConfusion h

/-- C5, at the stack of the repository's own test nested under a group: no segment has
whitespace at its ends, and the id is the segments joined by one space. -/
theorem C5_GetId_fold_witness :
    GetId Char.isWhitespace ["Automatron".toList, [], "Can run a test".toList]
      = .ok "Automatron Can run a test".toList :=
  (C5_GetId_fold Char.isWhitespace ["Automatron".toList, [], "Can run a test".toList]
    "Can run a test".toList (by decide)
    (not_triggers_of_not_bracket _ (by decide))).2 (by decide)

/-- C6: `GetDescription` is the non-empty segments, in stack order, joined by exactly one
dot; empty segments contribute nothing, the whitespace test does not influence the result,
and the whitespace-adjacent branch and the default branch build the same string. -/
theorem C6_GetDescription_dot_join (IsWhitespace : Char → Bool) (Description : List FString) :
    GetDescription IsWhitespace Description
      = List.intercalate DotText (Description.filter (fun s => !s.isEmpty)) ∧
    (∀ IsWhitespace2 : Char → Bool,
      GetDescription IsWhitespace2 Description = GetDescription IsWhitespace Description) ∧
    (∀ A B : FString, (A ++ DotText) ++ B = PrintfDot A B) := by
  refine ⟨GetDescription_eq_intercalate _ _, fun ws2 => ?_, fun A B => ?_⟩
  · rw [GetDescription_eq_intercalate, GetDescription_eq_intercalate]
  · simp [DotText, PrintfDot]

/-! ## References into the scope tree -/

theorem At_Modify (f : FSpecDefinitionScope → FSpecDefinitionScope) (Ref : ScopeRef) :
    ∀ (Root Node : FSpecDefinitionScope), Root.At Ref = some Node →
      (Root.Modify f Ref).At Ref = some (f Node) := by
  induction Ref with
  | nil =>
    intro Root Node h
    simp only [FSpecDefinitionScope.At, Option.some.injEq] at h
    simp [FSpecDefinitionScope.At, FSpecDefinitionScope.Modify, h]
  | cons i rest ih =>
    intro Root Node h
    simp only [FSpecDefinitionScope.At, List.get?_eq_getElem?] at h
    cases hc : Root.Children[i]? with
    | none => simp [hc] at h
    | some Child =>
      simp only [hc] at h
      simp [FSpecDefinitionScope.At, FSpecDefinitionScope.Modify, hc, ih Child Node h]

theorem Modify_Modify (f g : FSpecDefinitionScope → FSpecDefinitionScope) (Ref : ScopeRef) :
    ∀ (Root : FSpecDefinitionScope),
      (Root.Modify f Ref).Modify g Ref = Root.Modify (fun Scope => g (f Scope)) Ref := by
  induction Ref with
  | nil => intro Root; rfl
  | cons i rest ih =>
    intro Root
    simp only [FSpecDefinitionScope.Modify, List.modify_modify_eq]
    congr 2
    funext Child
    exact ih Child

theorem Modify_congr (f g : FSpecDefinitionScope → FSpecDefinitionScope) (Ref : ScopeRef) :
    ∀ (Root Node : FSpecDefinitionScope), Root.At Ref = some Node → f Node = g Node →
      Root.Modify f Ref = Root.Modify g Ref := by
  induction Ref with
  | nil =>
    intro Root Node h hfg
    simp only [FSpecDefinitionScope.At, Option.some.injEq] at h
    simp [FSpecDefinitionScope.Modify, h, hfg]
  | cons i rest ih =>
    intro Root Node h hfg
    simp only [FSpecDefinitionScope.At, List.get?_eq_getElem?] at h
    cases hc : Root.Children[i]? with
    | none => simp [hc] at h
    | some Child =>
      simp only [hc] at h
      simp only [FSpecDefinitionScope.Modify]
      congr 1
      rw [List.modify_eq_set_get? _ i, List.modify_eq_set_get? _ i]
      simp [hc, ih Child Node h hfg]

theorem Modify_id (Ref : ScopeRef) :
    ∀ (Root : FSpecDefinitionScope), Root.Modify id Ref = Root := by
  induction Ref with
  | nil => intro Root; rfl
  | cons i rest ih =>
    intro Root
    simp only [FSpecDefinitionScope.Modify]
    have h : (fun Child : FSpecDefinitionScope => Child.Modify id rest) = id := by
      funext Child; exact ih Child
    rw [h, List.modify_id]
    cases Root
    rfl

theorem At_append_singleton (Ref : ScopeRef) (i : Nat) :
    ∀ (Root Node : FSpecDefinitionScope), Root.At Ref = some Node →
      Root.At (Ref ++ [i]) = Node.Children[i]? := by
  induction Ref with
  | nil =>
    intro Root Node h
    simp only [FSpecDefinitionScope.At, Option.some.injEq] at h
    subst h
    simp only [List.nil_append, FSpecDefinitionScope.At, List.get?_eq_getElem?]
    cases Root.Children[i]? <;> rfl
  | cons j rest ih =>
    intro Root Node h
    simp only [FSpecDefinitionScope.At, List.get?_eq_getElem?] at h
    cases hc : Root.Children[j]? with
    | none => simp [hc] at h
    | some Child =>
      simp only [hc] at h
      simp [FSpecDefinitionScope.At, hc, ih Child Node h]

theorem Modify_append_singleton (g : FSpecDefinitionScope → FSpecDefinitionScope)
    (Ref : ScopeRef) (i : Nat) :
    ∀ (Root : FSpecDefinitionScope),
      Root.Modify g (Ref ++ [i])
        = Root.Modify (fun Scope => { Scope with Children := Scope.Children.modify g i }) Ref := by
  induction Ref with
  | nil => intro Root; rfl
  | cons j rest ih =>
    intro Root
    simp only [List.cons_append, FSpecDefinitionScope.Modify]
    congr 2
    funext Child
    exact ih Child

/-! ## The definition pass computes the declared tree -/

theorem Last_eq {α : Type} (A : List α) (x : α) (h : A.getLast? = some x) : Last A = .ok x := by
  simp [Last, h]

theorem GetId_concat (ws : Char → Bool) (D : List FString) (d : FString) :
    GetId ws (D ++ [d]) = .ok (IdOf ws (D ++ [d])) := by
  unfold IdOf
  cases h : GetId ws (D ++ [d]) with
  | ok x => rfl
  | error e =>
    simp only [GetId, List.getLast?_concat] at h
    cases ho : GetIdOverride d with
    | none => simp [ho] at h
    | some x => simp [ho] at h

theorem WriteScope_eq (self : FTestSpecBase) (Root Node : FSpecDefinitionScope) (Ref : ScopeRef)
    (f : FSpecDefinitionScope → FSpecDefinitionScope)
    (hRoot : self.RootDefinitionScope = some Root) (hAt : Root.At Ref = some Node) :
    self.WriteScope Ref f = .ok { self with RootDefinitionScope := some (Root.Modify f Ref) } := by
  simp [FTestSpecBase.WriteScope, hRoot, hAt]

theorem ReadScope_eq (self : FTestSpecBase) (Root Node : FSpecDefinitionScope) (Ref : ScopeRef)
    (hRoot : self.RootDefinitionScope = some Root) (hAt : Root.At Ref = some Node) :
    self.ReadScope Ref = .ok Node := by
  simp [FTestSpecBase.ReadScope, hRoot, hAt]

mutual
theorem NewObjects_length (T : FTimespan) (b : Bool) :
    ∀ d : Declaration, (d.NewObjects T b).length = (d.NewObjects 0 false).length
  | .Describe _ DoWork => by
    simp only [Declaration.NewObjects]
    exact NewObjectsAll_length T b DoWork
  | .It _ _ _ _ => rfl
  | .BeforeEach _ => rfl
  | .AfterEach _ => rfl
  | .Disabled _ => rfl
theorem NewObjectsAll_length (T : FTimespan) (b : Bool) :
    ∀ ds : List Declaration,
      (NewObjectsAll T b ds).length = (NewObjectsAll 0 false ds).length
  | [] => rfl
  | d :: rest => by
    simp only [NewObjectsAll, List.length_append]
    rw [NewObjects_length T b d, NewObjectsAll_length T b rest]
end

theorem It_eq (ws : Char → Bool) (InDescription Filename : FString) (LineNumber : Int)
    (DoWork : Work) (self : FTestSpecBase) (Root Node : FSpecDefinitionScope) (Ref : ScopeRef)
    (hRoot : self.RootDefinitionScope = some Root)
    (hTop : self.DefinitionScopeStack.getLast? = some Ref) (hAt : Root.At Ref = some Node) :
    self.It ws InDescription Filename LineNumber DoWork
      = .ok { self with
          RootDefinitionScope := some (Root.Modify
            ((Declaration.It InDescription Filename LineNumber DoWork).Declare ws
              self.Description self.Objects.length) Ref),
          Objects := self.Objects ++
            (Declaration.It InDescription Filename LineNumber DoWork).NewObjects
              self.DefaultTimeout self.bEnableSkipIfError } := by
  simp only [FTestSpecBase.It, Last_eq _ _ hTop, FTestSpecBase.PushDescription, GetId_concat,
    FTestSpecBase.MakeShared, bind, Except.bind]
  simp [FTestSpecBase.WriteScope, hRoot, hAt, FTestSpecBase.PopDescription,
    Declaration.Declare, Declaration.NewObjects]

theorem BeforeEach_eq (ws : Char → Bool) (DoWork : Work) (self : FTestSpecBase)
    (Root Node : FSpecDefinitionScope) (Ref : ScopeRef)
    (hRoot : self.RootDefinitionScope = some Root)
    (hTop : self.DefinitionScopeStack.getLast? = some Ref) (hAt : Root.At Ref = some Node) :
    self.BeforeEach DoWork
      = .ok { self with
          RootDefinitionScope := some (Root.Modify
            ((Declaration.BeforeEach DoWork).Declare ws self.Description self.Objects.length) Ref),
          Objects := self.Objects ++
            (Declaration.BeforeEach DoWork).NewObjects
              self.DefaultTimeout self.bEnableSkipIfError } := by
  simp only [FTestSpecBase.BeforeEach, Last_eq _ _ hTop, FTestSpecBase.MakeShared, bind,
    Except.bind]
  simp [FTestSpecBase.WriteScope, hRoot, hAt, Declaration.Declare, Declaration.NewObjects]

theorem AfterEach_eq (ws : Char → Bool) (DoWork : Work) (self : FTestSpecBase)
    (Root Node : FSpecDefinitionScope) (Ref : ScopeRef)
    (hRoot : self.RootDefinitionScope = some Root)
    (hTop : self.DefinitionScopeStack.getLast? = some Ref) (hAt : Root.At Ref = some Node) :
    self.AfterEach DoWork
      = .ok { self with
          RootDefinitionScope := some (Root.Modify
            ((Declaration.AfterEach DoWork).Declare ws self.Description self.Objects.length) Ref),
          Objects := self.Objects ++
            (Declaration.AfterEach DoWork).NewObjects
              self.DefaultTimeout self.bEnableSkipIfError } := by
  simp only [FTestSpecBase.AfterEach, Last_eq _ _ hTop, FTestSpecBase.MakeShared, bind,
    Except.bind]
  simp [FTestSpecBase.WriteScope, hRoot, hAt, Declaration.Declare, Declaration.NewObjects]

theorem Describe_eq (ws : Char → Bool) (InDescription : FString) (Body : List Declaration)
    (DoWork : FTestSpecBase → Except Fault FTestSpecBase)
    (hDo : ∀ (self : FTestSpecBase) (Root Node : FSpecDefinitionScope) (Ref : ScopeRef),
      self.RootDefinitionScope = some Root →
      self.DefinitionScopeStack.getLast? = some Ref → Root.At Ref = some Node →
      DoWork self = .ok { self with
        RootDefinitionScope := some (Root.Modify
          (DeclareAll ws Body self.Description self.Objects.length) Ref),
        Objects := self.Objects ++
          NewObjectsAll self.DefaultTimeout self.bEnableSkipIfError Body })
    (self : FTestSpecBase) (Root Node : FSpecDefinitionScope) (Ref : ScopeRef)
    (hRoot : self.RootDefinitionScope = some Root)
    (hTop : self.DefinitionScopeStack.getLast? = some Ref) (hAt : Root.At Ref = some Node) :
    self.Describe InDescription DoWork
      = .ok { self with
          RootDefinitionScope := some (Root.Modify
            ((Declaration.Describe InDescription Body).Declare ws
              self.Description self.Objects.length) Ref),
          Objects := self.Objects ++
            (Declaration.Describe InDescription Body).NewObjects
              self.DefaultTimeout self.bEnableSkipIfError } := by
  -- the scope created by `MakeShared<FSpecDefinitionScope>()` and its position
  let c0 : FSpecDefinitionScope := { FSpecDefinitionScope.New with Description := InDescription }
  let k := Node.Children.length
  let push : FSpecDefinitionScope → FSpecDefinitionScope :=
    fun Scope => { Scope with Children := Scope.Children ++ [c0] }
  let F := DeclareAll ws Body (self.Description ++ [InDescription]) self.Objects.length
  let Root1 := Root.Modify push Ref
  have hAt1 : Root1.At Ref = some (push Node) := At_Modify push Ref Root Node hAt
  have hAtNew : Root1.At (Ref ++ [k]) = some c0 := by
    rw [At_append_singleton Ref k Root1 (push Node) hAt1]
    simp [push, k]
  let Root4 := Root1.Modify F (Ref ++ [k])
  have hAtNew4 : Root4.At (Ref ++ [k]) = some (F c0) := At_Modify F _ Root1 c0 hAtNew
  have hRoot4 : Root4 = Root.Modify
      (fun Scope => { push Scope with Children := (push Scope).Children.modify F k }) Ref := by
    simp only [Root4, Root1, Modify_append_singleton, Modify_Modify]
  have hAt4 : Root4.At Ref
      = some { push Node with Children := (push Node).Children.modify F k } := by
    rw [hRoot4]; exact At_Modify _ Ref Root Node hAt
  have hkids : (push Node).Children.modify F k = Node.Children ++ [F c0] := by
    simp only [push, k]
    rw [List.modify_eq_set_get?]
    simp
  have hrun := hDo
    { self with
      RootDefinitionScope := some Root1,
      DefinitionScopeStack := self.DefinitionScopeStack ++ [Ref ++ [k]],
      Description := self.Description ++ [InDescription] }
    Root1 c0 (Ref ++ [k]) rfl (List.getLast?_concat _) hAtNew
  simp only [FTestSpecBase.Describe, Last_eq _ _ hTop, ReadScope_eq self Root Node Ref hRoot hAt,
    bind, Except.bind, WriteScope_eq self Root Node Ref _ hRoot hAt,
    FTestSpecBase.PushDescription, hrun]
  simp only [FTestSpecBase.PopDescription, List.isEmpty_eq_true, List.append_eq_nil,
    List.cons_ne_self, and_false, if_false, List.dropLast_concat, Last, List.getLast?_concat,
    FTestSpecBase.ReadScope, reduceCtorEq]
  rw [At_Modify _ _ _ c0 hAtNew]
  simp only []
  have hNew : (Declaration.Describe InDescription Body).NewObjects self.DefaultTimeout
      self.bEnableSkipIfError = NewObjectsAll self.DefaultTimeout self.bEnableSkipIfError Body := by
    simp [Declaration.NewObjects]
  rw [hNew]
  by_cases hc : ((F c0).It.length == 0 && (F c0).Children.length == 0) = true
  · rw [if_pos hc]
    have hw := WriteScope_eq
      { self with
        RootDefinitionScope := some Root4,
        Objects := self.Objects ++ NewObjectsAll self.DefaultTimeout self.bEnableSkipIfError Body }
      Root4 _ Ref
      (fun Scope => { Scope with Children := Scope.Children.eraseIdx Node.Children.length })
      rfl hAt4
    rw [hw]
    simp only [Except.ok.injEq]
    congr 2
    rw [hRoot4, Modify_Modify]
    apply Modify_congr _ _ Ref Root Node hAt
    simp only [hkids, Declaration.Declare]
    rw [if_pos hc]
    have he : (Node.Children ++ [F c0]).eraseIdx Node.Children.length = Node.Children := by
      rw [List.eraseIdx_append_of_length_le (Nat.le_refl _)]
      simp
    simp only [he, push]
    cases Node
    rfl
  · rw [if_neg hc]
    simp only [Except.ok.injEq]
    congr 2
    show Root4 = _
    rw [hRoot4]
    apply Modify_congr _ _ Ref Root Node hAt
    simp only [hkids, Declaration.Declare]
    rw [if_neg hc]

mutual
theorem Run_eq (ws : Char → Bool) :
    ∀ (d : Declaration) (self : FTestSpecBase) (Root Node : FSpecDefinitionScope)
      (Ref : ScopeRef),
      self.RootDefinitionScope = some Root →
      self.DefinitionScopeStack.getLast? = some Ref → Root.At Ref = some Node →
      d.Run ws self = .ok { self with
        RootDefinitionScope := some (Root.Modify
          (d.Declare ws self.Description self.Objects.length) Ref),
        Objects := self.Objects ++ d.NewObjects self.DefaultTimeout self.bEnableSkipIfError }
  | .Describe InDescription Body, self, Root, Node, Ref, hRoot, hTop, hAt => by
    rw [Declaration.Run]
    exact Describe_eq ws InDescription Body (RunAll ws Body) (RunAll_eq ws Body)
      self Root Node Ref hRoot hTop hAt
  | .It InDescription Filename LineNumber DoWork, self, Root, Node, Ref, hRoot, hTop, hAt => by
    rw [Declaration.Run]
    exact It_eq ws InDescription Filename LineNumber DoWork self Root Node Ref hRoot hTop hAt
  | .BeforeEach DoWork, self, Root, Node, Ref, hRoot, hTop, hAt => by
    rw [Declaration.Run]
    exact BeforeEach_eq ws DoWork self Root Node Ref hRoot hTop hAt
  | .AfterEach DoWork, self, Root, Node, Ref, hRoot, hTop, hAt => by
    rw [Declaration.Run]
    exact AfterEach_eq ws DoWork self Root Node Ref hRoot hTop hAt
  | .Disabled d, self, Root, Node, Ref, hRoot, _, hAt => by
    rw [Declaration.Run]
    have h : Root.Modify ((Declaration.Disabled d).Declare ws self.Description
        self.Objects.length) Ref = Root := by
      rw [Modify_congr _ id Ref Root Node hAt (by simp [Declaration.Declare])]
      exact Modify_id Ref Root
    rw [h]
    cases self
    simp_all [Declaration.NewObjects]
theorem RunAll_eq (ws : Char → Bool) :
    ∀ (ds : List Declaration) (self : FTestSpecBase) (Root Node : FSpecDefinitionScope)
      (Ref : ScopeRef),
      self.RootDefinitionScope = some Root →
      self.DefinitionScopeStack.getLast? = some Ref → Root.At Ref = some Node →
      RunAll ws ds self = .ok { self with
        RootDefinitionScope := some (Root.Modify
          (DeclareAll ws ds self.Description self.Objects.length) Ref),
        Objects := self.Objects ++ NewObjectsAll self.DefaultTimeout self.bEnableSkipIfError ds }
  | [], self, Root, Node, Ref, hRoot, _, hAt => by
    rw [RunAll]
    have h : Root.Modify (DeclareAll ws [] self.Description self.Objects.length) Ref = Root := by
      rw [Modify_congr _ id Ref Root Node hAt (by simp [DeclareAll])]
      exact Modify_id Ref Root
    rw [h]
    cases self
    simp_all [NewObjectsAll]
  | d :: rest, self, Root, Node, Ref, hRoot, hTop, hAt => by
    rw [RunAll]
    simp only [bind, Except.bind, Run_eq ws d self Root Node Ref hRoot hTop hAt]
    have hrest := RunAll_eq ws rest
      { self with
        RootDefinitionScope := some (Root.Modify
          (d.Declare ws self.Description self.Objects.length) Ref),
        Objects := self.Objects ++ d.NewObjects self.DefaultTimeout self.bEnableSkipIfError }
      _ _ Ref rfl hTop
      (At_Modify (d.Declare ws self.Description self.Objects.length) Ref Root Node hAt)
    rw [hrest]
    simp only [Modify_Modify, List.length_append, NewObjects_length self.DefaultTimeout
      self.bEnableSkipIfError d, DeclareAll, NewObjectsAll, List.append_assoc]
end

/-! ## `PostDefine` adds the flattened tree to the map -/

theorem AddAfterEachReversed_eq (AfterEach : List CmdRef) :
    ∀ (n : Nat) (Commands : List CmdRef), n ≤ AfterEach.length →
      AddAfterEachReversed AfterEach n Commands = Commands ++ (AfterEach.take n).reverse := by
  intro n
  induction n with
  | zero => intro Commands _; simp [AddAfterEachReversed]
  | succ n ih =>
    intro Commands hn
    have hlt : n < AfterEach.length := hn
    have hget : AfterEach.get? n = some AfterEach[n] := by
      simp [List.getElem?_eq_getElem hlt]
    have htake : List.take (n + 1) AfterEach = List.take n AfterEach ++ [AfterEach[n]] := by
      rw [List.take_succ, List.getElem?_eq_getElem hlt]
      rfl
    rw [AddAfterEachReversed, hget]
    simp only
    rw [ih _ (Nat.le_of_lt hlt), htake, List.reverse_append, List.append_assoc]
    rfl

theorem CompileIt_eq (BeforeEach AfterEach : List CmdRef) (It : FSpecIt) :
    CompileIt BeforeEach AfterEach It = ExpectedSpec BeforeEach AfterEach It := by
  simp [CompileIt, ExpectedSpec, AddAfterEachReversed_eq AfterEach AfterEach.length _ (Nat.le_refl _)]

theorem CompileIts_eq (BeforeEach AfterEach : List CmdRef) :
    ∀ (Its : List FSpecIt) (Map : List FSpec),
      CompileIts BeforeEach AfterEach Its Map
        = AddAll (Its.map (ExpectedSpec BeforeEach AfterEach)) Map := by
  intro Its
  induction Its with
  | nil => intro Map; rfl
  | cons It rest ih =>
    intro Map
    simp only [CompileIts, List.map_cons, AddAll, CompileIt_eq, ih]

theorem AddAll_append (A B : List FSpec) :
    ∀ Map : List FSpec, AddAll (A ++ B) Map = (AddAll A Map).bind (AddAll B) := by
  induction A with
  | nil => intro Map; rfl
  | cons a rest ih =>
    intro Map
    simp only [List.cons_append, AddAll]
    by_cases h : MapContains Map a.Id = true
    · simp [h, Except.bind]
    · simp [h, ih]

theorem RemoveLast_append {α : Type} (A B : List α) :
    RemoveLast (A ++ B) B.length = .ok A := by
  simp [RemoveLast]

theorem PopFinished_done (Top : FSpecDefinitionScope) (below : List FSpecDefinitionScope)
    (BeforeEach AfterEach : List CmdRef)
    (hC : Top.Children = []) (hI : Top.It = []) :
    PopFinished (Top :: below) (BeforeEach ++ Top.BeforeEach) (AfterEach ++ Top.AfterEach)
      = PopFinished below BeforeEach AfterEach := by
  rw [PopFinished]
  simp only [hC, hI, List.length_nil, beq_self_eq_true, Bool.and_self, if_true, bind,
    Except.bind]
  by_cases hB : Top.BeforeEach.length > 0 <;> by_cases hA : Top.AfterEach.length > 0
  · simp only [if_pos hB, if_pos hA, RemoveLast_append]
  · have : Top.AfterEach = [] := List.length_eq_zero.mp (by omega)
    simp [if_pos hB, RemoveLast_append, this]
  · have : Top.BeforeEach = [] := List.length_eq_zero.mp (by omega)
    simp [if_pos hA, RemoveLast_append, this]
  · have h1 : Top.BeforeEach = [] := List.length_eq_zero.mp (by omega)
    have h2 : Top.AfterEach = [] := List.length_eq_zero.mp (by omega)
    simp [h1, h2]

theorem PopFinished_pending (Top : FSpecDefinitionScope) (below : List FSpecDefinitionScope)
    (BeforeEach AfterEach : List CmdRef)
    (h : (!Top.It.isEmpty || !Top.Children.isEmpty) = true) :
    PopFinished (Top :: below) BeforeEach AfterEach = .ok (Top :: below, BeforeEach, AfterEach) := by
  rw [PopFinished]
  have hc : (Top.Children.length == 0 && Top.It.length == 0) = false := by
    cases hI : Top.It <;> cases hC : Top.Children <;> simp_all
  simp [hc]

theorem PostDefineLoop_step (Fuel : Nat) (Scope : FSpecDefinitionScope)
    (below : List FSpecDefinitionScope) (BeforeEach AfterEach : List CmdRef) (Map : List FSpec) :
    PostDefineLoop (Fuel + 1)
        { Stack := Scope :: below, BeforeEach := BeforeEach, AfterEach := AfterEach,
          IdToSpecMap := Map }
      = (PostDefineStep Scope below
          { Stack := Scope :: below, BeforeEach := BeforeEach, AfterEach := AfterEach,
            IdToSpecMap := Map }).bind (PostDefineLoop Fuel) := by
  rw [PostDefineLoop]
  rfl

mutual
theorem PostDefineLoop_scope :
    ∀ (Scope : FSpecDefinitionScope) (below : List FSpecDefinitionScope)
      (BeforeEach AfterEach : List CmdRef) (Map : List FSpec) (Fuel : Nat),
      Scope.GroupsNonEmpty = true →
      PostDefineLoop (Scope.NumScopes + Fuel)
          { Stack := Scope :: below, BeforeEach := BeforeEach, AfterEach := AfterEach,
            IdToSpecMap := Map }
        = (AddAll (Scope.Flatten BeforeEach AfterEach) Map).bind
            (ResumeBelow Fuel below BeforeEach AfterEach)
  | ⟨D, Before, It, After, Children⟩, below, BeforeEach, AfterEach, Map, Fuel, hG => by
    have hfuel : (FSpecDefinitionScope.mk D Before It After Children).NumScopes + Fuel
        = (NumScopesAll Children + Fuel) + 1 := by
      simp only [FSpecDefinitionScope.NumScopes]; omega
    rw [hfuel, PostDefineLoop_step, FSpecDefinitionScope.Flatten, AddAll_append]
    simp only [PostDefineStep, CompileIts_eq, bind, Except.bind]
    cases hadd : AddAll (List.map (ExpectedSpec (BeforeEach ++ Before) (AfterEach ++ After)) It) Map with
    | error e => rfl
    | ok Map1 =>
      simp only []
      cases Children with
      | nil =>
        have hpop := PopFinished_done ⟨D, Before, [], After, []⟩ below BeforeEach AfterEach rfl rfl
        simp only [] at hpop
        simp only [List.length_nil, gt_iff_lt, Nat.lt_irrefl, if_false, hpop, FlattenChildren,
          AddAll, NumScopesAll, Nat.zero_add, ResumeBelow]
        cases hp : PopFinished below BeforeEach AfterEach with
        | error e => rfl
        | ok r => rfl
      | cons Child rest =>
        have hpop := PopFinished_done ⟨D, Before, [], After, []⟩ below BeforeEach AfterEach rfl rfl
        simp only [] at hpop
        have hG2 : AllGroupsNonEmpty (Child :: rest) = true := by
          simpa [FSpecDefinitionScope.GroupsNonEmpty] using hG
        simp only [List.length_cons, gt_iff_lt, Nat.zero_lt_succ, if_true]
        rw [PostDefineLoop_children (Child :: rest) _ _ _ Map1 Fuel hG2 (by simp)]
        have hres : ResumeBelow Fuel (⟨D, Before, [], After, []⟩ :: below)
            (BeforeEach ++ Before) (AfterEach ++ After)
            = ResumeBelow Fuel below BeforeEach AfterEach := by
          funext M
          simp only [ResumeBelow, hpop]
        rw [hres]
        rfl
theorem PostDefineLoop_children :
    ∀ (Children : List FSpecDefinitionScope) (below : List FSpecDefinitionScope)
      (BeforeEach AfterEach : List CmdRef) (Map : List FSpec) (Fuel : Nat),
      AllGroupsNonEmpty Children = true → Children ≠ [] →
      PostDefineLoop (NumScopesAll Children + Fuel)
          { Stack := Children.reverse ++ below, BeforeEach := BeforeEach, AfterEach := AfterEach,
            IdToSpecMap := Map }
        = (AddAll (FlattenChildren BeforeEach AfterEach Children) Map).bind
            (ResumeBelow Fuel below BeforeEach AfterEach)
  | [], _, _, _, _, _, _, hne => absurd rfl hne
  | Child :: rest, below, BeforeEach, AfterEach, Map, Fuel, hG, _ => by
    have hG1 : (!Child.It.isEmpty || !Child.Children.isEmpty) = true
        ∧ Child.GroupsNonEmpty = true ∧ AllGroupsNonEmpty rest = true := by
      simpa [AllGroupsNonEmpty, and_assoc] using hG
    rw [FlattenChildren, AddAll_append]
    cases rest with
    | nil =>
      simp only [List.reverse_cons, List.reverse_nil, List.nil_append, List.singleton_append,
        NumScopesAll, Nat.add_zero, FlattenChildren, AddAll, Except.bind]
      exact PostDefineLoop_scope Child below BeforeEach AfterEach Map Fuel hG1.2.1
    | cons Second rest2 =>
      have hfuel : NumScopesAll (Child :: Second :: rest2) + Fuel
          = NumScopesAll (Second :: rest2) + (Child.NumScopes + Fuel) := by
        simp only [NumScopesAll]; omega
      have hstack : (Child :: Second :: rest2).reverse ++ below
          = (Second :: rest2).reverse ++ (Child :: below) := by simp
      rw [hfuel, hstack,
        PostDefineLoop_children (Second :: rest2) (Child :: below) BeforeEach AfterEach Map
          (Child.NumScopes + Fuel) hG1.2.2 (by simp)]
      cases hadd : AddAll (FlattenChildren BeforeEach AfterEach (Second :: rest2)) Map with
      | error e => rfl
      | ok Map1 =>
        simp only [Except.bind, ResumeBelow, PopFinished_pending Child below BeforeEach AfterEach hG1.1]
        exact PostDefineLoop_scope Child below BeforeEach AfterEach Map1 Fuel hG1.2.1
end


theorem FStringEquals_iff (Lhs Rhs : FString) :
    FStringEquals Lhs Rhs = true ↔ IgnoreCase Lhs = IgnoreCase Rhs := by
  simp only [FStringEquals, beq_iff_eq]

theorem FStringEquals_self (S : FString) : FStringEquals S S = true :=
  (FStringEquals_iff S S).mpr rfl

theorem Nodup_of_Nodup_IgnoreCase (Ids : List FString) (h : (Ids.map IgnoreCase).Nodup) :
    Ids.Nodup :=
  List.Nodup.of_map IgnoreCase h

theorem MapContains_iff (Map : List FSpec) (Key : FString) :
    MapContains Map Key = true ↔ IgnoreCase Key ∈ (Map.map FSpec.Id).map IgnoreCase := by
  simp only [MapContains, List.any_eq_true, List.mem_map, FStringEquals_iff]
  constructor
  · rintro ⟨x, hx, he⟩
    exact ⟨x.Id, ⟨x, hx, rfl⟩, he⟩
  · rintro ⟨_, ⟨x, hx, rfl⟩, he⟩
    exact ⟨x, hx, he⟩

theorem MapAdd_new : ∀ (Map : List FSpec) (Value : FSpec),
    IgnoreCase Value.Id ∉ (Map.map FSpec.Id).map IgnoreCase → MapAdd Map Value = Map ++ [Value]
  | [], _, _ => rfl
  | Entry :: rest, Value, h => by
    have h1 : FStringEquals Entry.Id Value.Id = false := by
      rw [← Bool.not_eq_true, FStringEquals_iff]
      intro he; exact h (by simp [he])
    have h2 : IgnoreCase Value.Id ∉ (rest.map FSpec.Id).map IgnoreCase := by
      intro hm; exact h (by simp only [List.map_cons, List.mem_cons]; exact Or.inr hm)
    simp [MapAdd, h1, MapAdd_new rest Value h2]

theorem AddAll_ok : ∀ (Specs Map : List FSpec),
    (((Map ++ Specs).map FSpec.Id).map IgnoreCase).Nodup → AddAll Specs Map = .ok (Map ++ Specs)
  | [], Map, _ => by simp [AddAll]
  | Spec :: rest, Map, h => by
    have hnot : IgnoreCase Spec.Id ∉ (Map.map FSpec.Id).map IgnoreCase := by
      intro hm
      rw [List.map_append, List.map_append, List.nodup_append] at h
      exact h.2.2 hm (by simp)
    have hc : MapContains Map Spec.Id = false := by
      rw [← Bool.not_eq_true, MapContains_iff]; exact hnot
    rw [AddAll, hc, MapAdd_new Map Spec hnot]
    simp only [Bool.false_eq_true, if_false]
    rw [AddAll_ok rest (Map ++ [Spec]) (by simpa using h)]
    simp

theorem AddAll_dup : ∀ (Specs Map : List FSpec),
    ((Map.map FSpec.Id).map IgnoreCase).Nodup →
    ¬ (((Map ++ Specs).map FSpec.Id).map IgnoreCase).Nodup →
      AddAll Specs Map = .error .DuplicateId
  | [], Map, hM, h => by simp only [List.append_nil] at h; exact absurd hM h
  | Spec :: rest, Map, hM, h => by
    rw [AddAll]
    by_cases hc : MapContains Map Spec.Id = true
    · simp [hc]
    · have hnot : IgnoreCase Spec.Id ∉ (Map.map FSpec.Id).map IgnoreCase := by
        rw [← MapContains_iff]; exact hc
      simp only [hc, if_false, MapAdd_new Map Spec hnot]
      apply AddAll_dup rest (Map ++ [Spec])
      · rw [List.map_append, List.map_append, List.nodup_append]
        refine ⟨hM, by simp, ?_⟩
        intro a ha hb
        simp only [List.map_cons, List.map_nil, List.mem_singleton] at hb
        exact hnot (hb ▸ ha)
      · simpa using h

theorem AddAll_result (Specs Map : List FSpec)
    (hM : ((Map.map FSpec.Id).map IgnoreCase).Nodup) :
    AddAll Specs Map
      = if (((Map ++ Specs).map FSpec.Id).map IgnoreCase).Nodup then .ok (Map ++ Specs)
        else .error .DuplicateId := by
  by_cases h : (((Map ++ Specs).map FSpec.Id).map IgnoreCase).Nodup
  · rw [if_pos h, AddAll_ok Specs Map h]
  · rw [if_neg h, AddAll_dup Specs Map hM h]

theorem PostDefine_eq (self : FTestSpecBase) (Root : FSpecDefinitionScope)
    (hRoot : self.RootDefinitionScope = some Root) (hG : Root.GroupsNonEmpty = true) :
    self.PostDefine
      = (AddAll (Root.Flatten [] []) self.IdToSpecMap).bind (fun Map =>
          .ok { self with IdToSpecMap := Map, RootDefinitionScope := none,
                          DefinitionScopeStack := [], bHasBeenDefined := true }) := by
  have h := PostDefineLoop_scope Root [] [] [] self.IdToSpecMap 0 hG
  simp only [Nat.add_zero] at h
  simp only [FTestSpecBase.PostDefine, hRoot, h, bind, Except.bind]
  cases AddAll (Root.Flatten [] []) self.IdToSpecMap with
  | error e => rfl
  | ok Map => rfl

/-! ## The pruning invariant of the definition pass -/

theorem AllGroupsNonEmpty_append (A B : List FSpecDefinitionScope) :
    AllGroupsNonEmpty (A ++ B) = (AllGroupsNonEmpty A && AllGroupsNonEmpty B) := by
  induction A with
  | nil => simp [AllGroupsNonEmpty]
  | cons a rest ih => simp [AllGroupsNonEmpty, ih, Bool.and_assoc]

mutual
theorem Declare_GroupsNonEmpty (ws : Char → Bool) :
    ∀ (d : Declaration) (Description : List FString) (Next : Nat) (Scope : FSpecDefinitionScope),
      Scope.GroupsNonEmpty = true →
      (d.Declare ws Description Next Scope).GroupsNonEmpty = true
  | .Describe InDescription Body, Description, Next, ⟨D, B, I, A, C⟩, h => by
    have hNew := DeclareAll_GroupsNonEmpty ws Body (Description ++ [InDescription]) Next
      { FSpecDefinitionScope.New with Description := InDescription } rfl
    simp only [Declaration.Declare]
    split
    · exact h
    · rename_i hc
      simp only [FSpecDefinitionScope.GroupsNonEmpty, AllGroupsNonEmpty_append, AllGroupsNonEmpty,
        Bool.and_true, Bool.and_eq_true] at h ⊢
      refine ⟨h, ?_, hNew⟩
      generalize DeclareAll ws Body (Description ++ [InDescription]) Next
        { FSpecDefinitionScope.New with Description := InDescription } = New at hc
      cases hI : New.It <;> cases hC : New.Children <;> simp_all
  | .It _ _ _ _, _, _, ⟨D, B, I, A, C⟩, h => by
    simpa [Declaration.Declare, FSpecDefinitionScope.GroupsNonEmpty] using h
  | .BeforeEach _, _, _, ⟨D, B, I, A, C⟩, h => by
    simpa [Declaration.Declare, FSpecDefinitionScope.GroupsNonEmpty] using h
  | .AfterEach _, _, _, ⟨D, B, I, A, C⟩, h => by
    simpa [Declaration.Declare, FSpecDefinitionScope.GroupsNonEmpty] using h
  | .Disabled _, _, _, _, h => by
    simpa [Declaration.Declare] using h
theorem DeclareAll_GroupsNonEmpty (ws : Char → Bool) :
    ∀ (ds : List Declaration) (Description : List FString) (Next : Nat)
      (Scope : FSpecDefinitionScope),
      Scope.GroupsNonEmpty = true →
      (DeclareAll ws ds Description Next Scope).GroupsNonEmpty = true
  | [], _, _, _, h => by simpa [DeclareAll] using h
  | d :: rest, Description, Next, Scope, h => by
    rw [DeclareAll]
    exact DeclareAll_GroupsNonEmpty ws rest Description _ _
      (Declare_GroupsNonEmpty ws d Description Next Scope h)
end

/-- The spec after the user's `Define()` with body `Body` on a fresh spec: the root scope is
the declared tree, the pool holds the commands the body created. -/
theorem Define_eq (ws : Char → Bool) (InName : FString) (Body : List Declaration) :
    Define ws InName Body
      = .ok { FTestSpecBase.New InName with
          RootDefinitionScope := some (DeclareAll ws Body [] 0 FSpecDefinitionScope.New),
          Objects := NewObjectsAll ThirtySeconds true Body } := by
  have h := RunAll_eq ws Body (FTestSpecBase.New InName) FSpecDefinitionScope.New
    FSpecDefinitionScope.New [] rfl rfl rfl
  rw [Define, h]
  simp [FTestSpecBase.New, FSpecDefinitionScope.Modify]


/-! ## The flattened tree, chain by chain -/

theorem mem_FlattenChildren (BeforeEach AfterEach : List CmdRef) (Spec : FSpec) :
    ∀ (Children : List FSpecDefinitionScope) (Child : FSpecDefinitionScope),
      Child ∈ Children → Spec ∈ Child.Flatten BeforeEach AfterEach →
      Spec ∈ FlattenChildren BeforeEach AfterEach Children
  | [], _, h, _ => by simp at h
  | First :: rest, Child, h, hS => by
    rw [FlattenChildren, List.mem_append]
    rcases List.mem_cons.mp h with rfl | hm
    · exact Or.inr hS
    · exact Or.inl (mem_FlattenChildren BeforeEach AfterEach Spec rest Child hm hS)

theorem mem_Flatten_of_chain (It : FSpecIt) (Last : FSpecDefinitionScope) :
    ∀ (Root : FSpecDefinitionScope) (chain : List FSpecDefinitionScope),
      IsChain Root chain → chain.getLast? = some Last → It ∈ Last.It →
      ∀ (BeforeEach AfterEach : List CmdRef),
        ExpectedSpec (BeforeEach ++ (chain.map FSpecDefinitionScope.BeforeEach).flatten)
            (AfterEach ++ (chain.map FSpecDefinitionScope.AfterEach).flatten) It
          ∈ Root.Flatten BeforeEach AfterEach := by
  intro Root chain hchain
  induction hchain with
  | root Scope =>
    intro hLast hIt BeforeEach AfterEach
    simp only [List.getLast?_singleton, Option.some.injEq] at hLast
    subst hLast
    cases Scope with
    | mk D B I A C =>
      simp only [List.map_cons, List.map_nil, List.flatten_cons, List.flatten_nil,
        List.append_nil, FSpecDefinitionScope.Flatten, List.mem_append, List.mem_map]
      exact Or.inl ⟨It, hIt, rfl⟩
  | child Scope Child chain hmem hchain ih =>
    intro hLast hIt BeforeEach AfterEach
    have hne : chain ≠ [] := by
      cases hchain <;> simp
    have hLast2 : chain.getLast? = some Last := by
      cases chain with
      | nil => exact absurd rfl hne
      | cons x xs => simpa [List.getLast?_cons_cons] using hLast
    have h := ih hLast2 hIt (BeforeEach ++ Scope.BeforeEach) (AfterEach ++ Scope.AfterEach)
    cases Scope with
    | mk D B I A C =>
      simp only [List.map_cons, List.flatten_cons, FSpecDefinitionScope.Flatten,
        List.mem_append] at h ⊢
      right
      apply mem_FlattenChildren _ _ _ C Child hmem
      simpa [List.append_assoc] using h

mutual
theorem Flatten_Info (BeforeEach AfterEach : List CmdRef) :
    ∀ (Scope : FSpecDefinitionScope),
      List.Perm ((Scope.Flatten BeforeEach AfterEach).map FSpec.Info)
        (Scope.AllIts.map FSpecIt.Info)
  | ⟨D, B, I, A, C⟩ => by
    simp only [FSpecDefinitionScope.Flatten, FSpecDefinitionScope.AllIts, List.map_append,
      List.map_map]
    apply List.Perm.append
    · have : (FSpec.Info ∘ ExpectedSpec (BeforeEach ++ B) (AfterEach ++ A)) = FSpecIt.Info := by
        funext It; rfl
      rw [this]
    · exact FlattenChildren_Info (BeforeEach ++ B) (AfterEach ++ A) C
theorem FlattenChildren_Info (BeforeEach AfterEach : List CmdRef) :
    ∀ (Children : List FSpecDefinitionScope),
      List.Perm ((FlattenChildren BeforeEach AfterEach Children).map FSpec.Info)
        ((AllItsOf Children).map FSpecIt.Info)
  | [] => by simp [FlattenChildren, AllItsOf]
  | Child :: rest => by
    simp only [FlattenChildren, AllItsOf, List.map_append]
    exact List.perm_append_comm.trans
      ((Flatten_Info BeforeEach AfterEach Child).append
        (FlattenChildren_Info BeforeEach AfterEach rest))
end

theorem Flatten_Ids (BeforeEach AfterEach : List CmdRef) (Scope : FSpecDefinitionScope) :
    List.Perm ((Scope.Flatten BeforeEach AfterEach).map FSpec.Id)
      (Scope.AllIts.map FSpecIt.Id) := by
  have h := (Flatten_Info BeforeEach AfterEach Scope).map TestInfo.Id
  simpa [List.map_map, Function.comp_def, FSpec.Info, FSpecIt.Info] using h

theorem MapFind_of_mem : ∀ (Map : List FSpec) (Spec : FSpec),
    ((Map.map FSpec.Id).map IgnoreCase).Nodup → Spec ∈ Map → MapFind Map Spec.Id = some Spec
  | [], _, _, h => by simp at h
  | Entry :: rest, Spec, hN, h => by
    simp only [List.map_cons, List.nodup_cons] at hN
    rw [MapFind, List.find?_cons]
    rcases List.mem_cons.mp h with rfl | hm
    · simp [FStringEquals_self]
    · have hb : FStringEquals Entry.Id Spec.Id = false := by
        rw [← Bool.not_eq_true, FStringEquals_iff]
        intro he
        exact hN.1 (he ▸ List.mem_map_of_mem IgnoreCase (List.mem_map_of_mem FSpec.Id hm))
      rw [hb]
      exact MapFind_of_mem rest Spec hN.2 hm

/-- With pairwise different keys, a key finds the one entry whose id it equals up to case. -/
theorem MapFind_of_key (Map : List FSpec) (Spec : FSpec) (Key : FString)
    (hN : ((Map.map FSpec.Id).map IgnoreCase).Nodup) (hm : Spec ∈ Map)
    (hK : IgnoreCase Spec.Id = IgnoreCase Key) : MapFind Map Key = some Spec := by
  have h := MapFind_of_mem Map Spec hN hm
  have hf : (fun s : FSpec => FStringEquals s.Id Key)
      = (fun s : FSpec => FStringEquals s.Id Spec.Id) := by
    funext s
    simp only [FStringEquals, hK]
  rw [MapFind, hf]
  exact h


/-! ## The declared tree holds the declared tests -/

theorem AllItsOf_append (A B : List FSpecDefinitionScope) :
    AllItsOf (A ++ B) = AllItsOf A ++ AllItsOf B := by
  induction A with
  | nil => rfl
  | cons a rest ih => simp [AllItsOf, ih]

theorem AllIts_nil_of_empty (Scope : FSpecDefinitionScope)
    (h : (Scope.It.length == 0 && Scope.Children.length == 0) = true) : Scope.AllIts = [] := by
  cases Scope with
  | mk D B I A C =>
    cases I <;> cases C <;> simp_all [FSpecDefinitionScope.AllIts, AllItsOf]

mutual
theorem Declare_AllIts (ws : Char → Bool) :
    ∀ (d : Declaration) (Description : List FString) (Next : Nat) (Scope : FSpecDefinitionScope),
      List.Perm ((d.Declare ws Description Next Scope).AllIts.map FSpecIt.Info)
        (Scope.AllIts.map FSpecIt.Info ++ d.Declared ws Description)
  | .Describe InDescription Body, Description, Next, ⟨D, B, I, A, C⟩ => by
    have hNew := DeclareAll_AllIts ws Body (Description ++ [InDescription]) Next
      { FSpecDefinitionScope.New with Description := InDescription }
    simp only [Declaration.Declare, Declaration.Declared]
    generalize DeclareAll ws Body (Description ++ [InDescription]) Next
      { FSpecDefinitionScope.New with Description := InDescription } = New at hNew
    have h0 : ({ FSpecDefinitionScope.New with Description := InDescription }
        : FSpecDefinitionScope).AllIts = [] := rfl
    rw [h0, List.map_nil, List.nil_append] at hNew
    split
    · rename_i hc
      rw [AllIts_nil_of_empty New hc] at hNew
      have : DeclaredAll ws Body (Description ++ [InDescription]) = [] :=
        List.perm_nil.mp hNew.symm
      rw [this, List.append_nil]
    · simp only [FSpecDefinitionScope.AllIts, AllItsOf_append, AllItsOf, List.append_nil,
        List.map_append]
      rw [← List.append_assoc]
      exact List.Perm.append_left _ hNew
  | .It InDescription Filename LineNumber w, Description, Next, ⟨D, B, I, A, C⟩ => by
    simp only [Declaration.Declare, Declaration.Declared, FSpecDefinitionScope.AllIts,
      List.map_append, List.map_cons, List.map_nil, List.append_assoc]
    apply List.Perm.append_left
    exact List.perm_append_comm
  | .BeforeEach _, _, _, ⟨D, B, I, A, C⟩ => by
    simp [Declaration.Declare, Declaration.Declared, FSpecDefinitionScope.AllIts]
  | .AfterEach _, _, _, ⟨D, B, I, A, C⟩ => by
    simp [Declaration.Declare, Declaration.Declared, FSpecDefinitionScope.AllIts]
  | .Disabled _, _, _, _ => by
    simp [Declaration.Declare, Declaration.Declared]
theorem DeclareAll_AllIts (ws : Char → Bool) :
    ∀ (ds : List Declaration) (Description : List FString) (Next : Nat)
      (Scope : FSpecDefinitionScope),
      List.Perm ((DeclareAll ws ds Description Next Scope).AllIts.map FSpecIt.Info)
        (Scope.AllIts.map FSpecIt.Info ++ DeclaredAll ws ds Description)
  | [], _, _, _ => by simp [DeclareAll, DeclaredAll]
  | d :: rest, Description, Next, Scope => by
    rw [DeclareAll, DeclaredAll, ← List.append_assoc]
    exact (DeclareAll_AllIts ws rest Description _ _).trans
      (List.Perm.append_right _ (Declare_AllIts ws d Description Next Scope))
end

mutual
theorem Declared_length (ws : Char → Bool) :
    ∀ (d : Declaration) (Description : List FString),
      (d.Declared ws Description).length = d.NumIt
  | .Describe _ Body, Description => by
    simp only [Declaration.Declared, Declaration.NumIt]
    exact DeclaredAll_length ws Body _
  | .It _ _ _ _, _ => rfl
  | .BeforeEach _, _ => rfl
  | .AfterEach _, _ => rfl
  | .Disabled _, _ => rfl
theorem DeclaredAll_length (ws : Char → Bool) :
    ∀ (ds : List Declaration) (Description : List FString),
      (DeclaredAll ws ds Description).length = NumItAll ds
  | [], _ => rfl
  | d :: rest, Description => by
    simp only [DeclaredAll, NumItAll, List.length_append]
    rw [Declared_length ws d Description, DeclaredAll_length ws rest Description]
end

/-- The tests of the tree a body declares on a fresh spec are the tests the body declares. -/
theorem Declared_tree_Info (ws : Char → Bool) (Body : List Declaration) :
    List.Perm ((DeclareAll ws Body [] 0 FSpecDefinitionScope.New).AllIts.map FSpecIt.Info)
      (DeclaredAll ws Body []) := by
  have h := DeclareAll_AllIts ws Body [] 0 FSpecDefinitionScope.New
  have h0 : FSpecDefinitionScope.New.AllIts = [] := rfl
  rwa [h0, List.map_nil, List.nil_append] at h

theorem Declared_tree_Ids (ws : Char → Bool) (Body : List Declaration) :
    List.Perm ((DeclareAll ws Body [] 0 FSpecDefinitionScope.New).AllIts.map FSpecIt.Id)
      ((DeclaredAll ws Body []).map TestInfo.Id) := by
  have h := (Declared_tree_Info ws Body).map TestInfo.Id
  simpa [List.map_map, Function.comp_def, FSpecIt.Info] using h

/-- The definition pass on a fresh spec: `PostDefine` after `Define` adds the flattened tree
to the empty map, behind the duplicate check. -/
theorem Compile_eq (ws : Char → Bool) (InName : FString) (Body : List Declaration) :
    Compile ws InName Body
      = (AddAll ((DeclareAll ws Body [] 0 FSpecDefinitionScope.New).Flatten [] []) []).bind
          (fun Map => .ok
            { FTestSpecBase.New InName with
              IdToSpecMap := Map, RootDefinitionScope := none, DefinitionScopeStack := [],
              bHasBeenDefined := true, Objects := NewObjectsAll ThirtySeconds true Body }) := by
  rw [Compile, Define_eq]
  simp only [bind, Except.bind]
  rw [PostDefine_eq _ (DeclareAll ws Body [] 0 FSpecDefinitionScope.New) rfl
    (DeclareAll_GroupsNonEmpty ws Body [] 0 FSpecDefinitionScope.New rfl)]
  rfl

/-! ## Empty groups -/

mutual
theorem Declare_no_It (ws : Char → Bool) :
    ∀ (d : Declaration) (Description : List FString) (Next : Nat) (Scope : FSpecDefinitionScope),
      d.NumIt = 0 →
      (d.Declare ws Description Next Scope).It = Scope.It
        ∧ (d.Declare ws Description Next Scope).Children = Scope.Children
  | .Describe InDescription Body, Description, Next, Scope, h => by
    have hNew := DeclareAll_no_It ws Body (Description ++ [InDescription]) Next
      { FSpecDefinitionScope.New with Description := InDescription }
      (by simpa [Declaration.NumIt] using h)
    have hc : ((DeclareAll ws Body (Description ++ [InDescription]) Next
        { FSpecDefinitionScope.New with Description := InDescription }).It.length == 0
        && (DeclareAll ws Body (Description ++ [InDescription]) Next
        { FSpecDefinitionScope.New with Description := InDescription }).Children.length == 0)
        = true := by
      rw [hNew.1, hNew.2]; rfl
    simp only [Declaration.Declare, hc, if_true, and_self]
  | .It _ _ _ _, _, _, _, h => by simp [Declaration.NumIt] at h
  | .BeforeEach _, _, _, _, _ => by simp [Declaration.Declare]
  | .AfterEach _, _, _, _, _ => by simp [Declaration.Declare]
  | .Disabled _, _, _, _, _ => by simp [Declaration.Declare]
theorem DeclareAll_no_It (ws : Char → Bool) :
    ∀ (ds : List Declaration) (Description : List FString) (Next : Nat)
      (Scope : FSpecDefinitionScope),
      NumItAll ds = 0 →
      (DeclareAll ws ds Description Next Scope).It = Scope.It
        ∧ (DeclareAll ws ds Description Next Scope).Children = Scope.Children
  | [], _, _, _, _ => by simp [DeclareAll]
  | d :: rest, Description, Next, Scope, h => by
    have h2 : d.NumIt = 0 ∧ NumItAll rest = 0 := by
      simpa [NumItAll] using h
    have hd := Declare_no_It ws d Description Next Scope h2.1
    have hr := DeclareAll_no_It ws rest Description (Next + (d.NewObjects 0 false).length)
      (d.Declare ws Description Next Scope) h2.2
    rw [DeclareAll]
    exact ⟨hr.1.trans hd.1, hr.2.trans hd.2⟩
end

theorem Describe_no_It_Declare (ws : Char → Bool) (InDescription : FString)
    (Body : List Declaration) (Description : List FString) (Next : Nat)
    (Scope : FSpecDefinitionScope) (h : NumItAll Body = 0) :
    (Declaration.Describe InDescription Body).Declare ws Description Next Scope = Scope := by
  have hNew := DeclareAll_no_It ws Body (Description ++ [InDescription]) Next
    { FSpecDefinitionScope.New with Description := InDescription } h
  have hc : ((DeclareAll ws Body (Description ++ [InDescription]) Next
      { FSpecDefinitionScope.New with Description := InDescription }).It.length == 0
      && (DeclareAll ws Body (Description ++ [InDescription]) Next
      { FSpecDefinitionScope.New with Description := InDescription }).Children.length == 0)
      = true := by
    rw [hNew.1, hNew.2]; rfl
  simp only [Declaration.Declare, hc, if_true]

theorem nonempty_of_chain :
    ∀ (Root : FSpecDefinitionScope) (chain : List FSpecDefinitionScope),
      IsChain Root chain → Root.GroupsNonEmpty = true →
      ∀ Scope ∈ chain.tail,
        (!Scope.It.isEmpty || !Scope.Children.isEmpty) = true := by
  intro Root chain hchain
  induction hchain with
  | root Scope => intro _ S hS; simp at hS
  | child Scope Child chain hmem hchain ih =>
    intro hG S hS
    simp only [List.tail_cons] at hS
    have hAll : ∀ (Children : List FSpecDefinitionScope), AllGroupsNonEmpty Children = true →
        Child ∈ Children →
        (!Child.It.isEmpty || !Child.Children.isEmpty) = true ∧ Child.GroupsNonEmpty = true := by
      intro Children
      induction Children with
      | nil => intro _ hm; simp at hm
      | cons c rest ihc =>
        intro hA hm
        simp only [AllGroupsNonEmpty, Bool.and_eq_true] at hA
        rcases List.mem_cons.mp hm with rfl | hm2
        · exact ⟨hA.1.1, hA.1.2⟩
        · exact ihc hA.2 hm2
    have hChild := hAll Scope.Children
      (by cases Scope; simpa [FSpecDefinitionScope.GroupsNonEmpty] using hG) hmem
    cases hchain with
    | root _ =>
      simp only [List.mem_singleton] at hS
      subst hS
      exact hChild.1
    | child _ Child2 chain2 hmem2 hchain2 =>
      rcases List.mem_cons.mp hS with rfl | hS2
      · exact hChild.1
      · exact ih hChild.2 S (by simpa using hS2)

/-- C7: a `Describe` whose body declares no test (directly or in nested groups) leaves the
tree as it was, so the parent's `Children` and `It` are what they were before the call, even
when the body registered hooks; and after a definition pass every scope other than the root
has a test or a child, so a scope other than the root without children has a test. -/
theorem C7_empty_groups_pruned (IsWhitespace : Char → Bool) :
    (∀ (InDescription : FString) (Body : List Declaration) (self : FTestSpecBase)
        (Root Parent : FSpecDefinitionScope) (ParentScope : ScopeRef),
        NumItAll Body = 0 →
        self.RootDefinitionScope = some Root →
        self.DefinitionScopeStack.getLast? = some ParentScope →
        Root.At ParentScope = some Parent →
        ∃ after : FTestSpecBase,
          (Declaration.Describe InDescription Body).Run IsWhitespace self = .ok after ∧
          after.RootDefinitionScope = some Root ∧
          after.ReadScope ParentScope = .ok Parent ∧
          after.DefinitionScopeStack = self.DefinitionScopeStack) ∧
    (∀ (InName : FString) (Body : List Declaration),
        ∃ (self : FTestSpecBase) (Root : FSpecDefinitionScope),
          Define IsWhitespace InName Body = .ok self ∧
          self.RootDefinitionScope = some Root ∧
          Root.GroupsNonEmpty = true ∧
          ∀ (chain : List FSpecDefinitionScope), IsChain Root chain →
            ∀ Scope ∈ chain.tail,
              (Scope.It ≠ [] ∨ Scope.Children ≠ []) ∧ (Scope.Children = [] → Scope.It ≠ [])) := by
  constructor
  · intro InDescription Body self Root Parent ParentScope hNo hRoot hTop hAt
    have hrun := Run_eq IsWhitespace (Declaration.Describe InDescription Body) self Root Parent
      ParentScope hRoot hTop hAt
    have htree : Root.Modify ((Declaration.Describe InDescription Body).Declare IsWhitespace
        self.Description self.Objects.length) ParentScope = Root := by
      rw [Modify_congr _ id ParentScope Root Parent hAt
        (Describe_no_It_Declare IsWhitespace InDescription Body _ _ Parent hNo)]
      exact Modify_id ParentScope Root
    rw [htree] at hrun
    refine ⟨_, hrun, rfl, ?_, rfl⟩
    simp [FTestSpecBase.ReadScope, hAt]
  · intro InName Body
    have hG := DeclareAll_GroupsNonEmpty IsWhitespace Body [] 0 FSpecDefinitionScope.New rfl
    refine ⟨_, _, Define_eq IsWhitespace InName Body, rfl, hG, ?_⟩
    intro chain hchain Scope hS
    have h := nonempty_of_chain _ chain hchain hG Scope hS
    have h2 : Scope.It ≠ [] ∨ Scope.Children ≠ [] := by
      cases hI : Scope.It <;> cases hC : Scope.Children <;> simp_all
    refine ⟨h2, fun hC => ?_⟩
    rcases h2 with h3 | h3
    · exact h3
    · exact absurd hC h3


/-! ## The compiled table -/

theorem DeclaredAll_append (ws : Char → Bool) (A B : List Declaration)
    (Description : List FString) :
    DeclaredAll ws (A ++ B) Description
      = DeclaredAll ws A Description ++ DeclaredAll ws B Description := by
  induction A with
  | nil => rfl
  | cons a rest ih => simp [DeclaredAll, ih]

theorem PostDefine_of_Define (ws : Char → Bool) (InName : FString) (Body : List Declaration) :
    ∃ (self : FTestSpecBase) (Root : FSpecDefinitionScope),
      Define ws InName Body = .ok self ∧ self.RootDefinitionScope = some Root ∧
      Root = DeclareAll ws Body [] 0 FSpecDefinitionScope.New ∧
      self.PostDefine
        = if ((Root.AllIts.map FSpecIt.Id).map IgnoreCase).Nodup then
            .ok { self with IdToSpecMap := Root.Flatten [] [], RootDefinitionScope := none,
                            DefinitionScopeStack := [], bHasBeenDefined := true }
          else .error .DuplicateId := by
  have hG := DeclareAll_GroupsNonEmpty ws Body [] 0 FSpecDefinitionScope.New rfl
  refine ⟨_, _, Define_eq ws InName Body, rfl, rfl, ?_⟩
  rw [PostDefine_eq _ _ rfl hG]
  show (AddAll _ []).bind _ = _
  by_cases hN : (((DeclareAll ws Body [] 0 FSpecDefinitionScope.New).AllIts.map
      FSpecIt.Id).map IgnoreCase).Nodup
  · rw [if_pos hN, AddAll_ok _ []
      (by simpa using ((Flatten_Ids [] [] _).map IgnoreCase).nodup_iff.mpr hN)]
    rfl
  · rw [if_neg hN, AddAll_dup _ [] (by simp)
      (by simpa using mt ((Flatten_Ids [] [] _).map IgnoreCase).nodup_iff.mp hN)]
    rfl

/-- The definition pass on a fresh spec fails the duplicate check when two ids the body
declares are equal up to the case of the letters. -/
theorem Compile_duplicate (ws : Char → Bool) (InName : FString) (Body : List Declaration)
    (hIds : ¬ (((DeclaredAll ws Body []).map TestInfo.Id).map IgnoreCase).Nodup) :
    Compile ws InName Body = .error .DuplicateId := by
  obtain ⟨self, Root, hD, _, hRoot, hPD⟩ := PostDefine_of_Define ws InName Body
  have hN : ¬ ((Root.AllIts.map FSpecIt.Id).map IgnoreCase).Nodup := by
    rw [hRoot]
    exact mt ((Declared_tree_Ids ws Body).map IgnoreCase).nodup_iff.mp hIds
  rw [if_neg hN] at hPD
  simp only [Compile, hD, bind, Except.bind, hPD]

/-- C2 as stated fails: the body `ExampleCaseIds` makes two `It` calls, the ids "Group same"
and "Group SAME" of the two tests are distinct, yet the definition pass on a fresh spec
fails the duplicate check, so no table with two tests is built: the keys of `IdToSpecMap`
are compared without regard to the case of the letters. -/
theorem C2_compiled_tests_counterexample :
    NumItAll ExampleCaseIds = 2 ∧
    (DeclaredAll Char.isWhitespace ExampleCaseIds []).map TestInfo.Id
      = ["Group same".toList, "Group SAME".toList] ∧
    ((DeclaredAll Char.isWhitespace ExampleCaseIds []).map TestInfo.Id).Nodup ∧
    Compile Char.isWhitespace "Example".toList ExampleCaseIds = .error .DuplicateId ∧
    ¬ ∃ compiled : FTestSpecBase,
      Compile Char.isWhitespace "Example".toList ExampleCaseIds = .ok compiled := by
  have hC := Compile_duplicate Char.isWhitespace "Example".toList ExampleCaseIds (by decide)
  refine ⟨by decide, by decide, by decide, hC, ?_⟩
  rintro ⟨compiled, h⟩
  rw [hC] at h
  exact absurd h (by simp)

/-- C2, amended: when the ids of the tests a body declares are pairwise different also
without regard to the case of the letters (they are different keys of `IdToSpecMap`), the
definition pass on a fresh spec succeeds, the compiled table carries, entry for entry, the
id, description, file name and line number of the declared tests (each declaration once,
under an id of its own), and `GetNumTests` is the number of `It` calls of the body, groups
without a test contributing none. -/
theorem C2_one_compiled_test_per_It (IsWhitespace : Char → Bool) (InName : FString)
    (Body : List Declaration)
    (hIds : (((DeclaredAll IsWhitespace Body []).map TestInfo.Id).map IgnoreCase).Nodup) :
    ∃ compiled : FTestSpecBase,
      Compile IsWhitespace InName Body = .ok compiled ∧
      List.Perm (compiled.IdToSpecMap.map FSpec.Info) (DeclaredAll IsWhitespace Body []) ∧
      ((compiled.IdToSpecMap.map FSpec.Id).map IgnoreCase).Nodup ∧
      compiled.GetNumTests = NumItAll Body := by
  obtain ⟨self, Root, hD, _, hRoot, hPD⟩ := PostDefine_of_Define IsWhitespace InName Body
  have hN : ((Root.AllIts.map FSpecIt.Id).map IgnoreCase).Nodup := by
    rw [hRoot]; exact ((Declared_tree_Ids IsWhitespace Body).map IgnoreCase).nodup_iff.mpr hIds
  rw [if_pos hN] at hPD
  have hInfo : List.Perm ((Root.Flatten [] []).map FSpec.Info) (DeclaredAll IsWhitespace Body []) := by
    rw [hRoot]
    exact (Flatten_Info [] [] _).trans (Declared_tree_Info IsWhitespace Body)
  have hC : Compile IsWhitespace InName Body
      = .ok { self with IdToSpecMap := Root.Flatten [] [], RootDefinitionScope := none,
                        DefinitionScopeStack := [], bHasBeenDefined := true } := by
    simp only [Compile, hD, bind, Except.bind, hPD]
  refine ⟨_, hC, hInfo, ((Flatten_Ids [] [] Root).map IgnoreCase).nodup_iff.mpr hN, ?_⟩
  have hlen := hInfo.length_eq
  simp only [List.length_map] at hlen
  simp only [FTestSpecBase.GetNumTests, hlen, DeclaredAll_length]

/-- C2, amended, at the repository's own spec: its single root-level test compiles to exactly one
test, with the description as id and as description. -/
theorem C2_one_compiled_test_per_It_witness :
    ∃ compiled : FTestSpecBase,
      Compile Char.isWhitespace "Automatron".toList FAutomatronSpec = .ok compiled ∧
      compiled.GetNumTests = 1 ∧
      compiled.IdToSpecMap.map FSpec.Info
        = [{ Id := "Can run a test".toList, Description := "Can run a test".toList,
             Filename := "Automatron.spec.cpp".toList, LineNumber := 16 }] := by
  obtain ⟨compiled, hC, hP, _, hN⟩ :=
    C2_one_compiled_test_per_It Char.isWhitespace "Automatron".toList FAutomatronSpec
      (by decide)
  refine ⟨compiled, hC, hN, ?_⟩
  have hD : DeclaredAll Char.isWhitespace FAutomatronSpec []
      = [{ Id := "Can run a test".toList, Description := "Can run a test".toList,
           Filename := "Automatron.spec.cpp".toList, LineNumber := 16 }] := by decide
  rw [hD] at hP
  exact List.perm_singleton.mp hP

/-- C3 as stated fails in the direction from the failure to the ids: after `Define` of the
body `ExampleCaseIds` on a fresh spec no two tests of the tree have the same id (the ids are
"Group same" and "Group SAME"), yet `PostDefine` ends in the failed duplicate check. -/
theorem C3_duplicate_id_counterexample :
    ∃ (self : FTestSpecBase) (Root : FSpecDefinitionScope),
      Define Char.isWhitespace "Example".toList ExampleCaseIds = .ok self ∧
      self.RootDefinitionScope = some Root ∧
      Root.AllIts.map FSpecIt.Id = ["Group same".toList, "Group SAME".toList] ∧
      (Root.AllIts.map FSpecIt.Id).Nodup ∧
      self.PostDefine = .error .DuplicateId := by
  obtain ⟨self, Root, hD, hR, hRoot, hPD⟩ :=
    PostDefine_of_Define Char.isWhitespace "Example".toList ExampleCaseIds
  have hN : ¬ ((Root.AllIts.map FSpecIt.Id).map IgnoreCase).Nodup := by
    rw [hRoot]; decide
  rw [if_neg hN] at hPD
  refine ⟨self, Root, hD, hR, ?_, ?_, hPD⟩
  · rw [hRoot]; decide
  · rw [hRoot]; decide

/-- C3, amended: after `Define` on a fresh spec, `PostDefine` ends in the failed duplicate
check exactly when two tests of the tree have ids that are equal as `FString`s, that is
equal up to the case of the letters, and otherwise succeeds; when it succeeds the ids of
the table are pairwise different, also up to case, and the table holds every test of the
tree (none is overwritten or dropped). Two tests declared with the same description in the
same scope make it fail. -/
theorem C3_duplicate_id_fails (IsWhitespace : Char → Bool) (InName : FString) :
    (∀ Body : List Declaration,
      ∃ (self : FTestSpecBase) (Root : FSpecDefinitionScope),
        Define IsWhitespace InName Body = .ok self ∧
        self.RootDefinitionScope = some Root ∧
        (self.PostDefine = .error .DuplicateId ↔ ¬ ((Root.AllIts.map FSpecIt.Id).map IgnoreCase).Nodup) ∧
        ((∃ compiled, self.PostDefine = .ok compiled) ↔ ((Root.AllIts.map FSpecIt.Id).map IgnoreCase).Nodup) ∧
        (∀ compiled : FTestSpecBase, self.PostDefine = .ok compiled →
          ((compiled.IdToSpecMap.map FSpec.Id).map IgnoreCase).Nodup ∧
          List.Perm (compiled.IdToSpecMap.map FSpec.Info) (Root.AllIts.map FSpecIt.Info))) ∧
    (∀ (Outer : List Declaration) (Group d Filename1 Filename2 : FString)
        (LineNumber1 LineNumber2 : Int) (w1 w2 : Work),
      NumItAll Outer = 0 →
      Compile IsWhitespace InName
        (Outer ++ [.Describe Group
          [.It d Filename1 LineNumber1 w1, .It d Filename2 LineNumber2 w2]])
        = .error .DuplicateId) := by
  constructor
  · intro Body
    obtain ⟨self, Root, hD, hR, _, hPD⟩ := PostDefine_of_Define IsWhitespace InName Body
    refine ⟨self, Root, hD, hR, ?_, ?_, ?_⟩
    · rw [hPD]; split <;> simp_all
    · rw [hPD]; split <;> simp_all
    · intro compiled hc
      rw [hPD] at hc
      split at hc
      · rename_i hN
        injection hc with hc
        subst hc
        exact ⟨((Flatten_Ids [] [] Root).map IgnoreCase).nodup_iff.mpr hN, Flatten_Info [] [] Root⟩
      · exact absurd hc (by simp)
  · intro Outer Group d Filename1 Filename2 LineNumber1 LineNumber2 w1 w2 hOuter
    obtain ⟨self, Root, hD, _, hRoot, hPD⟩ := PostDefine_of_Define IsWhitespace InName
      (Outer ++ [.Describe Group
        [.It d Filename1 LineNumber1 w1, .It d Filename2 LineNumber2 w2]])
    have hN : ¬ ((Root.AllIts.map FSpecIt.Id).map IgnoreCase).Nodup := by
      rw [hRoot, ((Declared_tree_Ids IsWhitespace _).map IgnoreCase).nodup_iff, DeclaredAll_append]
      have hO : DeclaredAll IsWhitespace Outer [] = [] :=
        List.length_eq_zero.mp (by rw [DeclaredAll_length, hOuter])
      simp [hO, DeclaredAll, Declaration.Declared]
    rw [if_neg hN] at hPD
    simp only [Compile, hD, bind, Except.bind, hPD]


/-- C3, at `ExampleDuplicate`: two tests named "same" in the group "Group" resolve to the
id "Group same", and the definition pass ends in the failed duplicate check. -/
theorem C3_duplicate_id_fails_witness :
    NumItAll [] = 0 ∧
    Compile Char.isWhitespace [] ExampleDuplicate = .error .DuplicateId ∧
    (DeclaredAll Char.isWhitespace ExampleDuplicate []).map TestInfo.Id
      = ["Group same".toList, "Group same".toList] :=
  ⟨rfl,
   (C3_duplicate_id_fails Char.isWhitespace []).2 [] "Group".toList "same".toList
     "Example.spec.cpp".toList "Example.spec.cpp".toList 3 6 (.Sync 0) (.Sync 1) rfl,
   by decide⟩

/-- C7, at the group "Empty" of `ExampleEmptyGroup` declared on a fresh spec: the group
registers two hooks and holds an empty group, and after `Describe` returns the root scope is
the fresh root scope again. -/
theorem C7_empty_groups_pruned_witness :
    NumItAll [.BeforeEach (.Sync 1), .AfterEach (.Sync 2), .Describe "Inner".toList []] = 0 ∧
    ∃ after : FTestSpecBase,
      (Declaration.Describe "Empty".toList
          [.BeforeEach (.Sync 1), .AfterEach (.Sync 2), .Describe "Inner".toList []]).Run
        Char.isWhitespace (FTestSpecBase.New []) = .ok after ∧
      after.RootDefinitionScope = some FSpecDefinitionScope.New ∧
      after.ReadScope [] = .ok FSpecDefinitionScope.New ∧
      after.DefinitionScopeStack = [[]] :=
  ⟨rfl,
   (C7_empty_groups_pruned Char.isWhitespace).1 "Empty".toList
     [.BeforeEach (.Sync 1), .AfterEach (.Sync 2), .Describe "Inner".toList []]
     (FTestSpecBase.New []) FSpecDefinitionScope.New FSpecDefinitionScope.New [] rfl rfl rfl rfl⟩


/-! ## Latent commands -/

theorem UntilDone_Update_running (Body : Bodies) (T : Tick) (self : FUntilDoneLatentCommand)
    (Spec : FTestSpecBase) (hRun : self.bIsRunning = true) (hDone : self.bDone = false)
    (hSig : T.bDoneSignalled = false) (hNow : T.Now < FDateTime.Plus self.StartedRunning self.Timeout) :
    self.Update Body T Spec
      = { bReturn := false, Self := self, Spec := Spec, Invoked := [], Dispatched := [] } := by
  have hlt : ¬ T.Now ≥ FDateTime.Plus self.StartedRunning self.Timeout := not_le.mpr hNow
  simp [FUntilDoneLatentCommand.Update, FUntilDoneLatentCommand.Conclude, hRun, hDone, hSig, hlt]

theorem UntilDone_Update_timeout (Body : Bodies) (T : Tick) (self : FUntilDoneLatentCommand)
    (Spec : FTestSpecBase) (hRun : self.bIsRunning = true) (hDone : self.bDone = false)
    (hSig : T.bDoneSignalled = false) (hNow : T.Now ≥ FDateTime.Plus self.StartedRunning self.Timeout) :
    self.Update Body T Spec
      = { bReturn := true, Self := self.Reset, Spec := Spec.AddError TimedOutText,
          Invoked := [], Dispatched := [] } := by
  simp [FUntilDoneLatentCommand.Update, FUntilDoneLatentCommand.Conclude, hRun, hDone, hSig, hNow]

theorem UntilDone_Updates_waiting (Body : Bodies) :
    ∀ (Before : List Tick) (self : FUntilDoneLatentCommand) (Spec : FTestSpecBase),
      self.bIsRunning = true → self.bDone = false →
      (∀ T ∈ Before, T.bDoneSignalled = false ∧ T.Now < FDateTime.Plus self.StartedRunning self.Timeout) →
      ∀ (rest : List Tick),
        FUntilDoneLatentCommand.Updates Body (Before ++ rest) self Spec
          = ((Before.map (fun _ => false))
              ++ (FUntilDoneLatentCommand.Updates Body rest self Spec).1,
             (FUntilDoneLatentCommand.Updates Body rest self Spec).2) := by
  intro Before
  induction Before with
  | nil => intro self Spec _ _ _ rest; rfl
  | cons T more ih =>
    intro self Spec hRun hDone hAll rest
    have hT := hAll T (List.mem_cons_self _ _)
    have hU := UntilDone_Update_running Body T self Spec hRun hDone hT.1 hT.2
    have hI := ih self Spec hRun hDone (fun X hX => hAll X (List.mem_cons_of_mem _ hX)) rest
    simp only [List.cons_append, FUntilDoneLatentCommand.Updates, hU, List.map_cons,
      List.append_eq, hI]

theorem WrapInt64_of_in_range (x : Int) (hLow : -2 ^ 63 ≤ x) (hHigh : x < 2 ^ 63) :
    WrapInt64 x = x := by
  unfold WrapInt64
  omega

theorem WrapInt64_of_overflow (x : Int) (hLow : 2 ^ 63 ≤ x) (hHigh : x < 2 ^ 64) :
    WrapInt64 x = x - 2 ^ 64 := by
  unfold WrapInt64
  omega

theorem WrapInt64_range (x : Int) : -2 ^ 63 ≤ WrapInt64 x ∧ WrapInt64 x < 2 ^ 63 := by
  unfold WrapInt64
  omega

theorem Plus_of_in_range (Date : FDateTime) (Span : FTimespan)
    (hLow : -2 ^ 63 ≤ Date + Span) (hHigh : Date + Span < 2 ^ 63) :
    FDateTime.Plus Date Span = Date + Span :=
  WrapInt64_of_in_range (Date + Span) hLow hHigh

theorem Plus_of_overflow (Date : FDateTime) (Span : FTimespan)
    (hLow : 2 ^ 63 ≤ Date + Span) (hHigh : Date + Span < 2 ^ 64) :
    FDateTime.Plus Date Span = Date + Span - 2 ^ 64 :=
  WrapInt64_of_overflow (Date + Span) hLow hHigh

theorem ge_of_overflow (Now Sum : Int) (hHigh : Sum < 2 ^ 64) (hNow : 0 ≤ Now) :
    Now ≥ Sum - 2 ^ 64 := by
  omega

/-- An idle `FUntilDoneLatentCommand` whose guard does not skip and whose done flag is never
set starts at its first `Update`, at time `t0`, and times out at the first `Update` that
finds the deadline reached, the deadline being the `int64` sum the code computes from `t0`
and the timeout. -/
theorem UntilDone_times_out_at_deadline (Body : Bodies) (self : FUntilDoneLatentCommand)
    (Spec : FTestSpecBase) (First : Tick)
    (hIdle : self.bIsRunning = false) (hNotDone : self.bDone = false)
    (hGuard : (self.bSkipIfErrored && Spec.HasAnyErrors) = false)
    (hBody : (Body self.Predicate Spec).bDoneExecuted = false)
    (hFirst : First.bDoneSignalled = false) :
    (First.Now ≥ FDateTime.Plus First.Started self.Timeout →
      self.Update Body First Spec
        = { bReturn := true,
            Self := { self with bIsRunning := false, bDone := false,
                                StartedRunning := First.Started },
            Spec := (Body self.Predicate Spec).Spec.AddError TimedOutText,
            Invoked := [self.Predicate], Dispatched := [] }) ∧
    (First.Now < FDateTime.Plus First.Started self.Timeout →
      self.Update Body First Spec
        = { bReturn := false,
            Self := { self with bIsRunning := true, StartedRunning := First.Started },
            Spec := (Body self.Predicate Spec).Spec,
            Invoked := [self.Predicate], Dispatched := [] } ∧
      ∀ (Before : List Tick),
        (∀ T ∈ Before, T.bDoneSignalled = false ∧ T.Now < FDateTime.Plus First.Started self.Timeout) →
        FUntilDoneLatentCommand.Updates Body (First :: Before) self Spec
          = (false :: Before.map (fun _ => false),
             { self with bIsRunning := true, StartedRunning := First.Started },
             (Body self.Predicate Spec).Spec) ∧
        ∀ (Final : Tick), Final.bDoneSignalled = false →
          Final.Now ≥ FDateTime.Plus First.Started self.Timeout →
          FUntilDoneLatentCommand.Updates Body (First :: (Before ++ [Final])) self Spec
            = ((false :: Before.map (fun _ => false)) ++ [true],
               { self with bIsRunning := false, bDone := false,
                           StartedRunning := First.Started },
               (Body self.Predicate Spec).Spec.AddError TimedOutText) ∧
          ((Body self.Predicate Spec).Spec.AddError TimedOutText).Errors
            = (Body self.Predicate Spec).Spec.Errors ++ [TimedOutText]) := by
  have hStart : ∀ (c : Bool), c = decide (First.Now ≥ FDateTime.Plus First.Started self.Timeout) →
      self.Update Body First Spec
        = if c then
            { bReturn := true,
              Self := { self with bIsRunning := false, bDone := false,
                                  StartedRunning := First.Started },
              Spec := (Body self.Predicate Spec).Spec.AddError TimedOutText,
              Invoked := [self.Predicate], Dispatched := [] }
          else
            { bReturn := false,
              Self := { self with bIsRunning := true, StartedRunning := First.Started },
              Spec := (Body self.Predicate Spec).Spec,
              Invoked := [self.Predicate], Dispatched := [] } := by
    intro c hc
    subst hc
    by_cases h : First.Now ≥ FDateTime.Plus First.Started self.Timeout
    · simp [FUntilDoneLatentCommand.Update, FUntilDoneLatentCommand.Conclude, hIdle, hGuard,
        hBody, hFirst, hNotDone, h, FUntilDoneLatentCommand.Reset]
    · simp [FUntilDoneLatentCommand.Update, FUntilDoneLatentCommand.Conclude, hIdle, hGuard,
        hBody, hFirst, hNotDone, h]
  constructor
  · intro h
    rw [hStart true (by simp [h])]
    rfl
  · intro h
    have hU : self.Update Body First Spec
        = { bReturn := false,
            Self := { self with bIsRunning := true, StartedRunning := First.Started },
            Spec := (Body self.Predicate Spec).Spec,
            Invoked := [self.Predicate], Dispatched := [] } := by
      rw [hStart false (by simp [not_le.mpr h])]
      rfl
    refine ⟨hU, ?_⟩
    intro Before hBefore
    have hwait := UntilDone_Updates_waiting Body Before
      { self with bIsRunning := true, StartedRunning := First.Started }
      (Body self.Predicate Spec).Spec rfl hNotDone hBefore
    constructor
    · have h0 := hwait []
      simp only [List.append_nil, FUntilDoneLatentCommand.Updates] at h0
      simp only [FUntilDoneLatentCommand.Updates, hU, h0]
    · intro Final hSig hFinal
      have h1 := hwait [Final]
      have hT := UntilDone_Update_timeout Body Final
        { self with bIsRunning := true, StartedRunning := First.Started }
        (Body self.Predicate Spec).Spec rfl hNotDone hSig hFinal
      simp only [FUntilDoneLatentCommand.Updates, hT] at h1
      refine ⟨?_, rfl⟩
      simp only [FUntilDoneLatentCommand.Updates, hU, h1, FUntilDoneLatentCommand.Reset,
        List.cons_append]


/-- C8 as stated fails: an `FUntilDoneLatentCommand` with the timeout `FTimespan::MaxValue()`
whose body never executes the delegate, first updated at tick 638000000000000000 (a date
in the year 2022): the time of that `Update` is before `t0 + Timeout`, yet the `Update`
returns true and adds the timeout error, because the `int64` sum of the two tick counts
wraps around to a negative count. -/
theorem C8_UntilDone_counterexample :
    (638000000000000000 : Int) < 638000000000000000 + FTimespan.MaxValue ∧
    ((FUntilDoneLatentCommand.New 7 FTimespan.MaxValue true).Update
        (fun _ S => { Spec := S, bDoneExecuted := false })
        { Started := 638000000000000000, Now := 638000000000000000, bDoneSignalled := false }
        (FTestSpecBase.New [])).bReturn = true ∧
    ((FUntilDoneLatentCommand.New 7 FTimespan.MaxValue true).Update
        (fun _ S => { Spec := S, bDoneExecuted := false })
        { Started := 638000000000000000, Now := 638000000000000000, bDoneSignalled := false }
        (FTestSpecBase.New [])).Spec.Errors = [TimedOutText] := by
  refine ⟨by decide, by decide, by decide⟩

/-- C8, amended: an idle `FUntilDoneLatentCommand` whose guard does not skip and whose done
flag is never set (the body does not execute the delegate, nobody else does) starts at its
first `Update`, at time `t0`. When the sum `t0 + Timeout` of the tick counts is within the
range of an `int64`: if that `Update` already finds `t0 + Timeout` reached it returns true
and adds the one error "Latent command timed out."; otherwise it returns false adding
nothing, every further `Update` before `t0 + Timeout` returns false and changes neither the
command nor the spec, and the first `Update` at or after `t0 + Timeout` returns true, adds
exactly the one error "Latent command timed out." and leaves the command idle. When the sum
exceeds the range (it is `2^63` or more) it wraps around, and the first `Update`, at any
time that is not negative, returns true and adds the error at once. -/
theorem C8_UntilDone_times_out (Body : Bodies) (self : FUntilDoneLatentCommand)
    (Spec : FTestSpecBase) (First : Tick)
    (hIdle : self.bIsRunning = false) (hNotDone : self.bDone = false)
    (hGuard : (self.bSkipIfErrored && Spec.HasAnyErrors) = false)
    (hBody : (Body self.Predicate Spec).bDoneExecuted = false)
    (hFirst : First.bDoneSignalled = false) :
    (-2 ^ 63 ≤ First.Started + self.Timeout → First.Started + self.Timeout < 2 ^ 63 →
      (First.Now ≥ First.Started + self.Timeout →
        self.Update Body First Spec
          = { bReturn := true,
              Self := { self with bIsRunning := false, bDone := false,
                                  StartedRunning := First.Started },
              Spec := (Body self.Predicate Spec).Spec.AddError TimedOutText,
              Invoked := [self.Predicate], Dispatched := [] }) ∧
      (First.Now < First.Started + self.Timeout →
        self.Update Body First Spec
          = { bReturn := false,
              Self := { self with bIsRunning := true, StartedRunning := First.Started },
              Spec := (Body self.Predicate Spec).Spec,
              Invoked := [self.Predicate], Dispatched := [] } ∧
        ∀ (Before : List Tick),
          (∀ T ∈ Before, T.bDoneSignalled = false ∧ T.Now < First.Started + self.Timeout) →
          FUntilDoneLatentCommand.Updates Body (First :: Before) self Spec
            = (false :: Before.map (fun _ => false),
               { self with bIsRunning := true, StartedRunning := First.Started },
               (Body self.Predicate Spec).Spec) ∧
          ∀ (Final : Tick), Final.bDoneSignalled = false →
            Final.Now ≥ First.Started + self.Timeout →
            FUntilDoneLatentCommand.Updates Body (First :: (Before ++ [Final])) self Spec
              = ((false :: Before.map (fun _ => false)) ++ [true],
                 { self with bIsRunning := false, bDone := false,
                             StartedRunning := First.Started },
                 (Body self.Predicate Spec).Spec.AddError TimedOutText) ∧
            ((Body self.Predicate Spec).Spec.AddError TimedOutText).Errors
              = (Body self.Predicate Spec).Spec.Errors ++ [TimedOutText])) ∧
    (2 ^ 63 ≤ First.Started + self.Timeout → First.Started + self.Timeout < 2 ^ 64 →
      0 ≤ First.Now →
        self.Update Body First Spec
          = { bReturn := true,
              Self := { self with bIsRunning := false, bDone := false,
                                  StartedRunning := First.Started },
              Spec := (Body self.Predicate Spec).Spec.AddError TimedOutText,
              Invoked := [self.Predicate], Dispatched := [] }) := by
  have h := UntilDone_times_out_at_deadline Body self Spec First hIdle hNotDone hGuard hBody
    hFirst
  constructor
  · intro hLow hHigh
    rw [Plus_of_in_range First.Started self.Timeout hLow hHigh] at h
    exact h
  · intro hLow hHigh hNow
    rw [Plus_of_overflow First.Started self.Timeout hLow hHigh] at h
    exact h.1 (ge_of_overflow First.Now (First.Started + self.Timeout) hHigh hNow)

/-- C8, amended, at a command with a timeout of 100 ticks first updated at time 1000 whose
body does nothing: the updates at 1000 and at 1099 return false, the update at 1100 returns
true, and the spec then holds exactly the one error. -/
theorem C8_UntilDone_times_out_witness :
    FUntilDoneLatentCommand.Updates (fun _ S => { Spec := S, bDoneExecuted := false })
        [{ Started := 1000, Now := 1000, bDoneSignalled := false },
         { Started := 1099, Now := 1099, bDoneSignalled := false },
         { Started := 1100, Now := 1100, bDoneSignalled := false }]
        (FUntilDoneLatentCommand.New 7 100 true) (FTestSpecBase.New [])
      = ([false, false, true],
         { FUntilDoneLatentCommand.New 7 100 true with StartedRunning := 1000 },
         (FTestSpecBase.New []).AddError TimedOutText) ∧
    ((FTestSpecBase.New []).AddError TimedOutText).Errors = [TimedOutText] :=
  have h := ((C8_UntilDone_times_out (fun _ S => { Spec := S, bDoneExecuted := false })
    (FUntilDoneLatentCommand.New 7 100 true) (FTestSpecBase.New [])
    { Started := 1000, Now := 1000, bDoneSignalled := false } rfl rfl rfl rfl rfl).1
      (by decide) (by decide)).2 (by decide)
  have h2 := (h.2 [{ Started := 1099, Now := 1099, bDoneSignalled := false }]
    (by intro T hT; rw [List.mem_singleton.mp hT]; decide)).2
    { Started := 1100, Now := 1100, bDoneSignalled := false } rfl (by decide)
  ⟨h2.1, rfl⟩

/-- C9: every `Update` of an `FSingleExecuteLatentCommand` returns true and leaves the command
as it is; when the skip flag is set and the owning spec has an error, the body is not invoked
and the spec is unchanged, and otherwise the body is invoked exactly once. -/
theorem C9_SingleExecute_Update (Body : Bodies) (self : FSingleExecuteLatentCommand)
    (Spec : FTestSpecBase) :
    (self.Update Body Spec).bReturn = true ∧
    (self.Update Body Spec).Self = self ∧
    (self.Update Body Spec).Dispatched = [] ∧
    ((self.bSkipIfErrored = true ∧ Spec.HasAnyErrors = true) →
      (self.Update Body Spec).Invoked = [] ∧ (self.Update Body Spec).Spec = Spec) ∧
    (¬ (self.bSkipIfErrored = true ∧ Spec.HasAnyErrors = true) →
      (self.Update Body Spec).Invoked = [self.Predicate] ∧
      (self.Update Body Spec).Spec = (Body self.Predicate Spec).Spec) := by
  by_cases h : (self.bSkipIfErrored && Spec.HasAnyErrors) = true
  · have h2 : self.bSkipIfErrored = true ∧ Spec.HasAnyErrors = true := by simpa using h
    simp [FSingleExecuteLatentCommand.Update, h2.1, h2.2]
  · have h2 : ¬ (self.bSkipIfErrored = true ∧ Spec.HasAnyErrors = true) := by simpa using h
    simp only [FSingleExecuteLatentCommand.Update, h]
    simp [h2]

/-- C9, at a command with the skip flag set on a spec that has an error, and on a spec that
has none: the body (handle 7) is invoked zero times, respectively once. -/
theorem C9_SingleExecute_Update_witness :
    ((FSingleExecuteLatentCommand.New 7 true).Update
        (fun _ S => { Spec := S.AddError "body ran".toList, bDoneExecuted := false })
        ((FTestSpecBase.New []).AddError "failed".toList)).Invoked = [] ∧
    ((FSingleExecuteLatentCommand.New 7 true).Update
        (fun _ S => { Spec := S.AddError "body ran".toList, bDoneExecuted := false })
        (FTestSpecBase.New [])).Invoked = [7] :=
  ⟨((C9_SingleExecute_Update
      (fun _ S => { Spec := S.AddError "body ran".toList, bDoneExecuted := false })
      (FSingleExecuteLatentCommand.New 7 true)
      ((FTestSpecBase.New []).AddError "failed".toList)).2.2.2.1 ⟨rfl, rfl⟩).1,
   ((C9_SingleExecute_Update
      (fun _ S => { Spec := S.AddError "body ran".toList, bDoneExecuted := false })
      (FSingleExecuteLatentCommand.New 7 true) (FTestSpecBase.New [])).2.2.2.2
      (by decide)).1⟩

/-- C10: an `Update` of an idle `FUntilDoneLatentCommand`, `FAsyncUntilDoneLatentCommand` or
`FAsyncLatentCommand` with the skip flag set, while the owning spec has an error, returns
true and changes nothing: no body is invoked or handed to `Async`, the command object
(`StartedRunning`, `bIsRunning` or the future, `bDone`) and the spec (its errors and
`TestsRemaining`) are as before. -/
theorem C10_guarded_Update_changes_nothing (Body : Bodies) (T : Tick) (Spec : FTestSpecBase)
    (hErr : Spec.HasAnyErrors = true) :
    (∀ self : FUntilDoneLatentCommand, self.bIsRunning = false → self.bSkipIfErrored = true →
      self.Update Body T Spec
        = { bReturn := true, Self := self, Spec := Spec, Invoked := [], Dispatched := [] }) ∧
    (∀ self : FAsyncUntilDoneLatentCommand, self.Future = false → self.bSkipIfErrored = true →
      self.Update T Spec
        = { bReturn := true, Self := self, Spec := Spec, Invoked := [], Dispatched := [] }) ∧
    (∀ self : FAsyncLatentCommand, self.Future = false → self.bSkipIfErrored = true →
      self.Update T Spec
        = { bReturn := true, Self := self, Spec := Spec, Invoked := [], Dispatched := [] }) := by
  refine ⟨fun self hI hS => ?_, fun self hI hS => ?_, fun self hI hS => ?_⟩
  · simp [FUntilDoneLatentCommand.Update, hI, hS, hErr]
  · simp [FAsyncUntilDoneLatentCommand.Update, hI, hS, hErr]
  · simp [FAsyncLatentCommand.Update, hI, hS, hErr]

/-- C10, at freshly constructed commands with the skip flag set, on a spec holding one error,
at a time far beyond any timeout and with the done flag signalled: each `Update` returns true,
and the spec still has its one error and its `TestsRemaining`. -/
theorem C10_guarded_Update_changes_nothing_witness :
    ((FUntilDoneLatentCommand.New 7 100 true).Update
        (fun _ S => { Spec := S.AddError "body ran".toList, bDoneExecuted := true })
        { Started := 5000, Now := 9000, bDoneSignalled := true }
        ((FTestSpecBase.New []).AddError "failed".toList)).Self
      = FUntilDoneLatentCommand.New 7 100 true ∧
    ((FAsyncUntilDoneLatentCommand.New .ThreadPool 7 100 true).Update
        { Started := 5000, Now := 9000, bDoneSignalled := true }
        ((FTestSpecBase.New []).AddError "failed".toList)).Dispatched = [] ∧
    ((FAsyncLatentCommand.New .ThreadPool 7 100 true).Update
        { Started := 5000, Now := 9000, bDoneSignalled := true }
        ((FTestSpecBase.New []).AddError "failed".toList)).Spec.TestsRemaining = 0 :=
  have h := C10_guarded_Update_changes_nothing
    (fun _ S => { Spec := S.AddError "body ran".toList, bDoneExecuted := true })
    { Started := 5000, Now := 9000, bDoneSignalled := true }
    ((FTestSpecBase.New []).AddError "failed".toList) rfl
  ⟨by rw [h.1 _ rfl rfl], by rw [h.2.1 _ rfl rfl], by rw [h.2.2 _ rfl rfl]; rfl⟩


/-! ## Every command object has one place in the tree -/

theorem AllCommands_eq (Scope : FSpecDefinitionScope) :
    Scope.AllCommands = Scope.OwnCommands ++ AllCommandsOf Scope.Children := by
  cases Scope; rfl

theorem AllCommandsOf_append (A B : List FSpecDefinitionScope) :
    AllCommandsOf (A ++ B) = AllCommandsOf A ++ AllCommandsOf B := by
  induction A with
  | nil => rfl
  | cons a rest ih => simp [AllCommandsOf, ih]

theorem mem_AllCommandsOf (c : CmdRef) :
    ∀ (Children : List FSpecDefinitionScope) (Child : FSpecDefinitionScope),
      Child ∈ Children → c ∈ Child.AllCommands → c ∈ AllCommandsOf Children
  | [], _, h, _ => by simp at h
  | First :: rest, Child, h, hc => by
    rw [AllCommandsOf, List.mem_append]
    rcases List.mem_cons.mp h with rfl | hm
    · exact Or.inl hc
    · exact Or.inr (mem_AllCommandsOf c rest Child hm hc)

theorem Nodup_of_mem_AllCommandsOf :
    ∀ (Children : List FSpecDefinitionScope) (Child : FSpecDefinitionScope),
      Child ∈ Children → (AllCommandsOf Children).Nodup → Child.AllCommands.Nodup
  | [], _, h, _ => by simp at h
  | First :: rest, Child, h, hN => by
    rw [AllCommandsOf, List.nodup_append] at hN
    rcases List.mem_cons.mp h with rfl | hm
    · exact hN.1
    · exact Nodup_of_mem_AllCommandsOf rest Child hm hN.2.1

theorem same_child_of_shared_command (c : CmdRef) :
    ∀ (Children : List FSpecDefinitionScope) (X Y : FSpecDefinitionScope),
      (AllCommandsOf Children).Nodup → X ∈ Children → Y ∈ Children →
      c ∈ X.AllCommands → c ∈ Y.AllCommands → X = Y
  | [], _, _, _, h, _, _, _ => by simp at h
  | First :: rest, X, Y, hN, hX, hY, hcX, hcY => by
    rw [AllCommandsOf, List.nodup_append] at hN
    rcases List.mem_cons.mp hX with rfl | hX2 <;> rcases List.mem_cons.mp hY with rfl | hY2
    · rfl
    · exact absurd (mem_AllCommandsOf c rest Y hY2 hcY) (fun h => hN.2.2 hcX h)
    · exact absurd (mem_AllCommandsOf c rest X hX2 hcX) (fun h => hN.2.2 hcY h)
    · exact same_child_of_shared_command c rest X Y hN.2.1 hX2 hY2 hcX hcY

theorem mem_AllCommands_of_chain (c : CmdRef) (Last : FSpecDefinitionScope) :
    ∀ (Root : FSpecDefinitionScope) (chain : List FSpecDefinitionScope),
      IsChain Root chain → chain.getLast? = some Last → c ∈ Last.OwnCommands →
      c ∈ Root.AllCommands := by
  intro Root chain hchain
  induction hchain with
  | root Scope =>
    intro hLast hc
    simp only [List.getLast?_singleton, Option.some.injEq] at hLast
    subst hLast
    rw [AllCommands_eq]
    exact List.mem_append_left _ hc
  | child Scope Child chain hmem hchain ih =>
    intro hLast hc
    have hne : chain ≠ [] := by cases hchain <;> simp
    have hLast2 : chain.getLast? = some Last := by
      cases chain with
      | nil => exact absurd rfl hne
      | cons x xs => simpa [List.getLast?_cons_cons] using hLast
    rw [AllCommands_eq]
    exact List.mem_append_right _ (mem_AllCommandsOf c _ Child hmem (ih hLast2 hc))

/-- In a tree whose command references are pairwise distinct, a command reference held by the
last scope of a chain determines the chain. -/
theorem chain_unique_of_shared_command (c : CmdRef) (LastA LastB : FSpecDefinitionScope) :
    ∀ (Root : FSpecDefinitionScope) (chainA : List FSpecDefinitionScope),
      IsChain Root chainA → ∀ (chainB : List FSpecDefinitionScope), IsChain Root chainB →
      Root.AllCommands.Nodup →
      chainA.getLast? = some LastA → chainB.getLast? = some LastB →
      c ∈ LastA.OwnCommands → c ∈ LastB.OwnCommands → chainA = chainB := by
  intro Root chainA hA
  induction hA with
  | root Scope =>
    intro chainB hB hN hLA hLB hcA hcB
    simp only [List.getLast?_singleton, Option.some.injEq] at hLA
    subst hLA
    cases hB with
    | root _ => rfl
    | child _ Child chain hmem hchain =>
      exfalso
      have hne : chain ≠ [] := by cases hchain <;> simp
      have hLB2 : chain.getLast? = some LastB := by
        cases chain with
        | nil => exact absurd rfl hne
        | cons x xs => simpa [List.getLast?_cons_cons] using hLB
      have h1 := mem_AllCommandsOf c _ Child hmem
        (mem_AllCommands_of_chain c LastB Child chain hchain hLB2 hcB)
      rw [AllCommands_eq, List.nodup_append] at hN
      exact hN.2.2 hcA h1
  | child Scope Child chain hmem hchain ih =>
    intro chainB hB hN hLA hLB hcA hcB
    have hne : chain ≠ [] := by cases hchain <;> simp
    have hLA2 : chain.getLast? = some LastA := by
      cases chain with
      | nil => exact absurd rfl hne
      | cons x xs => simpa [List.getLast?_cons_cons] using hLA
    have h1 := mem_AllCommands_of_chain c LastA Child chain hchain hLA2 hcA
    cases hB with
    | root _ =>
      exfalso
      simp only [List.getLast?_singleton, Option.some.injEq] at hLB
      subst hLB
      rw [AllCommands_eq, List.nodup_append] at hN
      exact hN.2.2 hcB (mem_AllCommandsOf c _ Child hmem h1)
    | child _ Child2 chain2 hmem2 hchain2 =>
      have hne2 : chain2 ≠ [] := by cases hchain2 <;> simp
      have hLB2 : chain2.getLast? = some LastB := by
        cases chain2 with
        | nil => exact absurd rfl hne2
        | cons x xs => simpa [List.getLast?_cons_cons] using hLB
      have h2 := mem_AllCommands_of_chain c LastB Child2 chain2 hchain2 hLB2 hcB
      rw [AllCommands_eq, List.nodup_append] at hN
      have hEq : Child = Child2 :=
        same_child_of_shared_command c _ Child Child2 hN.2.1 hmem hmem2 h1 h2
      subst hEq
      rw [ih chain2 hchain2 (Nodup_of_mem_AllCommandsOf _ Child hmem hN.2.1) hLA2 hLB2 hcA hcB]

theorem chain_to_member :
    ∀ (Root : FSpecDefinitionScope) (chain : List FSpecDefinitionScope),
      IsChain Root chain → ∀ Scope ∈ chain,
      ∃ pre : List FSpecDefinitionScope,
        pre <+: chain ∧ IsChain Root pre ∧ pre.getLast? = some Scope := by
  intro Root chain hchain
  induction hchain with
  | root Scope =>
    intro S hS
    simp only [List.mem_singleton] at hS
    subst hS
    exact ⟨[S], List.prefix_refl _, IsChain.root S, rfl⟩
  | child Scope Child chain hmem hchain ih =>
    intro S hS
    rcases List.mem_cons.mp hS with rfl | hS2
    · exact ⟨[S], ⟨chain, rfl⟩, IsChain.root S, rfl⟩
    · obtain ⟨pre, hpre, hch, hlast⟩ := ih S hS2
      have hne : pre ≠ [] := by cases hch <;> simp
      refine ⟨Scope :: pre, ?_, IsChain.child Scope Child pre hmem hch, ?_⟩
      · obtain ⟨t, ht⟩ := hpre
        exact ⟨t, by rw [← ht]; rfl⟩
      · cases pre with
        | nil => exact absurd rfl hne
        | cons x xs => simpa [List.getLast?_cons_cons] using hlast


mutual
theorem Declare_AllCommands (ws : Char → Bool) :
    ∀ (d : Declaration) (Description : List FString) (Next : Nat) (Scope : FSpecDefinitionScope),
      ∃ l : List Nat,
        List.Perm (d.Declare ws Description Next Scope).AllCommands (Scope.AllCommands ++ l) ∧
        l.Nodup ∧ ∀ r ∈ l, Next ≤ r ∧ r < Next + (d.NewObjects 0 false).length
  | .Describe InDescription Body, Description, Next, ⟨D, B, I, A, C⟩ => by
    obtain ⟨l0, hP, hN, hR⟩ := DeclareAll_AllCommands ws Body (Description ++ [InDescription])
      Next { FSpecDefinitionScope.New with Description := InDescription }
    have h0 : ({ FSpecDefinitionScope.New with Description := InDescription }
        : FSpecDefinitionScope).AllCommands = [] := rfl
    rw [h0, List.nil_append] at hP
    simp only [Declaration.Declare]
    split
    · exact ⟨[], by simp, List.nodup_nil, by simp⟩
    · refine ⟨l0, ?_, hN, ?_⟩
      · simp only [FSpecDefinitionScope.AllCommands, AllCommandsOf_append, AllCommandsOf,
          List.append_nil]
        rw [← List.append_assoc]
        exact List.Perm.append_left _ hP
      · simpa [Declaration.NewObjects] using hR
  | .It InDescription Filename LineNumber w, Description, Next, ⟨D, B, I, A, C⟩ => by
    refine ⟨[Next], ?_, by simp, by simp [Declaration.NewObjects]⟩
    simp only [Declaration.Declare, FSpecDefinitionScope.AllCommands, List.map_append,
      List.map_cons, List.map_nil, List.append_assoc]
    apply List.Perm.append_left
    apply List.Perm.append_left
    exact List.perm_append_comm.trans (List.Perm.of_eq (by simp only [List.append_assoc]))
  | .BeforeEach _, _, Next, ⟨D, B, I, A, C⟩ => by
    refine ⟨[Next], ?_, by simp, by simp [Declaration.NewObjects]⟩
    simp only [Declaration.Declare, FSpecDefinitionScope.AllCommands, List.append_assoc]
    apply List.Perm.append_left
    exact List.perm_append_comm.trans (List.Perm.of_eq (by simp only [List.append_assoc]))
  | .AfterEach _, _, Next, ⟨D, B, I, A, C⟩ => by
    refine ⟨[Next], ?_, by simp, by simp [Declaration.NewObjects]⟩
    simp only [Declaration.Declare, FSpecDefinitionScope.AllCommands, List.append_assoc]
    apply List.Perm.append_left
    apply List.Perm.append_left
    apply List.Perm.append_left
    exact List.perm_append_comm
  | .Disabled _, _, _, _ => by
    exact ⟨[], by simp [Declaration.Declare], List.nodup_nil, by simp⟩
theorem DeclareAll_AllCommands (ws : Char → Bool) :
    ∀ (ds : List Declaration) (Description : List FString) (Next : Nat)
      (Scope : FSpecDefinitionScope),
      ∃ l : List Nat,
        List.Perm (DeclareAll ws ds Description Next Scope).AllCommands (Scope.AllCommands ++ l) ∧
        l.Nodup ∧ ∀ r ∈ l, Next ≤ r ∧ r < Next + (NewObjectsAll 0 false ds).length
  | [], _, _, _ => ⟨[], by simp [DeclareAll], List.nodup_nil, by simp⟩
  | d :: rest, Description, Next, Scope => by
    obtain ⟨l1, hP1, hN1, hR1⟩ := Declare_AllCommands ws d Description Next Scope
    obtain ⟨l2, hP2, hN2, hR2⟩ := DeclareAll_AllCommands ws rest Description
      (Next + (d.NewObjects 0 false).length) (d.Declare ws Description Next Scope)
    refine ⟨l1 ++ l2, ?_, ?_, ?_⟩
    · rw [DeclareAll, ← List.append_assoc]
      exact hP2.trans (List.Perm.append_right _ hP1)
    · rw [List.nodup_append]
      refine ⟨hN1, hN2, ?_⟩
      intro a h1 h2
      have ha := (hR1 a h1).2
      have hb := (hR2 a h2).1
      omega
    · intro r hr
      simp only [NewObjectsAll, List.length_append]
      rcases List.mem_append.mp hr with h | h
      · have ha := hR1 r h; omega
      · have hb := hR2 r h; omega
end

/-- The tree a body declares on a fresh spec holds every command reference once, and every
reference points into the pool of the created command objects. -/
theorem Declared_tree_AllCommands (ws : Char → Bool) (Body : List Declaration) :
    (DeclareAll ws Body [] 0 FSpecDefinitionScope.New).AllCommands.Nodup ∧
    ∀ r : Nat, r ∈ (DeclareAll ws Body [] 0 FSpecDefinitionScope.New).AllCommands →
      r < (NewObjectsAll ThirtySeconds true Body).length := by
  obtain ⟨l, hP, hN, hR⟩ := DeclareAll_AllCommands ws Body [] 0 FSpecDefinitionScope.New
  have h0 : FSpecDefinitionScope.New.AllCommands = [] := rfl
  rw [h0, List.nil_append] at hP
  refine ⟨hP.nodup_iff.mpr hN, fun r hr => ?_⟩
  have ha := (hR r (hP.mem_iff.mp hr)).2
  rw [NewObjectsAll_length ThirtySeconds true Body]
  omega


/-! ## The command list of a compiled test -/

/-- C1 as stated fails: in the tree of the body `ExampleCaseChain` the test ids "A B t" and
"A B T" are pairwise distinct, yet `PostDefine` ends in the failed duplicate check and
stores no compiled test at all: the keys of `IdToSpecMap` are compared without regard to
the case of the letters. -/
theorem C1_command_list_counterexample :
    ∃ (self : FTestSpecBase) (Root : FSpecDefinitionScope),
      Define Char.isWhitespace "Example".toList ExampleCaseChain = .ok self ∧
      self.RootDefinitionScope = some Root ∧
      Root.AllIts.map FSpecIt.Id = ["A B t".toList, "A B T".toList] ∧
      (Root.AllIts.map FSpecIt.Id).Nodup ∧
      self.PostDefine = .error .DuplicateId ∧
      ¬ ∃ compiled : FTestSpecBase, self.PostDefine = .ok compiled := by
  obtain ⟨self, Root, hD, hR, hRoot, hPD⟩ :=
    PostDefine_of_Define Char.isWhitespace "Example".toList ExampleCaseChain
  have hN : ¬ ((Root.AllIts.map FSpecIt.Id).map IgnoreCase).Nodup := by
    rw [hRoot]; decide
  rw [if_neg hN] at hPD
  refine ⟨self, Root, hD, hR, ?_, ?_, hPD, ?_⟩
  · rw [hRoot]; decide
  · rw [hRoot]; decide
  · rintro ⟨compiled, h⟩
    rw [hPD] at h
    exact absurd h (by simp)

/-- C1, amended: for every definition body run on a fresh spec, `Define` succeeds and every
command object has exactly one place in the tree; when the test ids of the tree are pairwise
different also without regard to the case of the letters (they are different keys of
`IdToSpecMap`), `PostDefine` succeeds and stores under the id of every `It` of a scope with
ancestor chain `s0 .. sk` a compiled test whose command list is the before-each lists of
`s0 .. sk` in that order, then the body, then the reverse of the concatenated after-each
lists; a scope of the tree with a hook in that list is one of `s0 .. sk` (its chain is an
initial part of the chain), so no hook of a sibling or of a descendant is in it. For `A`
containing `B` containing `C` with one hook of each kind each, the list is
`[A.before, B.before, C.before, body, C.after, B.after, A.after]`. -/
theorem C1_PostDefine_command_list (IsWhitespace : Char → Bool) (InName : FString) :
    (∀ Body : List Declaration,
      ∃ (self : FTestSpecBase) (Root : FSpecDefinitionScope),
        Define IsWhitespace InName Body = .ok self ∧
        self.RootDefinitionScope = some Root ∧
        Root.AllCommands.Nodup ∧
        (((Root.AllIts.map FSpecIt.Id).map IgnoreCase).Nodup →
          ∃ compiled : FTestSpecBase,
            self.PostDefine = .ok compiled ∧
            ∀ (chain : List FSpecDefinitionScope) (Last : FSpecDefinitionScope) (It : FSpecIt),
              IsChain Root chain → chain.getLast? = some Last → It ∈ Last.It →
              ∃ Spec : FSpec,
                MapFind compiled.IdToSpecMap It.Id = some Spec ∧
                Spec.Commands
                  = (chain.map FSpecDefinitionScope.BeforeEach).flatten ++ [It.Command]
                    ++ ((chain.map FSpecDefinitionScope.AfterEach).flatten).reverse ∧
                ∀ (other : List FSpecDefinitionScope) (Scope : FSpecDefinitionScope)
                  (Command : CmdRef),
                  IsChain Root other → other.getLast? = some Scope →
                  Command ∈ Scope.BeforeEach ∨ Command ∈ Scope.AfterEach →
                  Command ∈ Spec.Commands → other <+: chain)) ∧
    (∀ (a b c d Filename : FString) (LineNumber : Int) (w1 w2 w3 w4 w5 w6 w7 : Work),
      ∃ compiled : FTestSpecBase,
        Compile IsWhitespace InName
          [.Describe a [.BeforeEach w1, .AfterEach w2,
            .Describe b [.BeforeEach w3, .AfterEach w4,
              .Describe c [.BeforeEach w5, .AfterEach w6,
                .It d Filename LineNumber w7]]]] = .ok compiled ∧
        compiled.IdToSpecMap.map FSpec.Commands = [[0, 2, 4, 6, 5, 3, 1]] ∧
        compiled.Objects
          = [w1.Command ThirtySeconds true, w2.Command ThirtySeconds false,
             w3.Command ThirtySeconds true, w4.Command ThirtySeconds false,
             w5.Command ThirtySeconds true, w6.Command ThirtySeconds false,
             w7.Command ThirtySeconds true]) := by
  constructor
  · intro Body
    have hG := DeclareAll_GroupsNonEmpty IsWhitespace Body [] 0 FSpecDefinitionScope.New rfl
    have hU := (Declared_tree_AllCommands IsWhitespace Body).1
    refine ⟨_, _, Define_eq IsWhitespace InName Body, rfl, hU, ?_⟩
    intro hN
    have hN2 : ((([] ++ (DeclareAll IsWhitespace Body [] 0 FSpecDefinitionScope.New).Flatten [] []
        ).map FSpec.Id).map IgnoreCase).Nodup := by
      rw [List.nil_append]
      exact ((Flatten_Ids [] [] _).map IgnoreCase).nodup_iff.mpr hN
    have hPD : ({ FTestSpecBase.New InName with
          RootDefinitionScope := some (DeclareAll IsWhitespace Body [] 0 FSpecDefinitionScope.New),
          Objects := NewObjectsAll ThirtySeconds true Body } : FTestSpecBase).PostDefine
        = .ok { FTestSpecBase.New InName with
            IdToSpecMap := (DeclareAll IsWhitespace Body [] 0 FSpecDefinitionScope.New).Flatten [] [],
            RootDefinitionScope := none, DefinitionScopeStack := [], bHasBeenDefined := true,
            Objects := NewObjectsAll ThirtySeconds true Body } := by
      rw [PostDefine_eq _ _ rfl hG]
      show (AddAll _ []).bind _ = _
      rw [AddAll_ok _ [] hN2]
      rfl
    refine ⟨_, hPD, ?_⟩
    intro chain Last It hchain hLast hIt
    have hmem := mem_Flatten_of_chain It Last _ chain hchain hLast hIt [] []
    simp only [List.nil_append] at hmem hN2
    refine ⟨_, MapFind_of_mem _ _ hN2 hmem, rfl, ?_⟩
    intro other Scope Command hother hScope hHook hC
    have hOwn : Command ∈ Scope.OwnCommands := by
      simp only [FSpecDefinitionScope.OwnCommands, List.mem_append]
      rcases hHook with h | h
      · exact Or.inl (Or.inl h)
      · exact Or.inr h
    simp only [ExpectedSpec, List.mem_append, List.mem_flatten, List.mem_map,
      List.mem_singleton, List.mem_reverse] at hC
    have hcase : ∃ S ∈ chain, Command ∈ S.OwnCommands := by
      rcases hC with (⟨l, ⟨S, hS, rfl⟩, hl⟩ | rfl) | ⟨l, ⟨S, hS, rfl⟩, hl⟩
      · exact ⟨S, hS, by
          simp only [FSpecDefinitionScope.OwnCommands, List.mem_append]
          exact Or.inl (Or.inl hl)⟩
      · refine ⟨Last, List.mem_of_mem_getLast? hLast, ?_⟩
        simp only [FSpecDefinitionScope.OwnCommands, List.mem_append, List.mem_map]
        exact Or.inl (Or.inr ⟨It, hIt, rfl⟩)
      · exact ⟨S, hS, by
          simp only [FSpecDefinitionScope.OwnCommands, List.mem_append]
          exact Or.inr hl⟩
    obtain ⟨S, hS, hSOwn⟩ := hcase
    obtain ⟨pre, hpre, hprechain, hprelast⟩ := chain_to_member _ chain hchain S hS
    rw [chain_unique_of_shared_command Command Scope S _ other hother pre hprechain hU
      hScope hprelast hOwn hSOwn]
    exact hpre
  · intro a b c d Filename LineNumber w1 w2 w3 w4 w5 w6 w7
    rw [Compile_eq]
    simp only [DeclareAll, Declaration.Declare, Declaration.NewObjects, NewObjectsAll,
      FSpecDefinitionScope.New, FSpecDefinitionScope.Flatten, FlattenChildren, AddAll,
      MapContains, MapAdd, Except.bind, List.nil_append, List.append_nil, List.length_cons,
      List.length_nil, List.map_cons, List.map_nil, List.any_nil, List.cons_append,
      List.length_append]
    simp only [Bool.false_eq_true, if_false]
    exact ⟨_, rfl, rfl, rfl⟩

/-- C1, amended, at `ExampleGroups`: the ids are different up to case, and the test `x` of group `A` is compiled to
`[A.before, body, A.after]`; the hook of the nested group `B` (command 3) and the hook of the
sibling group `S` (command 5) are not in it. -/
theorem C1_PostDefine_command_list_witness :
    ∃ (self compiled : FTestSpecBase) (Spec : FSpec),
      Define Char.isWhitespace [] ExampleGroups = .ok self ∧
      self.PostDefine = .ok compiled ∧
      MapFind compiled.IdToSpecMap "A x".toList = some Spec ∧
      Spec.Commands = [0, 2, 1] ∧ 3 ∉ Spec.Commands ∧ 5 ∉ Spec.Commands := by
  obtain ⟨self, Root, hD, hR, _, h⟩ :=
    (C1_PostDefine_command_list Char.isWhitespace []).1 ExampleGroups
  have hD2 := Define_eq Char.isWhitespace [] ExampleGroups
  rw [hD] at hD2
  injection hD2 with hself
  subst hself
  simp only [Option.some.injEq] at hR
  subst hR
  obtain ⟨compiled, hPD, hall⟩ := h (by decide)
  obtain ⟨A, rest, hk, It, rest2, hI, hId, hB, hAft, hRB, hRA, hCmd⟩ :
      ∃ A rest, (DeclareAll Char.isWhitespace ExampleGroups [] 0
          FSpecDefinitionScope.New).Children = A :: rest ∧
        ∃ It rest2, A.It = It :: rest2 ∧ It.Id = "A x".toList ∧
          A.BeforeEach = [0] ∧ A.AfterEach = [1] ∧
          (DeclareAll Char.isWhitespace ExampleGroups [] 0
            FSpecDefinitionScope.New).BeforeEach = [] ∧
          (DeclareAll Char.isWhitespace ExampleGroups [] 0
            FSpecDefinitionScope.New).AfterEach = [] ∧ It.Command = 2 :=
    ⟨_, _, rfl, _, _, rfl, rfl, rfl, rfl, rfl, rfl, rfl⟩
  obtain ⟨Spec, hF, hC, _⟩ := hall
    [DeclareAll Char.isWhitespace ExampleGroups [] 0 FSpecDefinitionScope.New, A] A It
    (IsChain.child _ _ _ (by rw [hk]; exact List.mem_cons_self _ _) (IsChain.root _)) rfl
    (by rw [hI]; exact List.mem_cons_self _ _)
  have hCmds : Spec.Commands = [0, 2, 1] := by
    rw [hC]
    simp [hB, hAft, hRB, hRA, hCmd]
  refine ⟨_, compiled, Spec, hD, hPD, ?_, hCmds, ?_, ?_⟩
  · rw [← hId]; exact hF
  · rw [hCmds]; decide
  · rw [hCmds]; decide


/-! ## The skip flag of the registered commands -/

theorem UntilDone_Conclude_logs (T : Tick) (c : FUntilDoneLatentCommand) (Spec : FTestSpecBase)
    (Invoked : List FnId) :
    (c.Conclude T Spec Invoked).Invoked = Invoked ∧ (c.Conclude T Spec Invoked).Dispatched = [] := by
  simp only [FUntilDoneLatentCommand.Conclude]
  split_ifs <;> exact ⟨rfl, rfl⟩

theorem AsyncUntilDone_Conclude_logs (T : Tick) (c : FAsyncUntilDoneLatentCommand)
    (Spec : FTestSpecBase) (Dispatched : List FnId) :
    (c.Conclude T Spec Dispatched).Invoked = []
      ∧ (c.Conclude T Spec Dispatched).Dispatched = Dispatched := by
  simp only [FAsyncUntilDoneLatentCommand.Conclude]
  split_ifs <;> exact ⟨rfl, rfl⟩

theorem Async_Conclude_logs (T : Tick) (c : FAsyncLatentCommand) (Spec : FTestSpecBase)
    (Dispatched : List FnId) :
    (c.Conclude T Spec Dispatched).Invoked = []
      ∧ (c.Conclude T Spec Dispatched).Dispatched = Dispatched := by
  simp only [FAsyncLatentCommand.Conclude]
  split_ifs <;> exact ⟨rfl, rfl⟩

theorem Update_fresh_unguarded (Body : Bodies) (T : Tick) (Spec : FTestSpecBase)
    (DefaultTimeout : FTimespan) (DoWork : Work) :
    ((DoWork.Command DefaultTimeout false).Update Body T Spec).Invoked
        ++ ((DoWork.Command DefaultTimeout false).Update Body T Spec).Dispatched
      = [(DoWork.Command DefaultTimeout false).Predicate] := by
  cases DoWork with
  | Sync f =>
    simp [Work.Command, IAutomationLatentCommand.Update, IAutomationLatentCommand.Predicate,
      FSingleExecuteLatentCommand.Update, FSingleExecuteLatentCommand.New]
  | Async e t f =>
    simp [Work.Command, IAutomationLatentCommand.Update, IAutomationLatentCommand.Predicate,
      FAsyncLatentCommand.Update, FAsyncLatentCommand.New, Async_Conclude_logs]
  | Latent t f =>
    simp [Work.Command, IAutomationLatentCommand.Update, IAutomationLatentCommand.Predicate,
      FUntilDoneLatentCommand.Update, FUntilDoneLatentCommand.New, UntilDone_Conclude_logs]
    split <;> rfl
  | LatentAsync e t f =>
    simp [Work.Command, IAutomationLatentCommand.Update, IAutomationLatentCommand.Predicate,
      FAsyncUntilDoneLatentCommand.Update, FAsyncUntilDoneLatentCommand.New,
      AsyncUntilDone_Conclude_logs]

theorem Update_fresh_guarded (Body : Bodies) (T : Tick) (Spec : FTestSpecBase)
    (hErr : Spec.HasAnyErrors = true) (DefaultTimeout : FTimespan) (DoWork : Work) :
    ((DoWork.Command DefaultTimeout true).Update Body T Spec).bReturn = true ∧
    ((DoWork.Command DefaultTimeout true).Update Body T Spec).Invoked = [] ∧
    ((DoWork.Command DefaultTimeout true).Update Body T Spec).Dispatched = [] ∧
    ((DoWork.Command DefaultTimeout true).Update Body T Spec).Self
      = DoWork.Command DefaultTimeout true ∧
    ((DoWork.Command DefaultTimeout true).Update Body T Spec).Spec = Spec := by
  cases DoWork <;>
    simp [Work.Command, IAutomationLatentCommand.Update, FSingleExecuteLatentCommand.Update,
      FSingleExecuteLatentCommand.New, FAsyncLatentCommand.Update, FAsyncLatentCommand.New,
      FUntilDoneLatentCommand.Update, FUntilDoneLatentCommand.New,
      FAsyncUntilDoneLatentCommand.Update, FAsyncUntilDoneLatentCommand.New, hErr]

theorem Command_bSkipIfErrored (DefaultTimeout : FTimespan) (b : Bool) (DoWork : Work) :
    (DoWork.Command DefaultTimeout b).bSkipIfErrored = b := by
  cases DoWork <;> rfl


/-- C11: on a spec whose current scope is `Node`, every overload of `AfterEach` and
`LatentAfterEach` (the work arguments `DoWork`) registers in that scope a new command object
whose skip flag is false whatever `bEnableSkipIfError` is, and the first `Update` of that
object executes its body (invokes it, or hands it to `Async`) on every spec, with errors or
without; every overload of `BeforeEach`, `LatentBeforeEach`, `It` and `LatentIt` registers
a new command object whose skip flag is `bEnableSkipIfError`, and when that is true the first
`Update` on a spec that has errors returns true without executing the body and without
changing the command or the spec. A freshly constructed spec has `bEnableSkipIfError` true. -/
theorem C11_AfterEach_commands_always_run (IsWhitespace : Char → Bool) (self : FTestSpecBase)
    (Root Node : FSpecDefinitionScope) (Ref : ScopeRef)
    (hRoot : self.RootDefinitionScope = some Root)
    (hTop : self.DefinitionScopeStack.getLast? = some Ref) (hAt : Root.At Ref = some Node)
    (DoWork : Work) :
    (∃ (after : FTestSpecBase) (Command : IAutomationLatentCommand),
      self.AfterEach DoWork = .ok after ∧
      after.Objects = self.Objects ++ [Command] ∧
      after.ReadScope Ref
        = .ok { Node with AfterEach := Node.AfterEach ++ [self.Objects.length] } ∧
      Command = DoWork.Command self.DefaultTimeout false ∧
      Command.bSkipIfErrored = false ∧
      ∀ (Body : Bodies) (T : Tick) (Spec : FTestSpecBase),
        (Command.Update Body T Spec).Invoked ++ (Command.Update Body T Spec).Dispatched
          = [Command.Predicate]) ∧
    (∃ (after : FTestSpecBase) (Command : IAutomationLatentCommand),
      self.BeforeEach DoWork = .ok after ∧
      after.Objects = self.Objects ++ [Command] ∧
      after.ReadScope Ref
        = .ok { Node with BeforeEach := Node.BeforeEach ++ [self.Objects.length] } ∧
      Command.bSkipIfErrored = self.bEnableSkipIfError ∧
      (self.bEnableSkipIfError = true →
        ∀ (Body : Bodies) (T : Tick) (Spec : FTestSpecBase), Spec.HasAnyErrors = true →
          (Command.Update Body T Spec).bReturn = true ∧
          (Command.Update Body T Spec).Invoked = [] ∧
          (Command.Update Body T Spec).Dispatched = [] ∧
          (Command.Update Body T Spec).Self = Command ∧
          (Command.Update Body T Spec).Spec = Spec)) ∧
    (∀ (InDescription Filename : FString) (LineNumber : Int),
      ∃ (after : FTestSpecBase) (Command : IAutomationLatentCommand) (NewIt : FSpecIt),
        self.It IsWhitespace InDescription Filename LineNumber DoWork = .ok after ∧
        after.Objects = self.Objects ++ [Command] ∧
        after.ReadScope Ref = .ok { Node with It := Node.It ++ [NewIt] } ∧
        NewIt.Command = self.Objects.length ∧
        Command.bSkipIfErrored = self.bEnableSkipIfError ∧
        (self.bEnableSkipIfError = true →
          ∀ (Body : Bodies) (T : Tick) (Spec : FTestSpecBase), Spec.HasAnyErrors = true →
            (Command.Update Body T Spec).bReturn = true ∧
            (Command.Update Body T Spec).Invoked = [] ∧
            (Command.Update Body T Spec).Dispatched = [] ∧
            (Command.Update Body T Spec).Self = Command ∧
            (Command.Update Body T Spec).Spec = Spec)) ∧
    (∀ InName : FString, (FTestSpecBase.New InName).bEnableSkipIfError = true) := by
  refine ⟨?_, ?_, ?_, fun _ => rfl⟩
  · refine ⟨_, _, AfterEach_eq IsWhitespace DoWork self Root Node Ref hRoot hTop hAt, rfl, ?_,
      rfl, Command_bSkipIfErrored _ _ _, ?_⟩
    · rw [ReadScope_eq _ _ _ Ref rfl (At_Modify _ Ref Root Node hAt)]
      rfl
    · intro Body T Spec
      exact Update_fresh_unguarded Body T Spec self.DefaultTimeout DoWork
  · refine ⟨_, _, BeforeEach_eq IsWhitespace DoWork self Root Node Ref hRoot hTop hAt, rfl, ?_,
      Command_bSkipIfErrored _ _ _, ?_⟩
    · rw [ReadScope_eq _ _ _ Ref rfl (At_Modify _ Ref Root Node hAt)]
      rfl
    · intro hb Body T Spec hErr
      rw [hb]
      exact Update_fresh_guarded Body T Spec hErr self.DefaultTimeout DoWork
  · intro InDescription Filename LineNumber
    refine ⟨_, _,
      { Description := GetDescription IsWhitespace (self.Description ++ [InDescription]),
        Id := IdOf IsWhitespace (self.Description ++ [InDescription]),
        Filename := Filename, LineNumber := LineNumber, Command := self.Objects.length },
      It_eq IsWhitespace InDescription Filename LineNumber DoWork self Root Node Ref
      hRoot hTop hAt, rfl, ?_, ?_, Command_bSkipIfErrored _ _ _, ?_⟩
    · rw [ReadScope_eq _ _ _ Ref rfl (At_Modify _ Ref Root Node hAt)]
      rfl
    · rfl
    · intro hb Body T Spec hErr
      rw [hb]
      exact Update_fresh_guarded Body T Spec hErr self.DefaultTimeout DoWork

/-- C11, on a fresh spec whose `bEnableSkipIfError` is true, for `LatentAfterEach` and
`LatentBeforeEach` with the body `7` and no timeout: the after-each command has the flag
false and its first `Update` on a spec with an error invokes the body; the before-each
command has the flag true. -/
theorem C11_AfterEach_commands_always_run_witness :
    (FTestSpecBase.New []).RootDefinitionScope = some FSpecDefinitionScope.New ∧
    (FTestSpecBase.New []).DefinitionScopeStack.getLast? = some [] ∧
    FSpecDefinitionScope.New.At [] = some FSpecDefinitionScope.New ∧
    (∃ (after : FTestSpecBase) (Command : IAutomationLatentCommand),
      (FTestSpecBase.New []).AfterEach (.Latent none 7) = .ok after ∧
      after.Objects = [Command] ∧
      Command.bSkipIfErrored = false ∧
      (Command.Update (fun _ S => { Spec := S, bDoneExecuted := false })
          { Started := 0, Now := 0, bDoneSignalled := false }
          ((FTestSpecBase.New []).AddError TimedOutText)).Invoked = [7]) ∧
    (∃ (after : FTestSpecBase) (Command : IAutomationLatentCommand),
      (FTestSpecBase.New []).BeforeEach (.Latent none 7) = .ok after ∧
      Command.bSkipIfErrored = true) := by
  have h := C11_AfterEach_commands_always_run Char.isWhitespace (FTestSpecBase.New [])
    FSpecDefinitionScope.New FSpecDefinitionScope.New [] rfl rfl rfl (.Latent none 7)
  refine ⟨rfl, rfl, rfl, ?_, ?_⟩
  · obtain ⟨after, Command, hA, hO, _, hC, hS, _⟩ := h.1
    refine ⟨after, Command, hA, hO, hS, ?_⟩
    rw [hC]
    rfl
  · obtain ⟨after, Command, hB, _, _, hS, _⟩ := h.2.1
    exact ⟨after, Command, hB, hS⟩


/-! ## `Redefine` and the definition pass after it -/

theorem Run_without_scope (ws : Char → Bool) (d : Declaration) (self : FTestSpecBase)
    (hStack : self.DefinitionScopeStack = []) :
    d.Run ws self = .error .RangeCheck ∨ d.Run ws self = .ok self := by
  cases d with
  | Describe x Body =>
    left
    simp [Declaration.Run, FTestSpecBase.Describe, Last, hStack, bind, Except.bind]
  | It x f l w =>
    left
    simp [Declaration.Run, FTestSpecBase.It, Last, hStack, bind, Except.bind]
  | BeforeEach w =>
    left
    simp [Declaration.Run, FTestSpecBase.BeforeEach, Last, hStack, bind, Except.bind]
  | AfterEach w =>
    left
    simp [Declaration.Run, FTestSpecBase.AfterEach, Last, hStack, bind, Except.bind]
  | Disabled d =>
    right
    simp [Declaration.Run]

theorem RunAll_without_scope (ws : Char → Bool) :
    ∀ (Body : List Declaration) (self : FTestSpecBase), self.DefinitionScopeStack = [] →
      RunAll ws Body self = .error .RangeCheck ∨ RunAll ws Body self = .ok self
  | [], self, _ => by right; simp [RunAll]
  | d :: rest, self, hStack => by
    rw [RunAll]
    rcases Run_without_scope ws d self hStack with h | h
    · left; simp [h, bind, Except.bind]
    · simp only [h, bind, Except.bind]
      exact RunAll_without_scope ws rest self hStack

theorem EnsureDefinitions_after_Redefine (ws : Char → Bool) (Body : List Declaration)
    (self : FTestSpecBase) :
    self.Redefine.EnsureDefinitions ws Body = .error .RangeCheck
      ∨ self.Redefine.EnsureDefinitions ws Body = .error .NullPointer := by
  have hb : self.Redefine.bHasBeenDefined = false := rfl
  simp only [FTestSpecBase.EnsureDefinitions, hb, Bool.not_false, if_true]
  rcases RunAll_without_scope ws Body self.Redefine rfl with h | h
  · left; simp [h, bind, Except.bind]
  · right
    simp only [h, bind, Except.bind]
    simp [FTestSpecBase.PostDefine, FTestSpecBase.Redefine]

/-- C12 on the code: after `Redefine()` the root scope is null and the scope stack is empty,
and nothing recreates them, so a definition pass on the redefined spec never succeeds,
whatever the spec was and whatever the body declares: `EnsureDefinitions` ends in a failed
range check (the first `Describe`, `It` or hook takes `Last()` of the empty scope stack) or,
for a body that makes no such call, in the null root scope that `PostDefine` dereferences;
`RunTest` and `GetTests` fail with it. A body that starts with an `It` or a `Describe` fails
the range check. -/
theorem C12_definition_pass_after_Redefine_fails (IsWhitespace : Char → Bool)
    (Body : List Declaration) (self : FTestSpecBase) :
    self.Redefine.IdToSpecMap = [] ∧ self.Redefine.bHasBeenDefined = false ∧
    self.Redefine.RootDefinitionScope = none ∧ self.Redefine.DefinitionScopeStack = [] ∧
    (self.Redefine.EnsureDefinitions IsWhitespace Body = .error .RangeCheck
      ∨ self.Redefine.EnsureDefinitions IsWhitespace Body = .error .NullPointer) ∧
    (∀ (InParameters : FString) (Queue : List CmdRef),
      self.Redefine.RunTest IsWhitespace Body InParameters Queue = .error .RangeCheck
        ∨ self.Redefine.RunTest IsWhitespace Body InParameters Queue = .error .NullPointer) ∧
    (∀ OutBeautifiedNames OutTestCommands : List FString,
      self.Redefine.GetTests IsWhitespace Body OutBeautifiedNames OutTestCommands
          = .error .RangeCheck
        ∨ self.Redefine.GetTests IsWhitespace Body OutBeautifiedNames OutTestCommands
          = .error .NullPointer) ∧
    (∀ (InDescription Filename : FString) (LineNumber : Int) (DoWork : Work)
        (rest : List Declaration),
      self.Redefine.EnsureDefinitions IsWhitespace
        (.It InDescription Filename LineNumber DoWork :: rest) = .error .RangeCheck) ∧
    (∀ (InDescription : FString) (DoWork rest : List Declaration),
      self.Redefine.EnsureDefinitions IsWhitespace
        (.Describe InDescription DoWork :: rest) = .error .RangeCheck) := by
  have hE := EnsureDefinitions_after_Redefine IsWhitespace Body self
  have hb : self.Redefine.bHasBeenDefined = false := rfl
  have hs : self.Redefine.DefinitionScopeStack = [] := rfl
  refine ⟨rfl, rfl, rfl, rfl, hE, ?_, ?_, ?_, ?_⟩
  · intro InParameters Queue
    rcases hE with h | h
    · left; simp [FTestSpecBase.RunTest, h, bind, Except.bind]
    · right; simp [FTestSpecBase.RunTest, h, bind, Except.bind]
  · intro N C
    rcases hE with h | h
    · left; simp [FTestSpecBase.GetTests, h, bind, Except.bind]
    · right; simp [FTestSpecBase.GetTests, h, bind, Except.bind]
  · intro d f l w rest
    simp [FTestSpecBase.EnsureDefinitions, hb, RunAll, Declaration.Run, FTestSpecBase.It, Last,
      hs, bind, Except.bind]
  · intro d w rest
    simp [FTestSpecBase.EnsureDefinitions, hb, RunAll, Declaration.Run, FTestSpecBase.Describe,
      Last, hs, bind, Except.bind]


/-! ## The driver -/

theorem EnqueueCommands_eq : ∀ (Commands Queue : List CmdRef),
    EnqueueCommands Commands Queue = Queue ++ Commands
  | [], Queue => by simp [EnqueueCommands]
  | Command :: rest, Queue => by
    simp [EnqueueCommands, EnqueueLatentCommand, EnqueueCommands_eq rest]

theorem EnqueueSpecs_eq : ∀ (Specs : List FSpec) (Queue : List CmdRef),
    EnqueueSpecs Specs Queue = Queue ++ (Specs.map FSpec.Commands).flatten
  | [], Queue => by simp [EnqueueSpecs]
  | Spec :: rest, Queue => by
    simp [EnqueueSpecs, EnqueueCommands_eq, EnqueueSpecs_eq rest]

theorem GetTestsLoop_eq : ∀ (Specs : List FSpec) (Names Commands : List FString),
    GetTestsLoop Specs Names Commands
      = (Names ++ Specs.map FSpec.Description, Commands ++ Specs.map FSpec.Id)
  | [], Names, Commands => by simp [GetTestsLoop]
  | Spec :: rest, Names, Commands => by
    simp [GetTestsLoop, GetTestsLoop_eq rest]

theorem MapFind_some (Map : List FSpec) (Key : FString) (Spec : FSpec)
    (h : MapFind Map Key = some Spec) : Spec ∈ Map ∧ FStringEquals Spec.Id Key = true := by
  refine ⟨List.mem_of_find?_eq_some h, ?_⟩
  have h2 : List.find? (fun s : FSpec => FStringEquals s.Id Key) Map = some Spec := h
  exact @List.find?_some FSpec (fun s : FSpec => FStringEquals s.Id Key) Spec Map h2

theorem MapFind_none (Map : List FSpec) (Key : FString) :
    MapFind Map Key = none ↔ ∀ Spec ∈ Map, FStringEquals Spec.Id Key = false := by
  simp [MapFind, List.find?_eq_none]

theorem EnsureDefinitions_defined (ws : Char → Bool) (Body : List Declaration)
    (self : FTestSpecBase) (h : self.bHasBeenDefined = true) :
    self.EnsureDefinitions ws Body = .ok { Spec := self, DefineCalls := 0, PostDefineCalls := 0 } := by
  simp [FTestSpecBase.EnsureDefinitions, h]

theorem EnsureDefinitions_New (ws : Char → Bool) (InName : FString) (Body : List Declaration) :
    (FTestSpecBase.New InName).EnsureDefinitions ws Body
      = (Compile ws InName Body).bind
          (fun compiled => .ok { Spec := compiled, DefineCalls := 1, PostDefineCalls := 1 }) := by
  have hb : (FTestSpecBase.New InName).bHasBeenDefined = false := rfl
  simp only [FTestSpecBase.EnsureDefinitions, hb, Bool.not_false, if_true, Compile, Define, bind,
    Except.bind]
  cases RunAll ws Body (FTestSpecBase.New InName) with
  | error e => rfl
  | ok s =>
    show (s.PostDefine.bind _) = (s.PostDefine.bind _)
    cases s.PostDefine with
    | error e => rfl
    | ok t => rfl

/-- The definition pass on a fresh spec, when the ids the body declares are pairwise
different up to case: the table is the flattened tree. -/
theorem Compile_ok (ws : Char → Bool) (InName : FString) (Body : List Declaration)
    (hIds : (((DeclaredAll ws Body []).map TestInfo.Id).map IgnoreCase).Nodup) :
    Compile ws InName Body
      = .ok { FTestSpecBase.New InName with
          IdToSpecMap := (DeclareAll ws Body [] 0 FSpecDefinitionScope.New).Flatten [] [],
          RootDefinitionScope := none, DefinitionScopeStack := [],
          bHasBeenDefined := true, Objects := NewObjectsAll ThirtySeconds true Body } := by
  have hN : ((((DeclareAll ws Body [] 0 FSpecDefinitionScope.New).Flatten [] []).map
      FSpec.Id).map IgnoreCase).Nodup :=
    ((Flatten_Ids [] [] _).map IgnoreCase).nodup_iff.mpr
      (((Declared_tree_Ids ws Body).map IgnoreCase).nodup_iff.mpr hIds)
  rw [Compile_eq, AddAll_ok _ [] (by simpa using hN)]
  rfl

theorem RunTest_of_Ensured (ws : Char → Bool) (Body : List Declaration) (InParameters : FString)
    (Queue : List CmdRef) (self : FTestSpecBase) (E : Ensured)
    (hE : self.EnsureDefinitions ws Body = .ok E) :
    self.RunTest ws Body InParameters Queue
      = .ok { bReturn := true,
              Spec := { E.Spec with TestsRemaining := (E.Spec.GetNumTests : Int) },
              Queue :=
                if InParameters = [] then
                  Queue ++ (E.Spec.IdToSpecMap.map FSpec.Commands).flatten
                else
                  match MapFind E.Spec.IdToSpecMap InParameters with
                  | some SpecToRun => Queue ++ SpecToRun.Commands
                  | none => Queue,
              DefineCalls := E.DefineCalls, PostDefineCalls := E.PostDefineCalls } := by
  simp only [FTestSpecBase.RunTest, hE, bind, Except.bind, GenerateValueArray, EnqueueSpecs_eq,
    EnqueueCommands_eq]
  by_cases hp : InParameters = []
  · simp [hp]
  · have : InParameters.isEmpty = false := by cases InParameters <;> simp_all
    simp only [this, hp, Bool.not_false, if_true, if_false]

theorem GetTests_of_Ensured (ws : Char → Bool) (Body : List Declaration)
    (Names Commands : List FString) (self : FTestSpecBase) (E : Ensured)
    (hE : self.EnsureDefinitions ws Body = .ok E) :
    self.GetTests ws Body Names Commands
      = .ok { OutBeautifiedNames := Names ++ E.Spec.IdToSpecMap.map FSpec.Description,
              OutTestCommands := Commands ++ E.Spec.IdToSpecMap.map FSpec.Id,
              Spec := E.Spec,
              DefineCalls := E.DefineCalls, PostDefineCalls := E.PostDefineCalls } := by
  simp only [FTestSpecBase.GetTests, hE, bind, Except.bind, GenerateValueArray, GetTestsLoop_eq]


/-- The table of a successful definition pass on a fresh spec has ids pairwise different up to case and
the spec is marked as defined. -/
theorem Compile_table (ws : Char → Bool) (InName : FString) (Body : List Declaration)
    (compiled : FTestSpecBase) (h : Compile ws InName Body = .ok compiled) :
    ((compiled.IdToSpecMap.map FSpec.Id).map IgnoreCase).Nodup ∧ compiled.bHasBeenDefined = true ∧
    compiled.TestName = InName ∧
    compiled.IdToSpecMap = (DeclareAll ws Body [] 0 FSpecDefinitionScope.New).Flatten [] [] := by
  rw [Compile_eq, AddAll_result _ [] (by simp)] at h
  split at h
  · rename_i hN
    injection h with h
    subst h
    exact ⟨by simpa using hN, rfl, rfl, by simp⟩
  · exact absurd h (by simp [Except.bind])

/-- The spec after `EnsureDefinitions` on the repository's own spec, freshly constructed. -/
theorem EnsureDefinitions_FAutomatronSpec :
    (FTestSpecBase.New "Automatron".toList).EnsureDefinitions Char.isWhitespace FAutomatronSpec
      = .ok { Spec :=
                { FTestSpecBase.New "Automatron".toList with
                  IdToSpecMap := (DeclareAll Char.isWhitespace FAutomatronSpec [] 0
                    FSpecDefinitionScope.New).Flatten [] [],
                  RootDefinitionScope := none, DefinitionScopeStack := [],
                  bHasBeenDefined := true,
                  Objects := NewObjectsAll ThirtySeconds true FAutomatronSpec },
              DefineCalls := 1, PostDefineCalls := 1 } := by
  rw [EnsureDefinitions_New, Compile_ok _ _ _ (by decide)]
  rfl

/-- C13 as stated fails: the table of the repository's own spec holds the one id
"Can run a test"; the parameter "can run a test" is the id of no test of the table, yet
`RunTest` with it puts the command of that test on the queue, because `Find` compares the
keys without regard to the case of the letters. -/
theorem C13_RunTest_counterexample :
    ∃ r : RunTestResult,
      (FTestSpecBase.New "Automatron".toList).RunTest Char.isWhitespace FAutomatronSpec
        "can run a test".toList [] = .ok r ∧
      r.Spec.IdToSpecMap.map FSpec.Id = ["Can run a test".toList] ∧
      (∀ Spec ∈ r.Spec.IdToSpecMap, Spec.Id ≠ "can run a test".toList) ∧
      r.Queue = [0] ∧ r.Queue ≠ [] := by
  refine ⟨_, RunTest_of_Ensured _ _ _ _ _ _ EnsureDefinitions_FAutomatronSpec, ?_, ?_, ?_, ?_⟩
  · decide
  · decide
  · decide
  · decide

/-- C13, amended: `RunTest` returns true whenever it returns, and it returns whenever
`EnsureDefinitions` does (it fails with the same fault otherwise). With `IdToSpecMap` the
table after `EnsureDefinitions`: for a non-empty parameter that `Find` resolves to a test
(a test of the table whose id equals the parameter as an `FString`, that is up to the case
of the letters) the queue grows by exactly that test's commands, in order; for a non-empty
parameter that equals the id of no test, also up to case, the queue is unchanged; for the
empty parameter the queue grows by the command lists of all tests of the table, one list
after the other in table order. On a fresh spec the ids of the table are pairwise different
up to case, so the test a parameter equals is one test; and on a fresh spec whose body
declares ids pairwise different up to case `RunTest` returns. -/
theorem C13_RunTest_enqueues (IsWhitespace : Char → Bool) (Body : List Declaration)
    (InParameters : FString) (Queue : List CmdRef) (self : FTestSpecBase) :
    (∀ E : Ensured, self.EnsureDefinitions IsWhitespace Body = .ok E →
      ∃ r : RunTestResult,
        self.RunTest IsWhitespace Body InParameters Queue = .ok r ∧ r.bReturn = true ∧
        r.Spec.IdToSpecMap = E.Spec.IdToSpecMap ∧
        (InParameters ≠ [] → ∀ Spec : FSpec,
          MapFind r.Spec.IdToSpecMap InParameters = some Spec →
            Spec ∈ r.Spec.IdToSpecMap ∧ FStringEquals Spec.Id InParameters = true ∧
            r.Queue = Queue ++ Spec.Commands) ∧
        (InParameters ≠ [] → ∀ Spec ∈ r.Spec.IdToSpecMap,
          FStringEquals Spec.Id InParameters = true →
          ((r.Spec.IdToSpecMap.map FSpec.Id).map IgnoreCase).Nodup →
            r.Queue = Queue ++ Spec.Commands) ∧
        (InParameters ≠ [] →
          (∀ Spec ∈ r.Spec.IdToSpecMap, FStringEquals Spec.Id InParameters = false) →
          r.Queue = Queue) ∧
        (InParameters = [] →
          r.Queue = Queue ++ (r.Spec.IdToSpecMap.map FSpec.Commands).flatten)) ∧
    (∀ r : RunTestResult,
      self.RunTest IsWhitespace Body InParameters Queue = .ok r → r.bReturn = true) ∧
    (∀ e : Fault, self.EnsureDefinitions IsWhitespace Body = .error e →
      self.RunTest IsWhitespace Body InParameters Queue = .error e) ∧
    (∀ (InName : FString) (E : Ensured),
      (FTestSpecBase.New InName).EnsureDefinitions IsWhitespace Body = .ok E →
        ((E.Spec.IdToSpecMap.map FSpec.Id).map IgnoreCase).Nodup) ∧
    (∀ InName : FString,
      (((DeclaredAll IsWhitespace Body []).map TestInfo.Id).map IgnoreCase).Nodup →
        ∃ r : RunTestResult,
          (FTestSpecBase.New InName).RunTest IsWhitespace Body InParameters Queue = .ok r ∧
          r.bReturn = true) := by
  refine ⟨?_, ?_, ?_, ?_, ?_⟩
  · intro E hE
    refine ⟨_, RunTest_of_Ensured IsWhitespace Body InParameters Queue self E hE, rfl, rfl,
      ?_, ?_, ?_, ?_⟩
    · intro hp Spec hF
      refine ⟨(MapFind_some _ _ _ hF).1, (MapFind_some _ _ _ hF).2, ?_⟩
      have hF2 : MapFind E.Spec.IdToSpecMap InParameters = some Spec := hF
      simp only [hp, if_false, hF2]
    · intro hp Spec hm hId hN
      have hF : MapFind E.Spec.IdToSpecMap InParameters = some Spec :=
        MapFind_of_key _ Spec InParameters hN hm ((FStringEquals_iff _ _).mp hId)
      simp only [hp, if_false, hF]
    · intro hp hnone
      have hF : MapFind E.Spec.IdToSpecMap InParameters = none :=
        (MapFind_none _ _).mpr hnone
      simp only [hp, if_false, hF]
    · intro hp
      simp only [hp, if_true]
  · intro r hr
    cases hE : self.EnsureDefinitions IsWhitespace Body with
    | error e =>
      simp [FTestSpecBase.RunTest, hE, bind, Except.bind] at hr
    | ok E =>
      rw [RunTest_of_Ensured IsWhitespace Body InParameters Queue self E hE] at hr
      injection hr with hr
      rw [← hr]
  · intro e hE
    simp [FTestSpecBase.RunTest, hE, bind, Except.bind]
  · intro InName E hE
    rw [EnsureDefinitions_New] at hE
    cases hC : Compile IsWhitespace InName Body with
    | error e => simp [hC, Except.bind] at hE
    | ok compiled =>
      simp only [hC, Except.bind] at hE
      injection hE with hE
      rw [← hE]
      exact (Compile_table IsWhitespace InName Body compiled hC).1
  · intro InName hIds
    have hE : (FTestSpecBase.New InName).EnsureDefinitions IsWhitespace Body
        = .ok { Spec :=
                  { FTestSpecBase.New InName with
                    IdToSpecMap := (DeclareAll IsWhitespace Body [] 0
                      FSpecDefinitionScope.New).Flatten [] [],
                    RootDefinitionScope := none, DefinitionScopeStack := [],
                    bHasBeenDefined := true,
                    Objects := NewObjectsAll ThirtySeconds true Body },
                DefineCalls := 1, PostDefineCalls := 1 } := by
      rw [EnsureDefinitions_New, Compile_ok _ _ _ hIds]
      rfl
    exact ⟨_, RunTest_of_Ensured IsWhitespace Body InParameters Queue _ _ hE, rfl⟩

/-- C13, amended, on the repository's own spec, freshly constructed: `RunTest` with the id
of its one test returns true and puts that test's single command on the empty queue, and so
it does with the id in another letter case; with a parameter that equals no id it leaves
the queue empty. -/
theorem C13_RunTest_enqueues_witness :
    (∃ r : RunTestResult,
      (FTestSpecBase.New "Automatron".toList).RunTest Char.isWhitespace FAutomatronSpec
        "Can run a test".toList [] = .ok r ∧
      r.bReturn = true ∧ r.Queue = [0]) ∧
    (∃ r : RunTestResult,
      (FTestSpecBase.New "Automatron".toList).RunTest Char.isWhitespace FAutomatronSpec
        "CAN RUN A TEST".toList [] = .ok r ∧
      r.bReturn = true ∧ r.Queue = [0]) ∧
    (∃ r : RunTestResult,
      (FTestSpecBase.New "Automatron".toList).RunTest Char.isWhitespace FAutomatronSpec
        "Can run".toList [] = .ok r ∧
      r.bReturn = true ∧ r.Queue = []) := by
  refine ⟨?_, ?_, ?_⟩
  · obtain ⟨r, hr, hb, hT, hFound, _, _, _⟩ :=
      (C13_RunTest_enqueues Char.isWhitespace FAutomatronSpec "Can run a test".toList []
        (FTestSpecBase.New "Automatron".toList)).1 _ EnsureDefinitions_FAutomatronSpec
    refine ⟨r, hr, hb, ?_⟩
    have hF : MapFind r.Spec.IdToSpecMap "Can run a test".toList
        = some { Id := "Can run a test".toList, Description := "Can run a test".toList,
                 Filename := "Automatron.spec.cpp".toList, LineNumber := 16, Commands := [0] } := by
      rw [hT]
      decide
    exact (hFound (by decide) _ hF).2.2
  · obtain ⟨r, hr, hb, hT, hFound, _, _, _⟩ :=
      (C13_RunTest_enqueues Char.isWhitespace FAutomatronSpec "CAN RUN A TEST".toList []
        (FTestSpecBase.New "Automatron".toList)).1 _ EnsureDefinitions_FAutomatronSpec
    refine ⟨r, hr, hb, ?_⟩
    have hF : MapFind r.Spec.IdToSpecMap "CAN RUN A TEST".toList
        = some { Id := "Can run a test".toList, Description := "Can run a test".toList,
                 Filename := "Automatron.spec.cpp".toList, LineNumber := 16, Commands := [0] } := by
      rw [hT]
      decide
    exact (hFound (by decide) _ hF).2.2
  · obtain ⟨r, hr, hb, hT, _, _, hAbsent, _⟩ :=
      (C13_RunTest_enqueues Char.isWhitespace FAutomatronSpec "Can run".toList []
        (FTestSpecBase.New "Automatron".toList)).1 _ EnsureDefinitions_FAutomatronSpec
    refine ⟨r, hr, hb, ?_⟩
    refine hAbsent (by decide) ?_
    rw [hT]
    decide


/-- The spec after `EnsureDefinitions` on a fresh spec with the body `ExampleGroups`. -/
theorem EnsureDefinitions_ExampleGroups :
    (FTestSpecBase.New []).EnsureDefinitions Char.isWhitespace ExampleGroups
      = .ok { Spec :=
                { FTestSpecBase.New [] with
                  IdToSpecMap := (DeclareAll Char.isWhitespace ExampleGroups [] 0
                    FSpecDefinitionScope.New).Flatten [] [],
                  RootDefinitionScope := none, DefinitionScopeStack := [],
                  bHasBeenDefined := true,
                  Objects := NewObjectsAll ThirtySeconds true ExampleGroups },
              DefineCalls := 1, PostDefineCalls := 1 } := by
  rw [EnsureDefinitions_New, Compile_ok _ _ _ (by decide)]
  rfl

/-- C14 as stated fails: on a fresh spec with the body `ExampleGroups`, which compiles to
three tests, `RunTest` with the id "A x" of one of them enqueues the three commands of that
one test and leaves `TestsRemaining` at 3, not 1; with the id "nope", which is in no test,
it enqueues nothing and leaves `TestsRemaining` at 3, not 0. -/
theorem C14_TestsRemaining_counterexample :
    (∃ r : RunTestResult,
      (FTestSpecBase.New []).RunTest Char.isWhitespace ExampleGroups "A x".toList [] = .ok r ∧
      MapContains r.Spec.IdToSpecMap "A x".toList = true ∧
      r.Queue = [0, 2, 1] ∧
      r.Spec.GetNumTests = 3 ∧
      r.Spec.GetTestsRemaining = 3 ∧ r.Spec.GetTestsRemaining ≠ 1) ∧
    (∃ r : RunTestResult,
      (FTestSpecBase.New []).RunTest Char.isWhitespace ExampleGroups "nope".toList [] = .ok r ∧
      MapContains r.Spec.IdToSpecMap "nope".toList = false ∧
      r.Queue = [] ∧
      r.Spec.GetTestsRemaining = 3 ∧ r.Spec.GetTestsRemaining ≠ 0) := by
  constructor
  · refine ⟨_, RunTest_of_Ensured _ _ _ _ _ _ EnsureDefinitions_ExampleGroups, ?_, ?_, ?_, ?_, ?_⟩
    · decide
    · decide
    · decide
    · decide
    · decide
  · refine ⟨_, RunTest_of_Ensured _ _ _ _ _ _ EnsureDefinitions_ExampleGroups, ?_, ?_, ?_, ?_⟩
    · decide
    · decide
    · decide
    · decide

/-- C14, amended: whenever `EnsureDefinitions` returns, `RunTest` returns and leaves
`TestsRemaining` equal to `GetNumTests()`, the number of tests of the compiled table, for
every parameter: the empty one, an id of the table, and an id that is not in the table;
the value it had before the call plays no role. -/
theorem C14_TestsRemaining_is_table_size (IsWhitespace : Char → Bool) (Body : List Declaration)
    (InParameters : FString) (Queue : List CmdRef) (self : FTestSpecBase) (E : Ensured)
    (hE : self.EnsureDefinitions IsWhitespace Body = .ok E) :
    ∃ r : RunTestResult,
      self.RunTest IsWhitespace Body InParameters Queue = .ok r ∧
      r.Spec.IdToSpecMap = E.Spec.IdToSpecMap ∧
      r.Spec.GetTestsRemaining = (r.Spec.GetNumTests : Int) ∧
      r.Spec.GetTestsRemaining = (E.Spec.IdToSpecMap.length : Int) :=
  ⟨_, RunTest_of_Ensured IsWhitespace Body InParameters Queue self E hE, rfl, rfl, rfl⟩

/-- C14, amended, on a fresh spec with the body `ExampleGroups` and the empty parameter: the
definition pass runs, and `TestsRemaining` is 3, the number of compiled tests. -/
theorem C14_TestsRemaining_is_table_size_witness :
    ∃ r : RunTestResult,
      (FTestSpecBase.New []).RunTest Char.isWhitespace ExampleGroups [] [] = .ok r ∧
      r.Spec.GetTestsRemaining = 3 := by
  obtain ⟨r, hr, _, _, hN⟩ :=
    C14_TestsRemaining_is_table_size Char.isWhitespace ExampleGroups [] []
      (FTestSpecBase.New []) _ EnsureDefinitions_ExampleGroups
  refine ⟨r, hr, ?_⟩
  rw [hN]
  decide


/-! ## The source location of a test -/

theorem RightChop_own_name (Name Id : FString) :
    StartsWith (Name ++ SpaceText ++ Id) (Name ++ SpaceText) = true ∧
    RightChop (Name ++ SpaceText ++ Id) (Name.length + 1) = Id := by
  constructor
  · have h1 : (Name ++ SpaceText).isEmpty = false := by
      cases Name <;> rfl
    have h2 : IgnoreCase (Name ++ SpaceText ++ Id)
        = IgnoreCase (Name ++ SpaceText) ++ IgnoreCase Id := by
      simp [IgnoreCase]
    rw [StartsWith, h1, h2]
    simp
  · have h : Name.length + 1 = (Name ++ SpaceText).length := by simp [SpaceText]
    rw [RightChop, h, List.drop_left]

/-- A test that a body declares is in the table of the definition pass, and every key that
equals its id up to case finds it. -/
theorem MapFind_declared (ws : Char → Bool) (InName : FString) (Body : List Declaration)
    (compiled : FTestSpecBase) (hC : Compile ws InName Body = .ok compiled)
    (t : TestInfo) (ht : t ∈ DeclaredAll ws Body [])
    (Key : FString) (hK : FStringEquals t.Id Key = true) :
    ∃ Spec : FSpec, MapFind compiled.IdToSpecMap Key = some Spec ∧ Spec.Info = t := by
  obtain ⟨hN, _, _, hT⟩ := Compile_table ws InName Body compiled hC
  have hP : List.Perm (compiled.IdToSpecMap.map FSpec.Info) (DeclaredAll ws Body []) := by
    rw [hT]
    exact (Flatten_Info [] [] _).trans (Declared_tree_Info ws Body)
  obtain ⟨Spec, hm, hI⟩ := List.mem_map.mp (hP.symm.subset ht)
  refine ⟨Spec, ?_, hI⟩
  have hId : Spec.Id = t.Id := by rw [← hI]; rfl
  refine MapFind_of_key _ Spec Key hN hm ?_
  rw [hId]
  exact (FStringEquals_iff _ _).mp hK

/-- A key that equals the id of no declared test, also up to case, is not in the table of
the definition pass. -/
theorem MapFind_undeclared (ws : Char → Bool) (InName : FString) (Body : List Declaration)
    (compiled : FTestSpecBase) (hC : Compile ws InName Body = .ok compiled)
    (Key : FString) (hKey : ∀ t ∈ DeclaredAll ws Body [], FStringEquals t.Id Key = false) :
    MapFind compiled.IdToSpecMap Key = none := by
  obtain ⟨_, _, _, hT⟩ := Compile_table ws InName Body compiled hC
  have hP : List.Perm (compiled.IdToSpecMap.map FSpec.Info) (DeclaredAll ws Body []) := by
    rw [hT]
    exact (Flatten_Info [] [] _).trans (Declared_tree_Info ws Body)
  rw [MapFind_none]
  intro Spec hm
  exact hKey Spec.Info (hP.subset (List.mem_map_of_mem FSpec.Info hm))

/-- C15 as stated fails. A spec registered as "Spec" whose body is a group "Spec" with the
test "a" compiles to one test with the id "Spec a", declared in "Spec.cpp" at line 3; asked
for that id, both functions return the location of the base class. The repository's own
spec, registered as "Automatron", has no test with the id "Automatron Can run a test", yet
for that id both functions return the location of the test "Can run a test"; and it has no
test with the id "can run a test" either, yet for it they return that location too. -/
theorem C15_source_location_counterexample :
    (∃ compiled : FTestSpecBase,
      Compile Char.isWhitespace "Spec".toList ExampleNamedGroup = .ok compiled ∧
      compiled.IdToSpecMap.map FSpec.Info
        = [{ Id := "Spec a".toList, Description := "Spec.a".toList,
             Filename := "Spec.cpp".toList, LineNumber := 3 }] ∧
      MapContains compiled.IdToSpecMap "Spec a".toList = true ∧
      compiled.GetTestSourceFileName "Base.cpp".toList "Spec a".toList = "Base.cpp".toList ∧
      compiled.GetTestSourceFileLine 0 "Spec a".toList = 0) ∧
    (∃ compiled : FTestSpecBase,
      Compile Char.isWhitespace "Automatron".toList FAutomatronSpec = .ok compiled ∧
      compiled.IdToSpecMap.map FSpec.Id = ["Can run a test".toList] ∧
      compiled.GetTestSourceFileName "Base.cpp".toList "Automatron Can run a test".toList
        = "Automatron.spec.cpp".toList ∧
      compiled.GetTestSourceFileLine 0 "Automatron Can run a test".toList = 16 ∧
      compiled.GetTestSourceFileName "Base.cpp".toList "can run a test".toList
        = "Automatron.spec.cpp".toList ∧
      compiled.GetTestSourceFileLine 0 "can run a test".toList = 16) := by
  constructor
  · refine ⟨_, Compile_ok _ _ _ (by decide), ?_, ?_, ?_, ?_⟩
    · decide
    · decide
    · decide
    · decide
  · refine ⟨_, Compile_ok _ _ _ (by decide), ?_, ?_, ?_, ?_, ?_⟩
    · decide
    · decide
    · decide
    · decide
    · decide

/-- C15, amended: the key both functions look up is the argument without a leading
`TestName + " "` (a leading part that equals it up to the case of the letters), and they
return the file name and line number of the compiled test whose id equals that key as an
`FString`, that is up to case, or the location of the base class when the table has none.
So, after the definition pass of a body with ids pairwise different up to case on a fresh
spec named `InName`: for every declared test whose id does not start with `InName + " "`
they return, for that id, the file name and line number of the declaration; for every
declared test they return them for the full name `InName + " " + id`; for every declared
test they return them for every argument whose key equals its id up to case; and for every
argument whose key equals the id of no declared test they return the location of the base
class. -/
theorem C15_source_location (IsWhitespace : Char → Bool) (InName : FString)
    (Body : List Declaration)
    (hIds : (((DeclaredAll IsWhitespace Body []).map TestInfo.Id).map IgnoreCase).Nodup)
    (BaseFileName : FString) (BaseLine : Int) :
    ∃ compiled : FTestSpecBase,
      Compile IsWhitespace InName Body = .ok compiled ∧
      (∀ t ∈ DeclaredAll IsWhitespace Body [],
        StartsWith t.Id (InName ++ SpaceText) = false →
          compiled.GetTestSourceFileName BaseFileName t.Id = t.Filename ∧
          compiled.GetTestSourceFileLine BaseLine t.Id = t.LineNumber) ∧
      (∀ t ∈ DeclaredAll IsWhitespace Body [],
        compiled.GetTestSourceFileName BaseFileName (InName ++ SpaceText ++ t.Id) = t.Filename ∧
        compiled.GetTestSourceFileLine BaseLine (InName ++ SpaceText ++ t.Id) = t.LineNumber) ∧
      (∀ t ∈ DeclaredAll IsWhitespace Body [], ∀ InTestName : FString,
        FStringEquals t.Id (compiled.TestIdOf InTestName) = true →
          compiled.GetTestSourceFileName BaseFileName InTestName = t.Filename ∧
          compiled.GetTestSourceFileLine BaseLine InTestName = t.LineNumber) ∧
      (∀ InTestName : FString,
        (∀ t ∈ DeclaredAll IsWhitespace Body [],
          FStringEquals t.Id (compiled.TestIdOf InTestName) = false) →
          compiled.GetTestSourceFileName BaseFileName InTestName = BaseFileName ∧
          compiled.GetTestSourceFileLine BaseLine InTestName = BaseLine) ∧
      (∀ InTestName : FString,
        compiled.TestIdOf InTestName
          = if StartsWith InTestName (InName ++ SpaceText) then
              InTestName.drop (InName.length + 1)
            else InTestName) := by
  have hC := Compile_ok IsWhitespace InName Body hIds
  have hFound : ∀ t ∈ DeclaredAll IsWhitespace Body [], ∀ InTestName : FString,
      FStringEquals t.Id (FTestSpecBase.TestIdOf
        { FTestSpecBase.New InName with
          IdToSpecMap := (DeclareAll IsWhitespace Body [] 0 FSpecDefinitionScope.New).Flatten [] [],
          RootDefinitionScope := none, DefinitionScopeStack := [],
          bHasBeenDefined := true, Objects := NewObjectsAll ThirtySeconds true Body }
        InTestName) = true →
      FTestSpecBase.GetTestSourceFileName BaseFileName
        { FTestSpecBase.New InName with
          IdToSpecMap := (DeclareAll IsWhitespace Body [] 0 FSpecDefinitionScope.New).Flatten [] [],
          RootDefinitionScope := none, DefinitionScopeStack := [],
          bHasBeenDefined := true, Objects := NewObjectsAll ThirtySeconds true Body }
        InTestName = t.Filename ∧
      FTestSpecBase.GetTestSourceFileLine BaseLine
        { FTestSpecBase.New InName with
          IdToSpecMap := (DeclareAll IsWhitespace Body [] 0 FSpecDefinitionScope.New).Flatten [] [],
          RootDefinitionScope := none, DefinitionScopeStack := [],
          bHasBeenDefined := true, Objects := NewObjectsAll ThirtySeconds true Body }
        InTestName = t.LineNumber := by
    intro t ht InTestName hK
    obtain ⟨Spec, hF, hI⟩ := MapFind_declared IsWhitespace InName Body _ hC t ht _ hK
    simp only [FTestSpecBase.GetTestSourceFileName, FTestSpecBase.GetTestSourceFileLine, hF]
    rw [← hI]
    exact ⟨rfl, rfl⟩
  refine ⟨_, hC, ?_, ?_, hFound, ?_, ?_⟩
  · intro t ht hS
    have hK : FTestSpecBase.TestIdOf
        { FTestSpecBase.New InName with
          IdToSpecMap := (DeclareAll IsWhitespace Body [] 0 FSpecDefinitionScope.New).Flatten [] [],
          RootDefinitionScope := none, DefinitionScopeStack := [],
          bHasBeenDefined := true, Objects := NewObjectsAll ThirtySeconds true Body } t.Id
        = t.Id := by
      show (if StartsWith t.Id (InName ++ SpaceText) = true then _ else _) = _
      rw [hS]; rfl
    refine hFound t ht t.Id ?_
    rw [hK]
    exact FStringEquals_self _
  · intro t ht
    have hK : FTestSpecBase.TestIdOf
        { FTestSpecBase.New InName with
          IdToSpecMap := (DeclareAll IsWhitespace Body [] 0 FSpecDefinitionScope.New).Flatten [] [],
          RootDefinitionScope := none, DefinitionScopeStack := [],
          bHasBeenDefined := true, Objects := NewObjectsAll ThirtySeconds true Body }
        (InName ++ SpaceText ++ t.Id) = t.Id := by
      show (if StartsWith (InName ++ SpaceText ++ t.Id) (InName ++ SpaceText) = true
        then RightChop (InName ++ SpaceText ++ t.Id) (InName.length + 1) else _) = _
      rw [(RightChop_own_name InName t.Id).1, (RightChop_own_name InName t.Id).2]; rfl
    refine hFound t ht _ ?_
    rw [hK]
    exact FStringEquals_self _
  · intro InTestName hKey
    have hF := MapFind_undeclared IsWhitespace InName Body _ hC _ hKey
    simp only [FTestSpecBase.GetTestSourceFileName, FTestSpecBase.GetTestSourceFileLine, hF,
      and_self]
  · intro InTestName
    rfl

/-- C15, amended, on the repository's own spec registered as "Automatron": for the id
"Can run a test", and for the full name in another letter case, the functions return the
file and the line of the `It`. -/
theorem C15_source_location_witness :
    (((DeclaredAll Char.isWhitespace FAutomatronSpec []).map TestInfo.Id).map IgnoreCase).Nodup ∧
    ∃ compiled : FTestSpecBase,
      Compile Char.isWhitespace "Automatron".toList FAutomatronSpec = .ok compiled ∧
      compiled.GetTestSourceFileName [] "Can run a test".toList = "Automatron.spec.cpp".toList ∧
      compiled.GetTestSourceFileLine 0 "Can run a test".toList = 16 ∧
      compiled.GetTestSourceFileName [] "automatron CAN RUN a test".toList
        = "Automatron.spec.cpp".toList ∧
      compiled.GetTestSourceFileLine 0 "automatron CAN RUN a test".toList = 16 := by
  refine ⟨by decide, ?_⟩
  obtain ⟨compiled, hC, hId, _, hKey, _, hT⟩ :=
    C15_source_location Char.isWhitespace "Automatron".toList FAutomatronSpec (by decide) [] 0
  have h := hId { Id := "Can run a test".toList, Description := "Can run a test".toList,
                  Filename := "Automatron.spec.cpp".toList, LineNumber := 16 }
    (by decide) (by decide)
  have h2 := hKey { Id := "Can run a test".toList, Description := "Can run a test".toList,
                    Filename := "Automatron.spec.cpp".toList, LineNumber := 16 }
    (by decide) "automatron CAN RUN a test".toList (by rw [hT]; decide)
  exact ⟨compiled, hC, h.1, h.2, h2.1, h2.2⟩


/-! ## `GetTests` and the calls of the framework -/

/-- C16: whenever `EnsureDefinitions` returns, `GetTests` returns, and with `IdToSpecMap` the
table after the call: the entries the caller's arrays held stay in front, the test commands
grow by the ids of the compiled tests in table order and the beautified names by their
descriptions in the same order, so both arrays grow by `GetNumTests()` entries, the `i`-th
appended test command and the `i`-th appended beautified name are the id and the
description of the `i`-th compiled test, and the appended pairs are the pairs of the table,
each test once and nothing else. -/
theorem C16_GetTests_lists_the_table (IsWhitespace : Char → Bool) (Body : List Declaration)
    (OutBeautifiedNames OutTestCommands : List FString) (self : FTestSpecBase) (E : Ensured)
    (hE : self.EnsureDefinitions IsWhitespace Body = .ok E) :
    ∃ r : GetTestsResult,
      self.GetTests IsWhitespace Body OutBeautifiedNames OutTestCommands = .ok r ∧
      r.Spec.IdToSpecMap = E.Spec.IdToSpecMap ∧
      r.OutTestCommands = OutTestCommands ++ r.Spec.IdToSpecMap.map FSpec.Id ∧
      r.OutBeautifiedNames = OutBeautifiedNames ++ r.Spec.IdToSpecMap.map FSpec.Description ∧
      r.OutTestCommands.length = OutTestCommands.length + r.Spec.GetNumTests ∧
      r.OutBeautifiedNames.length = OutBeautifiedNames.length + r.Spec.GetNumTests ∧
      (∀ (i : Nat) (Spec : FSpec), r.Spec.IdToSpecMap.get? i = some Spec →
        r.OutTestCommands.get? (OutTestCommands.length + i) = some Spec.Id ∧
        r.OutBeautifiedNames.get? (OutBeautifiedNames.length + i) = some Spec.Description) ∧
      List.zip (r.OutTestCommands.drop OutTestCommands.length)
          (r.OutBeautifiedNames.drop OutBeautifiedNames.length)
        = r.Spec.IdToSpecMap.map (fun Spec => (Spec.Id, Spec.Description)) := by
  refine ⟨_, GetTests_of_Ensured IsWhitespace Body OutBeautifiedNames OutTestCommands self E hE,
    rfl, rfl, rfl, ?_, ?_, ?_, ?_⟩
  · simp [FTestSpecBase.GetNumTests]
  · simp [FTestSpecBase.GetNumTests]
  · intro i Spec hi
    simp only [List.get?_eq_getElem?] at hi ⊢
    constructor
    · rw [List.getElem?_append_right (Nat.le_add_right _ _), Nat.add_sub_cancel_left,
        List.getElem?_map, hi]
      rfl
    · rw [List.getElem?_append_right (Nat.le_add_right _ _), Nat.add_sub_cancel_left,
        List.getElem?_map, hi]
      rfl
  · simp only [List.drop_left]
    rw [List.zip_map]
    induction E.Spec.IdToSpecMap with
    | nil => rfl
    | cons a rest ih => simp [ih]

/-- C16, on a fresh spec with the body `ExampleGroups` and two empty arrays: the definition
pass runs and the arrays hold the ids and the descriptions of the three compiled tests. -/
theorem C16_GetTests_lists_the_table_witness :
    ∃ r : GetTestsResult,
      (FTestSpecBase.New []).GetTests Char.isWhitespace ExampleGroups [] [] = .ok r ∧
      r.OutTestCommands = ["S z".toList, "A x".toList, "A B y".toList] ∧
      r.OutBeautifiedNames = ["S.z".toList, "A.x".toList, "A.B.y".toList] := by
  obtain ⟨r, hr, hT, hC, hN, _⟩ :=
    C16_GetTests_lists_the_table Char.isWhitespace ExampleGroups [] []
      (FTestSpecBase.New []) _ EnsureDefinitions_ExampleGroups
  refine ⟨r, hr, ?_, ?_⟩
  · rw [hC, hT]; decide
  · rw [hN, hT]; decide


/-- On a spec that is marked as defined no call runs the definition pass, and the table
stays as it is. -/
theorem DriverCalls_defined (ws : Char → Bool) (Body : List Declaration) :
    ∀ (Calls : List DriverCall) (self : FTestSpecBase) (Queue : List CmdRef),
      self.bHasBeenDefined = true →
      ∃ (final : FTestSpecBase) (After : List CmdRef),
        DriverCalls ws Body Calls self Queue
          = .ok (Calls.map (fun _ =>
                  { DefineCalls := 0, PostDefineCalls := 0, IdToSpecMap := self.IdToSpecMap }),
                 final, After) ∧
        final.IdToSpecMap = self.IdToSpecMap ∧ final.bHasBeenDefined = true
  | [], self, Queue, h => ⟨self, Queue, rfl, rfl, h⟩
  | .RunTest InParameters :: rest, self, Queue, h => by
    have hr := RunTest_of_Ensured ws Body InParameters Queue self _
      (EnsureDefinitions_defined ws Body self h)
    obtain ⟨final, After, hrest, hT, hb⟩ := DriverCalls_defined ws Body rest
      { self with TestsRemaining := (self.GetNumTests : Int) }
      (if InParameters = [] then Queue ++ (self.IdToSpecMap.map FSpec.Commands).flatten
       else
        match MapFind self.IdToSpecMap InParameters with
        | some SpecToRun => Queue ++ SpecToRun.Commands
        | none => Queue) h
    refine ⟨final, After, ?_, hT, hb⟩
    rw [DriverCalls, hr]
    simp only [bind, Except.bind, hrest]
    rfl
  | .GetTests :: rest, self, Queue, h => by
    have hr := GetTests_of_Ensured ws Body [] [] self _
      (EnsureDefinitions_defined ws Body self h)
    obtain ⟨final, After, hrest, hT, hb⟩ := DriverCalls_defined ws Body rest self Queue h
    refine ⟨final, After, ?_, hT, hb⟩
    rw [DriverCalls, hr]
    simp only [bind, Except.bind, hrest]
    rfl

theorem DriverCalls_cons (ws : Char → Bool) (Body : List Declaration) (first : DriverCall)
    (rest : List DriverCall) (self : FTestSpecBase) (Queue : List CmdRef) (E : Ensured)
    (hE : self.EnsureDefinitions ws Body = .ok E) (hD : E.Spec.bHasBeenDefined = true) :
    ∃ (final : FTestSpecBase) (After : List CmdRef),
      DriverCalls ws Body (first :: rest) self Queue
        = .ok ({ DefineCalls := E.DefineCalls, PostDefineCalls := E.PostDefineCalls,
                 IdToSpecMap := E.Spec.IdToSpecMap }
               :: rest.map (fun _ =>
                  { DefineCalls := 0, PostDefineCalls := 0, IdToSpecMap := E.Spec.IdToSpecMap }),
               final, After) ∧
      final.IdToSpecMap = E.Spec.IdToSpecMap := by
  cases first with
  | RunTest InParameters =>
    have hr := RunTest_of_Ensured ws Body InParameters Queue self E hE
    obtain ⟨final, After, hrest, hT, _⟩ := DriverCalls_defined ws Body rest
      { E.Spec with TestsRemaining := (E.Spec.GetNumTests : Int) }
      (if InParameters = [] then Queue ++ (E.Spec.IdToSpecMap.map FSpec.Commands).flatten
       else
        match MapFind E.Spec.IdToSpecMap InParameters with
        | some SpecToRun => Queue ++ SpecToRun.Commands
        | none => Queue) hD
    refine ⟨final, After, ?_, hT⟩
    rw [DriverCalls, hr]
    simp only [bind, Except.bind, hrest]
  | GetTests =>
    have hr := GetTests_of_Ensured ws Body [] [] self E hE
    obtain ⟨final, After, hrest, hT, _⟩ := DriverCalls_defined ws Body rest E.Spec Queue hD
    refine ⟨final, After, ?_, hT⟩
    rw [DriverCalls, hr]
    simp only [bind, Except.bind, hrest]

theorem sum_idle_records (M : List FSpec) (L : List DriverCall) :
    ((L.map (fun _ => ({ DefineCalls := 0, PostDefineCalls := 0, IdToSpecMap := M }
        : CallRecord))).map CallRecord.DefineCalls).sum = 0 ∧
    ((L.map (fun _ => ({ DefineCalls := 0, PostDefineCalls := 0, IdToSpecMap := M }
        : CallRecord))).map CallRecord.PostDefineCalls).sum = 0 := by
  induction L with
  | nil => exact ⟨rfl, rfl⟩
  | cons a L ih => simp

/-- C17: constructing a spec runs no definition pass (it is not marked as defined and its
table is empty). For a body whose ids are pairwise different keys of the map (different also
without regard to the case of the letters) and every non-empty sequence of
`RunTest` and `GetTests` calls on the fresh spec, all calls return; the first call invokes
`Define()` once and `PostDefine()` once and every later call invokes neither, so each is
invoked exactly once in the whole sequence; and after every call `IdToSpecMap` is the table
of that one definition pass. -/
theorem C17_definition_runs_once (IsWhitespace : Char → Bool) (InName : FString)
    (Body : List Declaration)
    (hIds : (((DeclaredAll IsWhitespace Body []).map TestInfo.Id).map IgnoreCase).Nodup)
    (first : DriverCall) (rest : List DriverCall) (Queue : List CmdRef) :
    (FTestSpecBase.New InName).bHasBeenDefined = false ∧
    (FTestSpecBase.New InName).IdToSpecMap = [] ∧
    ∃ (compiled : FTestSpecBase) (Records : List CallRecord) (final : FTestSpecBase)
        (After : List CmdRef),
      Compile IsWhitespace InName Body = .ok compiled ∧
      DriverCalls IsWhitespace Body (first :: rest) (FTestSpecBase.New InName) Queue
        = .ok (Records, final, After) ∧
      Records
        = { DefineCalls := 1, PostDefineCalls := 1, IdToSpecMap := compiled.IdToSpecMap }
          :: rest.map (fun _ =>
              { DefineCalls := 0, PostDefineCalls := 0, IdToSpecMap := compiled.IdToSpecMap }) ∧
      (Records.map CallRecord.DefineCalls).sum = 1 ∧
      (Records.map CallRecord.PostDefineCalls).sum = 1 ∧
      (∀ R ∈ Records, R.IdToSpecMap = compiled.IdToSpecMap) ∧
      final.IdToSpecMap = compiled.IdToSpecMap := by
  refine ⟨rfl, rfl, ?_⟩
  have hC := Compile_ok IsWhitespace InName Body hIds
  have hE : (FTestSpecBase.New InName).EnsureDefinitions IsWhitespace Body
      = .ok { Spec :=
                { FTestSpecBase.New InName with
                  IdToSpecMap := (DeclareAll IsWhitespace Body [] 0
                    FSpecDefinitionScope.New).Flatten [] [],
                  RootDefinitionScope := none, DefinitionScopeStack := [],
                  bHasBeenDefined := true,
                  Objects := NewObjectsAll ThirtySeconds true Body },
              DefineCalls := 1, PostDefineCalls := 1 } := by
    rw [EnsureDefinitions_New, hC]
    rfl
  obtain ⟨final, After, hrun, hT⟩ :=
    DriverCalls_cons IsWhitespace Body first rest (FTestSpecBase.New InName) Queue _ hE rfl
  refine ⟨_, _, final, After, hC, hrun, rfl, ?_, ?_, ?_, hT⟩
  · simp only [List.map_cons, List.sum_cons]
    rw [(sum_idle_records _ rest).1]
  · simp only [List.map_cons, List.sum_cons]
    rw [(sum_idle_records _ rest).2]
  · intro R hR
    rcases List.mem_cons.mp hR with rfl | hR
    · rfl
    · obtain ⟨_, _, rfl⟩ := List.mem_map.mp hR
      rfl

/-- C17, on the repository's own spec: `GetTests`, then `RunTest` of the one test, then
`RunTest` of all tests. The three calls return, the definition pass runs in the first call
only, and the table holds the one test after each of them. -/
theorem C17_definition_runs_once_witness :
    (((DeclaredAll Char.isWhitespace FAutomatronSpec []).map TestInfo.Id).map IgnoreCase).Nodup ∧
    ∃ (Records : List CallRecord) (final : FTestSpecBase) (After : List CmdRef),
      DriverCalls Char.isWhitespace FAutomatronSpec
          [.GetTests, .RunTest "Can run a test".toList, .RunTest []]
          (FTestSpecBase.New "Automatron".toList) []
        = .ok (Records, final, After) ∧
      Records.map CallRecord.DefineCalls = [1, 0, 0] ∧
      Records.map CallRecord.PostDefineCalls = [1, 0, 0] ∧
      Records.map (fun R => R.IdToSpecMap.map FSpec.Id)
        = [["Can run a test".toList], ["Can run a test".toList], ["Can run a test".toList]] := by
  refine ⟨by decide, ?_⟩
  obtain ⟨compiled, Records, final, After, hC, hrun, hR, _, _, _, _⟩ :=
    (C17_definition_runs_once Char.isWhitespace "Automatron".toList FAutomatronSpec (by decide)
      .GetTests [.RunTest "Can run a test".toList, .RunTest []] []).2.2
  rw [Compile_ok _ _ _ (by decide)] at hC
  injection hC with hC
  subst hC
  refine ⟨Records, final, After, hrun, ?_, ?_, ?_⟩
  · rw [hR]; rfl
  · rw [hR]; rfl
  · rw [hR]; decide


/-! ## `TestsRemaining` under the command updates -/

theorem Async_Update_TestsRemaining (T : Tick) (c : FAsyncLatentCommand) (Spec : FTestSpecBase) :
    (c.Update T Spec).Spec.TestsRemaining
      = if (c.Future = true ∨ (c.bSkipIfErrored && Spec.HasAnyErrors) = false)
            ∧ (c.bDone = true ∨ T.bDoneSignalled = true)
        then Spec.TestsRemaining - 1 else Spec.TestsRemaining := by
  cases hF : c.Future <;> cases hS : (c.bSkipIfErrored && Spec.HasAnyErrors) <;>
    cases hD : c.bDone <;> cases hT : T.bDoneSignalled <;>
    simp [FAsyncLatentCommand.Update, FAsyncLatentCommand.Conclude, FAsyncLatentCommand.Done,
      hF, hS, hD, hT, FTestSpecBase.AddError] <;>
    split <;> rfl

theorem Async_Update_done_returns (T : Tick) (c : FAsyncLatentCommand) (Spec : FTestSpecBase)
    (hRun : c.Future = true ∨ (c.bSkipIfErrored && Spec.HasAnyErrors) = false)
    (hDone : c.bDone = true ∨ T.bDoneSignalled = true) :
    (c.Update T Spec).bReturn = true := by
  cases hF : c.Future <;> cases hK : c.bSkipIfErrored <;> cases hH : Spec.HasAnyErrors <;>
    cases hD : c.bDone <;> cases hT : T.bDoneSignalled <;>
    simp_all [FAsyncLatentCommand.Update, FAsyncLatentCommand.Conclude, FAsyncLatentCommand.Done]

theorem Async_Update_Errors (T : Tick) (c : FAsyncLatentCommand) (Spec : FTestSpecBase)
    (hRun : c.Future = true ∨ (c.bSkipIfErrored && Spec.HasAnyErrors) = false)
    (hDone : c.bDone = true ∨ T.bDoneSignalled = true) :
    (c.Update T Spec).Spec.Errors = Spec.Errors := by
  cases hF : c.Future <;> cases hK : c.bSkipIfErrored <;> cases hH : Spec.HasAnyErrors <;>
    cases hD : c.bDone <;> cases hT : T.bDoneSignalled <;>
    simp_all [FAsyncLatentCommand.Update, FAsyncLatentCommand.Conclude, FAsyncLatentCommand.Done]

theorem UntilDone_Conclude_TestsRemaining (T : Tick) (c : FUntilDoneLatentCommand)
    (Spec : FTestSpecBase) (Invoked : List FnId) :
    (c.Conclude T Spec Invoked).Spec.TestsRemaining = Spec.TestsRemaining := by
  simp only [FUntilDoneLatentCommand.Conclude]
  split_ifs <;> rfl

theorem AsyncUntilDone_Conclude_TestsRemaining (T : Tick) (c : FAsyncUntilDoneLatentCommand)
    (Spec : FTestSpecBase) (Dispatched : List FnId) :
    (c.Conclude T Spec Dispatched).Spec.TestsRemaining = Spec.TestsRemaining := by
  simp only [FAsyncUntilDoneLatentCommand.Conclude]
  split_ifs <;> rfl

/-- C18: let the user bodies leave `TestsRemaining` alone (it is a private member of
`FTestSpecBase`, out of reach of the code of a body). Then one `Update` of an
`FAsyncLatentCommand` that is not skipped by the guard and finds the done flag set (set
before the call or during it) decrements `TestsRemaining` by exactly 1, returns true and
reports no error; every other `Update` of an `FAsyncLatentCommand`, in particular one that
returns false, one that reports the timeout, and one that the guard skips, leaves
`TestsRemaining` as it was; and no `Update` of an `FSingleExecuteLatentCommand`, an
`FUntilDoneLatentCommand` or an `FAsyncUntilDoneLatentCommand` changes it. -/
theorem C18_TestsRemaining_only_by_Async_done (Body : Bodies)
    (hPrivate : ∀ (f : FnId) (S : FTestSpecBase), (Body f S).Spec.TestsRemaining = S.TestsRemaining)
    (T : Tick) (Spec : FTestSpecBase) :
    (∀ c : FAsyncLatentCommand,
      ((c.Future = true ∨ (c.bSkipIfErrored && Spec.HasAnyErrors) = false) →
        (c.bDone = true ∨ T.bDoneSignalled = true) →
          (c.Update T Spec).Spec.TestsRemaining = Spec.TestsRemaining - 1 ∧
          (c.Update T Spec).bReturn = true ∧
          (c.Update T Spec).Spec.Errors = Spec.Errors) ∧
      (¬ ((c.Future = true ∨ (c.bSkipIfErrored && Spec.HasAnyErrors) = false)
            ∧ (c.bDone = true ∨ T.bDoneSignalled = true)) →
        (c.Update T Spec).Spec.TestsRemaining = Spec.TestsRemaining) ∧
      ((c.Update T Spec).bReturn = false →
        (c.Update T Spec).Spec.TestsRemaining = Spec.TestsRemaining) ∧
      ((c.Update T Spec).Spec.Errors ≠ Spec.Errors →
        (c.Update T Spec).Spec.TestsRemaining = Spec.TestsRemaining) ∧
      (c.Future = false → (c.bSkipIfErrored && Spec.HasAnyErrors) = true →
        (c.Update T Spec).Spec.TestsRemaining = Spec.TestsRemaining)) ∧
    (∀ c : FSingleExecuteLatentCommand,
      (c.Update Body Spec).Spec.TestsRemaining = Spec.TestsRemaining) ∧
    (∀ c : FUntilDoneLatentCommand,
      (c.Update Body T Spec).Spec.TestsRemaining = Spec.TestsRemaining) ∧
    (∀ c : FAsyncUntilDoneLatentCommand,
      (c.Update T Spec).Spec.TestsRemaining = Spec.TestsRemaining) ∧
    (∀ c : IAutomationLatentCommand,
      (c.Update Body T Spec).Spec.TestsRemaining ≠ Spec.TestsRemaining →
        ∃ a : FAsyncLatentCommand, c = .Async a ∧
          (c.Update Body T Spec).Spec.TestsRemaining = Spec.TestsRemaining - 1 ∧
          (c.Update Body T Spec).bReturn = true) := by
  have hSingle : ∀ c : FSingleExecuteLatentCommand,
      (c.Update Body Spec).Spec.TestsRemaining = Spec.TestsRemaining := by
    intro c
    simp only [FSingleExecuteLatentCommand.Update]
    split
    · rfl
    · exact hPrivate _ _
  have hUntil : ∀ c : FUntilDoneLatentCommand,
      (c.Update Body T Spec).Spec.TestsRemaining = Spec.TestsRemaining := by
    intro c
    simp only [FUntilDoneLatentCommand.Update]
    split
    · split
      · rfl
      · rw [UntilDone_Conclude_TestsRemaining]
        exact hPrivate _ _
    · exact UntilDone_Conclude_TestsRemaining _ _ _ _
  have hAsyncUntil : ∀ c : FAsyncUntilDoneLatentCommand,
      (c.Update T Spec).Spec.TestsRemaining = Spec.TestsRemaining := by
    intro c
    simp only [FAsyncUntilDoneLatentCommand.Update]
    split
    · split
      · rfl
      · exact AsyncUntilDone_Conclude_TestsRemaining _ _ _ _
    · exact AsyncUntilDone_Conclude_TestsRemaining _ _ _ _
  have hAsync : ∀ c : FAsyncLatentCommand,
      ¬ ((c.Future = true ∨ (c.bSkipIfErrored && Spec.HasAnyErrors) = false)
            ∧ (c.bDone = true ∨ T.bDoneSignalled = true)) →
        (c.Update T Spec).Spec.TestsRemaining = Spec.TestsRemaining := by
    intro c h
    rw [Async_Update_TestsRemaining, if_neg h]
  refine ⟨?_, hSingle, hUntil, hAsyncUntil, ?_⟩
  · intro c
    refine ⟨?_, hAsync c, ?_, ?_, ?_⟩
    · intro hRun hDone
      refine ⟨?_, Async_Update_done_returns T c Spec hRun hDone,
        Async_Update_Errors T c Spec hRun hDone⟩
      rw [Async_Update_TestsRemaining, if_pos ⟨hRun, hDone⟩]
    · intro hRet
      apply hAsync c
      rintro ⟨hRun, hDone⟩
      rw [Async_Update_done_returns T c Spec hRun hDone] at hRet
      exact absurd hRet (by simp)
    · intro hErr
      apply hAsync c
      rintro ⟨hRun, hDone⟩
      exact hErr (Async_Update_Errors T c Spec hRun hDone)
    · intro hF hS
      apply hAsync c
      rintro ⟨hRun, _⟩
      rcases hRun with h | h
      · rw [hF] at h; exact absurd h (by simp)
      · rw [hS] at h; exact absurd h (by simp)
  · intro c hne
    cases c with
    | SingleExecute a => exact absurd (hSingle a) hne
    | UntilDone a => exact absurd (hUntil a) hne
    | AsyncUntilDone a => exact absurd (hAsyncUntil a) hne
    | Async a =>
      refine ⟨a, rfl, ?_⟩
      have hne2 : (a.Update T Spec).Spec.TestsRemaining ≠ Spec.TestsRemaining := hne
      by_cases h : (a.Future = true ∨ (a.bSkipIfErrored && Spec.HasAnyErrors) = false)
            ∧ (a.bDone = true ∨ T.bDoneSignalled = true)
      · refine ⟨?_, Async_Update_done_returns T a Spec h.1 h.2⟩
        show (a.Update T Spec).Spec.TestsRemaining = _
        rw [Async_Update_TestsRemaining, if_pos h]
      · exact absurd (hAsync a h) hne2

/-- C18, for bodies that only report an error, on a fresh spec whose `TestsRemaining` is 0:
the `Update` of a dispatched `FAsyncLatentCommand` whose worker has finished leaves
`TestsRemaining` at -1 and returns true; the same `Update` before the worker has finished
and before the timeout returns false and leaves it at 0. -/
theorem C18_TestsRemaining_only_by_Async_done_witness :
    (∀ (f : FnId) (S : FTestSpecBase),
      ((fun (_ : FnId) (S : FTestSpecBase) =>
          ({ Spec := S.AddError TimedOutText, bDoneExecuted := false } : BodyRun)) f S
        ).Spec.TestsRemaining = S.TestsRemaining) ∧
    ((FAsyncLatentCommand.Update { Started := 5, Now := 6, bDoneSignalled := true }
        { Execution := .ThreadPool, Predicate := 3, Timeout := 100, bSkipIfErrored := true,
          bDone := false, StartedRunning := 5, Future := true }
        (FTestSpecBase.New [])).Spec.TestsRemaining = -1) ∧
    ((FAsyncLatentCommand.Update { Started := 5, Now := 6, bDoneSignalled := false }
        { Execution := .ThreadPool, Predicate := 3, Timeout := 100, bSkipIfErrored := true,
          bDone := false, StartedRunning := 5, Future := true }
        (FTestSpecBase.New [])).Spec.TestsRemaining = 0) := by
  have h := C18_TestsRemaining_only_by_Async_done
    (fun _ S => { Spec := S.AddError TimedOutText, bDoneExecuted := false })
    (fun _ _ => rfl)
  refine ⟨fun _ _ => rfl, ?_, ?_⟩
  · exact (((h { Started := 5, Now := 6, bDoneSignalled := true } (FTestSpecBase.New [])).1
      { Execution := .ThreadPool, Predicate := 3, Timeout := 100, bSkipIfErrored := true,
        bDone := false, StartedRunning := 5, Future := true }).1
      (Or.inl rfl) (Or.inr rfl)).1
  · exact ((h { Started := 5, Now := 6, bDoneSignalled := false } (FTestSpecBase.New [])).1
      { Execution := .ThreadPool, Predicate := 3, Timeout := 100, bSkipIfErrored := true,
        bDone := false, StartedRunning := 5, Future := true }).2.1 (by decide)


/-! ## The id and the description of a declared test -/

theorem Declared_subset (ws : Char → Bool) (D : List FString) :
    ∀ (Body : List Declaration) (d : Declaration), d ∈ Body →
      ∀ t ∈ d.Declared ws D, t ∈ DeclaredAll ws Body D
  | [], _, h, _, _ => by simp at h
  | e :: rest, d, h, t, ht => by
    rw [DeclaredAll, List.mem_append]
    rcases List.mem_cons.mp h with rfl | h
    · exact Or.inl ht
    · exact Or.inr (Declared_subset ws D rest d h t ht)

theorem MakesIt_Declared (ws : Char → Bool) (Body : List Declaration) (ds : List FString)
    (d f : FString) (l : Int) (w : Work) (h : MakesIt Body ds d f l w) :
    ∀ D : List FString,
      ({ Id := IdOf ws (D ++ ds ++ [d]), Description := GetDescription ws (D ++ ds ++ [d]),
         Filename := f, LineNumber := l } : TestInfo) ∈ DeclaredAll ws Body D := by
  induction h with
  | here Body d f l w hm =>
    intro D
    apply Declared_subset ws D Body _ hm
    simp [Declaration.Declared]
  | inside Body Inner x ds d f l w hm _ ih =>
    intro D
    apply Declared_subset ws D Body _ hm
    have := ih (D ++ [x])
    simpa [Declaration.Declared, List.append_assoc] using this

theorem GetId_plain (ws : Char → Bool) (d : FString) (h : ']' ∉ d) :
    GetId ws [d] = .ok d ∧ GetDescription ws [d] = d := by
  have hE : EndsWithBracket d = false := by
    unfold EndsWithBracket
    cases hl : d.getLast? with
    | none => rfl
    | some c =>
      have hc : c ∈ d := List.mem_of_getLast?_eq_some hl
      have : c ≠ ']' := fun he => h (he ▸ hc)
      simpa using this
  constructor
  · simp only [GetId, List.getLast?_singleton, GetIdOverride, hE, Bool.false_eq_true, if_false]
    cases d <;> simp [GetIdLoop]
  · cases d <;> simp [GetDescription, GetDescriptionLoop]


/-- C19: a call of `It` with the description `d`, made on a spec whose description stack is
`D` and whose current scope is `Node`, returns, and the current scope afterwards is `Node`
with one test declaration more at the end of its `It` list; the id of that declaration is
the id `GetId` computes on `D` with `d` pushed, its description is what `GetDescription`
computes on the same stack, its file and line are those of the call, and the description
stack is `D` again. For a body run by `Define` on a fresh spec, an `It` call made inside
`Describe` calls with the descriptions `ds` (outermost first) leaves in the tree a test with
the id and the description of the stack `ds` with `d` pushed, whatever else the body
declares. A root-level `It` whose description holds no closing bracket has that description
as its id and as its description. -/
theorem C19_It_id_and_description (IsWhitespace : Char → Bool) :
    (∀ (self : FTestSpecBase) (Root Node : FSpecDefinitionScope) (Ref : ScopeRef),
      self.RootDefinitionScope = some Root →
      self.DefinitionScopeStack.getLast? = some Ref → Root.At Ref = some Node →
      ∀ (d f : FString) (l : Int) (w : Work),
        ∃ (after : FTestSpecBase) (NewIt : FSpecIt),
          self.It IsWhitespace d f l w = .ok after ∧
          after.ReadScope Ref = .ok { Node with It := Node.It ++ [NewIt] } ∧
          GetId IsWhitespace (self.Description ++ [d]) = .ok NewIt.Id ∧
          NewIt.Description = GetDescription IsWhitespace (self.Description ++ [d]) ∧
          NewIt.Filename = f ∧ NewIt.LineNumber = l ∧
          after.Description = self.Description) ∧
    (∀ (InName : FString) (Body : List Declaration) (ds : List FString) (d f : FString)
        (l : Int) (w : Work),
      MakesIt Body ds d f l w →
      ∃ (self : FTestSpecBase) (Root : FSpecDefinitionScope) (It : FSpecIt),
        Define IsWhitespace InName Body = .ok self ∧ self.RootDefinitionScope = some Root ∧
        It ∈ Root.AllIts ∧
        GetId IsWhitespace (ds ++ [d]) = .ok It.Id ∧
        It.Description = GetDescription IsWhitespace (ds ++ [d]) ∧
        It.Filename = f ∧ It.LineNumber = l) ∧
    (∀ d : FString, ']' ∉ d →
      GetId IsWhitespace [d] = .ok d ∧ GetDescription IsWhitespace [d] = d) := by
  refine ⟨?_, ?_, GetId_plain IsWhitespace⟩
  · intro self Root Node Ref hRoot hTop hAt d f l w
    refine ⟨_,
      { Description := GetDescription IsWhitespace (self.Description ++ [d]),
        Id := IdOf IsWhitespace (self.Description ++ [d]),
        Filename := f, LineNumber := l, Command := self.Objects.length },
      It_eq IsWhitespace d f l w self Root Node Ref hRoot hTop hAt, ?_,
      GetId_concat IsWhitespace self.Description d, rfl, rfl, rfl, rfl⟩
    rw [ReadScope_eq _ _ _ Ref rfl (At_Modify _ Ref Root Node hAt)]
    rfl
  · intro InName Body ds d f l w h
    have hm := MakesIt_Declared IsWhitespace Body ds d f l w h []
    rw [List.nil_append] at hm
    obtain ⟨It, hIt, hI⟩ :=
      List.mem_map.mp ((Declared_tree_Info IsWhitespace Body).symm.subset hm)
    refine ⟨_, _, It, Define_eq IsWhitespace InName Body, rfl, hIt, ?_, ?_, ?_, ?_⟩
    · rw [GetId_concat]
      exact congrArg Except.ok (congrArg TestInfo.Id hI).symm
    · exact congrArg TestInfo.Description hI
    · exact congrArg TestInfo.Filename hI
    · exact congrArg TestInfo.LineNumber hI

/-- C19, on the repository's own spec: `It("Can run a test", ...)` on the fresh spec appends
to the root scope a test whose id and description are both "Can run a test". -/
theorem C19_It_id_and_description_witness :
    (FTestSpecBase.New "Automatron".toList).RootDefinitionScope = some FSpecDefinitionScope.New ∧
    (FTestSpecBase.New "Automatron".toList).DefinitionScopeStack.getLast? = some [] ∧
    FSpecDefinitionScope.New.At [] = some FSpecDefinitionScope.New ∧
    ']' ∉ "Can run a test".toList ∧
    ∃ (after : FTestSpecBase) (NewIt : FSpecIt),
      (FTestSpecBase.New "Automatron".toList).It Char.isWhitespace "Can run a test".toList
        "Automatron.spec.cpp".toList 16 (.Sync 0) = .ok after ∧
      after.ReadScope [] = .ok { FSpecDefinitionScope.New with It := [NewIt] } ∧
      NewIt.Id = "Can run a test".toList ∧
      NewIt.Description = "Can run a test".toList := by
  have h := C19_It_id_and_description Char.isWhitespace
  have hp : ']' ∉ "Can run a test".toList := by decide
  obtain ⟨after, NewIt, hIt, hScope, hId, hD, _⟩ :=
    h.1 (FTestSpecBase.New "Automatron".toList) FSpecDefinitionScope.New
      FSpecDefinitionScope.New [] rfl rfl rfl "Can run a test".toList
      "Automatron.spec.cpp".toList 16 (.Sync 0)
  have hplain := h.2.2 "Can run a test".toList hp
  refine ⟨rfl, rfl, rfl, hp, after, NewIt, hIt, hScope, ?_, ?_⟩
  · have h1 : GetId Char.isWhitespace ([] ++ ["Can run a test".toList])
        = .ok NewIt.Id := hId
    rw [List.nil_append, hplain.1] at h1
    injection h1 with h1
    exact h1.symm
  · have h2 : NewIt.Description
        = GetDescription Char.isWhitespace ([] ++ ["Can run a test".toList]) := hD
    rw [h2, List.nil_append, hplain.2]


/-! ## The two stacks of the definition pass -/

/-- The spec on which `Describe` calls its body: the new scope is the last child of the
current scope, its reference is on the scope stack and its description on the description
stack. `Describe` hands that spec to the body and to nothing else. -/
theorem Describe_enters (InDescription : FString) (self : FTestSpecBase)
    (Root Node : FSpecDefinitionScope) (Ref : ScopeRef)
    (hRoot : self.RootDefinitionScope = some Root)
    (hTop : self.DefinitionScopeStack.getLast? = some Ref) (hAt : Root.At Ref = some Node)
    (DoWork1 DoWork2 : FTestSpecBase → Except Fault FTestSpecBase)
    (h : DoWork1
        { self with
          RootDefinitionScope := some (Root.Modify
            (fun Scope => { Scope with
              Children := Scope.Children
                ++ [{ FSpecDefinitionScope.New with Description := InDescription }] }) Ref),
          DefinitionScopeStack := self.DefinitionScopeStack ++ [Ref ++ [Node.Children.length]],
          Description := self.Description ++ [InDescription] }
      = DoWork2
        { self with
          RootDefinitionScope := some (Root.Modify
            (fun Scope => { Scope with
              Children := Scope.Children
                ++ [{ FSpecDefinitionScope.New with Description := InDescription }] }) Ref),
          DefinitionScopeStack := self.DefinitionScopeStack ++ [Ref ++ [Node.Children.length]],
          Description := self.Description ++ [InDescription] }) :
    self.Describe InDescription DoWork1 = self.Describe InDescription DoWork2 := by
  simp only [FTestSpecBase.Describe, Last_eq _ _ hTop, ReadScope_eq self Root Node Ref hRoot hAt,
    bind, Except.bind, WriteScope_eq self Root Node Ref _ hRoot hAt,
    FTestSpecBase.PushDescription, h]

theorem Describe_body_fails (InDescription : FString) (self : FTestSpecBase)
    (Root Node : FSpecDefinitionScope) (Ref : ScopeRef)
    (hRoot : self.RootDefinitionScope = some Root)
    (hTop : self.DefinitionScopeStack.getLast? = some Ref) (hAt : Root.At Ref = some Node)
    (DoWork : FTestSpecBase → Except Fault FTestSpecBase) (e : Fault)
    (h : DoWork
        { self with
          RootDefinitionScope := some (Root.Modify
            (fun Scope => { Scope with
              Children := Scope.Children
                ++ [{ FSpecDefinitionScope.New with Description := InDescription }] }) Ref),
          DefinitionScopeStack := self.DefinitionScopeStack ++ [Ref ++ [Node.Children.length]],
          Description := self.Description ++ [InDescription] }
      = .error e) :
    self.Describe InDescription DoWork = .error e := by
  simp only [FTestSpecBase.Describe, Last_eq _ _ hTop, ReadScope_eq self Root Node Ref hRoot hAt,
    bind, Except.bind, WriteScope_eq self Root Node Ref _ hRoot hAt,
    FTestSpecBase.PushDescription, h]


/-- C20: on a spec whose current scope is `Node` (the top `Ref` of the scope stack), every
declaration of a body (a `Describe` with its whole body, an `It`, a hook, an `x`-variant)
returns and leaves the description stack and the definition scope stack as they were before
the call. `Describe` calls its body on the spec `entered`, and only on it: there the scope
stack is the old one with the reference of the new scope pushed, the description stack is
the old one with the description pushed, the new scope is the last child of `Node` and is
empty but for its description; and after any part `pre` of the body's declarations the two
stacks are still those of `entered`, and the top of the scope stack is the new child, holding
what `pre` declared. -/
theorem C20_stack_discipline (IsWhitespace : Char → Bool) (self : FTestSpecBase)
    (Root Node : FSpecDefinitionScope) (Ref : ScopeRef)
    (hRoot : self.RootDefinitionScope = some Root)
    (hTop : self.DefinitionScopeStack.getLast? = some Ref) (hAt : Root.At Ref = some Node) :
    (∀ d : Declaration,
      ∃ after : FTestSpecBase,
        d.Run IsWhitespace self = .ok after ∧
        after.Description = self.Description ∧
        after.DefinitionScopeStack = self.DefinitionScopeStack) ∧
    (∀ InDescription : FString,
      ∃ entered : FTestSpecBase,
        entered.DefinitionScopeStack
          = self.DefinitionScopeStack ++ [Ref ++ [Node.Children.length]] ∧
        entered.Description = self.Description ++ [InDescription] ∧
        entered.ReadScope (Ref ++ [Node.Children.length])
          = .ok { FSpecDefinitionScope.New with Description := InDescription } ∧
        entered.ReadScope Ref
          = .ok { Node with
              Children := Node.Children
                ++ [{ FSpecDefinitionScope.New with Description := InDescription }] } ∧
        (∀ DoWork1 DoWork2 : FTestSpecBase → Except Fault FTestSpecBase,
          DoWork1 entered = DoWork2 entered →
            self.Describe InDescription DoWork1 = self.Describe InDescription DoWork2) ∧
        (∀ (DoWork : FTestSpecBase → Except Fault FTestSpecBase) (e : Fault),
          DoWork entered = .error e → self.Describe InDescription DoWork = .error e) ∧
        (∀ pre : List Declaration,
          ∃ inside : FTestSpecBase,
            RunAll IsWhitespace pre entered = .ok inside ∧
            inside.DefinitionScopeStack = entered.DefinitionScopeStack ∧
            inside.Description = entered.Description ∧
            Last inside.DefinitionScopeStack = .ok (Ref ++ [Node.Children.length]) ∧
            inside.ReadScope (Ref ++ [Node.Children.length])
              = .ok (DeclareAll IsWhitespace pre (self.Description ++ [InDescription])
                  self.Objects.length
                  { FSpecDefinitionScope.New with Description := InDescription }))) := by
  constructor
  · intro d
    exact ⟨_, Run_eq IsWhitespace d self Root Node Ref hRoot hTop hAt, rfl, rfl⟩
  · intro InDescription
    let c0 : FSpecDefinitionScope := { FSpecDefinitionScope.New with Description := InDescription }
    let push : FSpecDefinitionScope → FSpecDefinitionScope :=
      fun Scope => { Scope with Children := Scope.Children ++ [c0] }
    have hAt1 : (Root.Modify push Ref).At Ref = some (push Node) :=
      At_Modify push Ref Root Node hAt
    have hAtNew : (Root.Modify push Ref).At (Ref ++ [Node.Children.length]) = some c0 := by
      rw [At_append_singleton Ref Node.Children.length (Root.Modify push Ref) (push Node) hAt1]
      simp [push]
    refine ⟨{ self with
        RootDefinitionScope := some (Root.Modify push Ref),
        DefinitionScopeStack := self.DefinitionScopeStack ++ [Ref ++ [Node.Children.length]],
        Description := self.Description ++ [InDescription] }, rfl, rfl, ?_, ?_, ?_, ?_, ?_⟩
    · exact ReadScope_eq _ _ _ _ rfl hAtNew
    · exact ReadScope_eq _ _ _ _ rfl hAt1
    · intro DoWork1 DoWork2 h
      exact Describe_enters InDescription self Root Node Ref hRoot hTop hAt DoWork1 DoWork2 h
    · intro DoWork e h
      exact Describe_body_fails InDescription self Root Node Ref hRoot hTop hAt DoWork e h
    · intro pre
      have hrun := RunAll_eq IsWhitespace pre
        { self with
          RootDefinitionScope := some (Root.Modify push Ref),
          DefinitionScopeStack := self.DefinitionScopeStack ++ [Ref ++ [Node.Children.length]],
          Description := self.Description ++ [InDescription] }
        (Root.Modify push Ref) c0 (Ref ++ [Node.Children.length]) rfl
        (List.getLast?_concat _) hAtNew
      refine ⟨_, hrun, rfl, rfl, ?_, ?_⟩
      · exact Last_eq _ _ (List.getLast?_concat _)
      · exact ReadScope_eq _ _ _ _ rfl (At_Modify _ _ _ c0 hAtNew)

/-- C20, on a fresh spec: the group "A" of `ExampleGroups` with its hooks, its test and its
nested group returns with the description stack empty and the scope stack holding the root,
as before; and inside a `Describe("A", ...)` the scope stack holds the root and its first
child. -/
theorem C20_stack_discipline_witness :
    (FTestSpecBase.New []).RootDefinitionScope = some FSpecDefinitionScope.New ∧
    (FTestSpecBase.New []).DefinitionScopeStack.getLast? = some [] ∧
    FSpecDefinitionScope.New.At [] = some FSpecDefinitionScope.New ∧
    (∃ after : FTestSpecBase,
      (Declaration.Describe "A".toList
          [ .BeforeEach (.Sync 10), .AfterEach (.Sync 11),
            .It "x".toList "Example.spec.cpp".toList 4 (.Sync 12),
            .Describe "B".toList
              [ .BeforeEach (.Sync 13),
                .It "y".toList "Example.spec.cpp".toList 7 (.Latent none 14) ] ]).Run
        Char.isWhitespace (FTestSpecBase.New []) = .ok after ∧
      after.Description = [] ∧ after.DefinitionScopeStack = [[]]) ∧
    (∃ entered : FTestSpecBase,
      entered.DefinitionScopeStack = [[], [0]] ∧ entered.Description = ["A".toList] ∧
      entered.ReadScope [0]
        = .ok { FSpecDefinitionScope.New with Description := "A".toList }) := by
  have h := C20_stack_discipline Char.isWhitespace (FTestSpecBase.New [])
    FSpecDefinitionScope.New FSpecDefinitionScope.New [] rfl rfl rfl
  refine ⟨rfl, rfl, rfl, h.1 _, ?_⟩
  obtain ⟨entered, hS, hD, hR, _⟩ := h.2 "A".toList
  exact ⟨entered, hS, hD, hR⟩


/-! ## The guard, the done flag and the timeout -/

theorem UntilDone_running_done (Body : Bodies) (T : Tick) (Spec : FTestSpecBase)
    (c : FUntilDoneLatentCommand) (hRun : c.bIsRunning = true)
    (hDone : c.bDone = true ∨ T.bDoneSignalled = true) :
    c.Update Body T Spec
      = { bReturn := true, Self := c.Reset, Spec := Spec, Invoked := [], Dispatched := [] } := by
  cases hD : c.bDone <;> cases hT : T.bDoneSignalled <;>
    simp_all [FUntilDoneLatentCommand.Update, FUntilDoneLatentCommand.Conclude,
      FUntilDoneLatentCommand.Done, FUntilDoneLatentCommand.Reset]

theorem AsyncUntilDone_running_done (T : Tick) (Spec : FTestSpecBase)
    (c : FAsyncUntilDoneLatentCommand) (hRun : c.Future = true)
    (hDone : c.bDone = true ∨ T.bDoneSignalled = true) :
    c.Update T Spec
      = { bReturn := true, Self := c.Reset, Spec := Spec, Invoked := [], Dispatched := [] } := by
  cases hD : c.bDone <;> cases hT : T.bDoneSignalled <;>
    simp_all [FAsyncUntilDoneLatentCommand.Update, FAsyncUntilDoneLatentCommand.Conclude,
      FAsyncUntilDoneLatentCommand.Done, FAsyncUntilDoneLatentCommand.Reset]

theorem AsyncUntilDone_running_waiting (T : Tick) (Spec : FTestSpecBase)
    (c : FAsyncUntilDoneLatentCommand) (hRun : c.Future = true) (hDone : c.bDone = false)
    (hSig : T.bDoneSignalled = false) (hNow : T.Now < FDateTime.Plus c.StartedRunning c.Timeout) :
    c.Update T Spec
      = { bReturn := false, Self := c, Spec := Spec, Invoked := [], Dispatched := [] } := by
  have hlt : ¬ T.Now ≥ FDateTime.Plus c.StartedRunning c.Timeout := not_le.mpr hNow
  simp [FAsyncUntilDoneLatentCommand.Update, FAsyncUntilDoneLatentCommand.Conclude, hRun, hDone,
    hSig, hlt]

theorem AsyncUntilDone_running_timeout (T : Tick) (Spec : FTestSpecBase)
    (c : FAsyncUntilDoneLatentCommand) (hRun : c.Future = true) (hDone : c.bDone = false)
    (hSig : T.bDoneSignalled = false) (hNow : T.Now ≥ FDateTime.Plus c.StartedRunning c.Timeout) :
    c.Update T Spec
      = { bReturn := true, Self := c.Reset, Spec := Spec.AddError TimedOutText,
          Invoked := [], Dispatched := [] } := by
  simp [FAsyncUntilDoneLatentCommand.Update, FAsyncUntilDoneLatentCommand.Conclude, hRun, hDone,
    hSig, hNow]

theorem Async_running_done (T : Tick) (Spec : FTestSpecBase)
    (c : FAsyncLatentCommand) (hRun : c.Future = true)
    (hDone : c.bDone = true ∨ T.bDoneSignalled = true) :
    c.Update T Spec
      = { bReturn := true, Self := c.Reset,
          Spec := { Spec with TestsRemaining := Spec.TestsRemaining - 1 },
          Invoked := [], Dispatched := [] } := by
  cases hD : c.bDone <;> cases hT : T.bDoneSignalled <;>
    simp_all [FAsyncLatentCommand.Update, FAsyncLatentCommand.Conclude,
      FAsyncLatentCommand.Done, FAsyncLatentCommand.Reset]

theorem Async_running_waiting (T : Tick) (Spec : FTestSpecBase)
    (c : FAsyncLatentCommand) (hRun : c.Future = true) (hDone : c.bDone = false)
    (hSig : T.bDoneSignalled = false) (hNow : T.Now < FDateTime.Plus c.StartedRunning c.Timeout) :
    c.Update T Spec
      = { bReturn := false, Self := c, Spec := Spec, Invoked := [], Dispatched := [] } := by
  have hlt : ¬ T.Now ≥ FDateTime.Plus c.StartedRunning c.Timeout := not_le.mpr hNow
  simp [FAsyncLatentCommand.Update, FAsyncLatentCommand.Conclude, hRun, hDone, hSig, hlt]

theorem Async_running_timeout (T : Tick) (Spec : FTestSpecBase)
    (c : FAsyncLatentCommand) (hRun : c.Future = true) (hDone : c.bDone = false)
    (hSig : T.bDoneSignalled = false) (hNow : T.Now ≥ FDateTime.Plus c.StartedRunning c.Timeout) :
    c.Update T Spec
      = { bReturn := true, Self := c.Reset, Spec := Spec.AddError TimedOutText,
          Invoked := [], Dispatched := [] } := by
  simp [FAsyncLatentCommand.Update, FAsyncLatentCommand.Conclude, hRun, hDone, hSig, hNow]

/-- C23: an `Update` of a command that has been started (`bIsRunning` true, `Future` valid)
does not consult the guard: whatever the skip flag is and whether or not the spec has
errors by now, it does not call or dispatch the body again, it returns false changing
nothing while the done flag is unset and the timeout has not elapsed, it returns true
through the done path when the done flag is set, and it returns true through the timeout
path, adding the timeout error, when the done flag is unset and the timeout has elapsed
(the time has reached `StartedRunning + Timeout`, the `int64` sum the code computes). -/
theorem C23_guard_only_on_first_Update (Body : Bodies) (T : Tick) (Spec : FTestSpecBase) :
    (∀ c : FUntilDoneLatentCommand, c.bIsRunning = true →
      (c.bDone = false → T.bDoneSignalled = false → T.Now < FDateTime.Plus c.StartedRunning c.Timeout →
        c.Update Body T Spec
          = { bReturn := false, Self := c, Spec := Spec, Invoked := [], Dispatched := [] }) ∧
      ((c.bDone = true ∨ T.bDoneSignalled = true) →
        c.Update Body T Spec
          = { bReturn := true, Self := c.Reset, Spec := Spec, Invoked := [],
              Dispatched := [] }) ∧
      (c.bDone = false → T.bDoneSignalled = false → T.Now ≥ FDateTime.Plus c.StartedRunning c.Timeout →
        c.Update Body T Spec
          = { bReturn := true, Self := c.Reset, Spec := Spec.AddError TimedOutText,
              Invoked := [], Dispatched := [] })) ∧
    (∀ c : FAsyncUntilDoneLatentCommand, c.Future = true →
      (c.bDone = false → T.bDoneSignalled = false → T.Now < FDateTime.Plus c.StartedRunning c.Timeout →
        c.Update T Spec
          = { bReturn := false, Self := c, Spec := Spec, Invoked := [], Dispatched := [] }) ∧
      ((c.bDone = true ∨ T.bDoneSignalled = true) →
        c.Update T Spec
          = { bReturn := true, Self := c.Reset, Spec := Spec, Invoked := [],
              Dispatched := [] }) ∧
      (c.bDone = false → T.bDoneSignalled = false → T.Now ≥ FDateTime.Plus c.StartedRunning c.Timeout →
        c.Update T Spec
          = { bReturn := true, Self := c.Reset, Spec := Spec.AddError TimedOutText,
              Invoked := [], Dispatched := [] })) ∧
    (∀ c : FAsyncLatentCommand, c.Future = true →
      (c.bDone = false → T.bDoneSignalled = false → T.Now < FDateTime.Plus c.StartedRunning c.Timeout →
        c.Update T Spec
          = { bReturn := false, Self := c, Spec := Spec, Invoked := [], Dispatched := [] }) ∧
      ((c.bDone = true ∨ T.bDoneSignalled = true) →
        c.Update T Spec
          = { bReturn := true, Self := c.Reset,
              Spec := { Spec with TestsRemaining := Spec.TestsRemaining - 1 },
              Invoked := [], Dispatched := [] }) ∧
      (c.bDone = false → T.bDoneSignalled = false → T.Now ≥ FDateTime.Plus c.StartedRunning c.Timeout →
        c.Update T Spec
          = { bReturn := true, Self := c.Reset, Spec := Spec.AddError TimedOutText,
              Invoked := [], Dispatched := [] })) :=
  ⟨fun c hRun =>
    ⟨UntilDone_Update_running Body T c Spec hRun,
     UntilDone_running_done Body T Spec c hRun,
     UntilDone_Update_timeout Body T c Spec hRun⟩,
   fun c hRun =>
    ⟨AsyncUntilDone_running_waiting T Spec c hRun,
     AsyncUntilDone_running_done T Spec c hRun,
     AsyncUntilDone_running_timeout T Spec c hRun⟩,
   fun c hRun =>
    ⟨Async_running_waiting T Spec c hRun,
     Async_running_done T Spec c hRun,
     Async_running_timeout T Spec c hRun⟩⟩

/-- C23, for a running `FUntilDoneLatentCommand` with the skip flag set, on a spec that has
an error by now, before the timeout and with the done flag unset: `Update` returns false. -/
theorem C23_guard_only_on_first_Update_witness :
    ((FTestSpecBase.New []).AddError TimedOutText).HasAnyErrors = true ∧
    (FUntilDoneLatentCommand.Update (fun _ S => { Spec := S, bDoneExecuted := false })
        { Started := 7, Now := 7, bDoneSignalled := false }
        { Predicate := 3, Timeout := 100, bSkipIfErrored := true, bIsRunning := true,
          StartedRunning := 5, bDone := false }
        ((FTestSpecBase.New []).AddError TimedOutText)).bReturn = false := by
  refine ⟨rfl, ?_⟩
  rw [((C23_guard_only_on_first_Update (fun _ S => { Spec := S, bDoneExecuted := false })
      { Started := 7, Now := 7, bDoneSignalled := false }
      ((FTestSpecBase.New []).AddError TimedOutText)).1
      { Predicate := 3, Timeout := 100, bSkipIfErrored := true, bIsRunning := true,
        StartedRunning := 5, bDone := false } rfl).1 rfl rfl (by decide)]


theorem UntilDone_Update_done (Body : Bodies) (T : Tick) (Spec : FTestSpecBase)
    (c : FUntilDoneLatentCommand)
    (hStart : c.bIsRunning = true ∨ (c.bSkipIfErrored && Spec.HasAnyErrors) = false)
    (hDone : c.bDone = true ∨ T.bDoneSignalled = true
      ∨ (c.bIsRunning = false ∧ (Body c.Predicate Spec).bDoneExecuted = true)) :
    (c.Update Body T Spec).bReturn = true ∧
    (c.Update Body T Spec).Spec = IAutomationLatentCommand.AfterBody Body (.UntilDone c) Spec ∧
    (c.Update Body T Spec).Self.bIsRunning = false ∧
    (c.Update Body T Spec).Self.bDone = false := by
  cases hR : c.bIsRunning <;> cases hK : c.bSkipIfErrored <;> cases hH : Spec.HasAnyErrors <;>
    cases hD : c.bDone <;> cases hT : T.bDoneSignalled <;>
    cases hB : (Body c.Predicate Spec).bDoneExecuted <;>
    simp_all [FUntilDoneLatentCommand.Update, FUntilDoneLatentCommand.Conclude,
      FUntilDoneLatentCommand.Done, FUntilDoneLatentCommand.Reset,
      IAutomationLatentCommand.AfterBody]

theorem UntilDone_Update_Errors (Body : Bodies) (T : Tick) (Spec : FTestSpecBase)
    (c : FUntilDoneLatentCommand) :
    (c.Update Body T Spec).Spec = IAutomationLatentCommand.AfterBody Body (.UntilDone c) Spec ∨
    ((c.Update Body T Spec).Spec
        = (IAutomationLatentCommand.AfterBody Body (.UntilDone c) Spec).AddError TimedOutText ∧
      (c.Update Body T Spec).bReturn = true ∧
      (c.Update Body T Spec).Self.bIsRunning = false ∧
      (c.Update Body T Spec).Self.bDone = false ∧
      c.bDone = false ∧ T.bDoneSignalled = false ∧
      (c.bIsRunning = false → (Body c.Predicate Spec).bDoneExecuted = false)) := by
  cases hR : c.bIsRunning <;> cases hK : c.bSkipIfErrored <;> cases hH : Spec.HasAnyErrors <;>
    cases hD : c.bDone <;> cases hT : T.bDoneSignalled <;>
    cases hB : (Body c.Predicate Spec).bDoneExecuted <;>
    simp [FUntilDoneLatentCommand.Update, FUntilDoneLatentCommand.Conclude,
      FUntilDoneLatentCommand.Done, FUntilDoneLatentCommand.Reset,
      IAutomationLatentCommand.AfterBody, hR, hK, hH, hD, hT, hB] <;>
    split <;> simp

theorem UntilDone_Update_false (Body : Bodies) (T : Tick) (Spec : FTestSpecBase)
    (c : FUntilDoneLatentCommand) (h : (c.Update Body T Spec).bReturn = false) :
    (c.Update Body T Spec).Spec = IAutomationLatentCommand.AfterBody Body (.UntilDone c) Spec ∧
    (c.Update Body T Spec).Self.bIsRunning = true := by
  revert h
  cases hR : c.bIsRunning <;> cases hK : c.bSkipIfErrored <;> cases hH : Spec.HasAnyErrors <;>
    cases hD : c.bDone <;> cases hT : T.bDoneSignalled <;>
    cases hB : (Body c.Predicate Spec).bDoneExecuted <;>
    simp [FUntilDoneLatentCommand.Update, FUntilDoneLatentCommand.Conclude,
      FUntilDoneLatentCommand.Done, FUntilDoneLatentCommand.Reset,
      IAutomationLatentCommand.AfterBody, hR, hK, hH, hD, hT, hB] <;>
    split <;> simp [hR]

theorem AsyncUntilDone_Update_done (T : Tick) (Spec : FTestSpecBase)
    (c : FAsyncUntilDoneLatentCommand)
    (hStart : c.Future = true ∨ (c.bSkipIfErrored && Spec.HasAnyErrors) = false)
    (hDone : c.bDone = true ∨ T.bDoneSignalled = true) :
    (c.Update T Spec).bReturn = true ∧ (c.Update T Spec).Spec = Spec ∧
    (c.Update T Spec).Self.Future = false ∧ (c.Update T Spec).Self.bDone = false := by
  cases hF : c.Future <;> cases hK : c.bSkipIfErrored <;> cases hH : Spec.HasAnyErrors <;>
    cases hD : c.bDone <;> cases hT : T.bDoneSignalled <;>
    simp_all [FAsyncUntilDoneLatentCommand.Update, FAsyncUntilDoneLatentCommand.Conclude,
      FAsyncUntilDoneLatentCommand.Done, FAsyncUntilDoneLatentCommand.Reset]

theorem AsyncUntilDone_Update_Errors (T : Tick) (Spec : FTestSpecBase)
    (c : FAsyncUntilDoneLatentCommand) :
    (c.Update T Spec).Spec = Spec ∨
    ((c.Update T Spec).Spec = Spec.AddError TimedOutText ∧
      (c.Update T Spec).bReturn = true ∧
      (c.Update T Spec).Self.Future = false ∧ (c.Update T Spec).Self.bDone = false ∧
      c.bDone = false ∧ T.bDoneSignalled = false) := by
  cases hF : c.Future <;> cases hK : c.bSkipIfErrored <;> cases hH : Spec.HasAnyErrors <;>
    cases hD : c.bDone <;> cases hT : T.bDoneSignalled <;>
    simp [FAsyncUntilDoneLatentCommand.Update, FAsyncUntilDoneLatentCommand.Conclude,
      FAsyncUntilDoneLatentCommand.Done, FAsyncUntilDoneLatentCommand.Reset, hF, hK, hH, hD, hT] <;>
    split <;> simp

theorem AsyncUntilDone_Update_false (T : Tick) (Spec : FTestSpecBase)
    (c : FAsyncUntilDoneLatentCommand) (h : (c.Update T Spec).bReturn = false) :
    (c.Update T Spec).Spec = Spec ∧ (c.Update T Spec).Self.Future = true := by
  revert h
  cases hF : c.Future <;> cases hK : c.bSkipIfErrored <;> cases hH : Spec.HasAnyErrors <;>
    cases hD : c.bDone <;> cases hT : T.bDoneSignalled <;>
    simp [FAsyncUntilDoneLatentCommand.Update, FAsyncUntilDoneLatentCommand.Conclude,
      FAsyncUntilDoneLatentCommand.Done, FAsyncUntilDoneLatentCommand.Reset, hF, hK, hH, hD, hT] <;>
    split <;> simp [hF]

theorem Async_Update_done (T : Tick) (Spec : FTestSpecBase) (c : FAsyncLatentCommand)
    (hStart : c.Future = true ∨ (c.bSkipIfErrored && Spec.HasAnyErrors) = false)
    (hDone : c.bDone = true ∨ T.bDoneSignalled = true) :
    (c.Update T Spec).bReturn = true ∧
    (c.Update T Spec).Spec = { Spec with TestsRemaining := Spec.TestsRemaining - 1 } ∧
    (c.Update T Spec).Self.Future = false ∧ (c.Update T Spec).Self.bDone = false := by
  cases hF : c.Future <;> cases hK : c.bSkipIfErrored <;> cases hH : Spec.HasAnyErrors <;>
    cases hD : c.bDone <;> cases hT : T.bDoneSignalled <;>
    simp_all [FAsyncLatentCommand.Update, FAsyncLatentCommand.Conclude,
      FAsyncLatentCommand.Done, FAsyncLatentCommand.Reset]

theorem Async_Update_Errors_cases (T : Tick) (Spec : FTestSpecBase) (c : FAsyncLatentCommand) :
    (c.Update T Spec).Spec.Errors = Spec.Errors ∨
    ((c.Update T Spec).Spec = Spec.AddError TimedOutText ∧
      (c.Update T Spec).bReturn = true ∧
      (c.Update T Spec).Self.Future = false ∧ (c.Update T Spec).Self.bDone = false ∧
      c.bDone = false ∧ T.bDoneSignalled = false) := by
  cases hF : c.Future <;> cases hK : c.bSkipIfErrored <;> cases hH : Spec.HasAnyErrors <;>
    cases hD : c.bDone <;> cases hT : T.bDoneSignalled <;>
    simp [FAsyncLatentCommand.Update, FAsyncLatentCommand.Conclude,
      FAsyncLatentCommand.Done, FAsyncLatentCommand.Reset, hF, hK, hH, hD, hT] <;>
    split <;> simp

theorem Async_Update_false (T : Tick) (Spec : FTestSpecBase)
    (c : FAsyncLatentCommand) (h : (c.Update T Spec).bReturn = false) :
    (c.Update T Spec).Spec = Spec ∧ (c.Update T Spec).Self.Future = true := by
  revert h
  cases hF : c.Future <;> cases hK : c.bSkipIfErrored <;> cases hH : Spec.HasAnyErrors <;>
    cases hD : c.bDone <;> cases hT : T.bDoneSignalled <;>
    simp [FAsyncLatentCommand.Update, FAsyncLatentCommand.Conclude,
      FAsyncLatentCommand.Done, FAsyncLatentCommand.Reset, hF, hK, hH, hD, hT] <;>
    split <;> simp [hF]

theorem Update_Errors (Body : Bodies) (T : Tick) (Spec : FTestSpecBase)
    (c : IAutomationLatentCommand) :
    (c.Update Body T Spec).Spec.Errors = (c.AfterBody Body Spec).Errors ∨
    ((c.Update Body T Spec).Spec.Errors = (c.AfterBody Body Spec).Errors ++ [TimedOutText] ∧
      (c.Update Body T Spec).bReturn = true) := by
  cases c with
  | SingleExecute a =>
    left
    simp only [IAutomationLatentCommand.Update, IAutomationLatentCommand.AfterBody,
      FSingleExecuteLatentCommand.Update]
    split <;> rfl
  | UntilDone a =>
    rcases UntilDone_Update_Errors Body T Spec a with h | ⟨h, hr, _⟩
    · left; exact congrArg FTestSpecBase.Errors h
    · right; exact ⟨congrArg FTestSpecBase.Errors h, hr⟩
  | AsyncUntilDone a =>
    rcases AsyncUntilDone_Update_Errors T Spec a with h | ⟨h, hr, _⟩
    · left; exact congrArg FTestSpecBase.Errors h
    · right; exact ⟨congrArg FTestSpecBase.Errors h, hr⟩
  | Async a =>
    rcases Async_Update_Errors_cases T Spec a with h | ⟨h, hr, _⟩
    · left; exact h
    · right; exact ⟨congrArg FTestSpecBase.Errors h, hr⟩

theorem Update_false (Body : Bodies) (T : Tick) (Spec : FTestSpecBase)
    (c : IAutomationLatentCommand) (h : (c.Update Body T Spec).bReturn = false) :
    (c.Update Body T Spec).Spec = c.AfterBody Body Spec ∧
    ∀ S : FTestSpecBase, (c.Update Body T Spec).Self.AfterBody Body S = S := by
  cases c with
  | SingleExecute a =>
    exfalso
    revert h
    simp only [IAutomationLatentCommand.Update, FSingleExecuteLatentCommand.Update]
    split <;> simp
  | UntilDone a =>
    obtain ⟨h1, h2⟩ := UntilDone_Update_false Body T Spec a h
    refine ⟨h1, fun S => ?_⟩
    show IAutomationLatentCommand.AfterBody Body (.UntilDone (a.Update Body T Spec).Self) S = S
    simp [IAutomationLatentCommand.AfterBody, h2]
  | AsyncUntilDone a =>
    exact ⟨(AsyncUntilDone_Update_false T Spec a h).1, fun S => rfl⟩
  | Async a =>
    exact ⟨(Async_Update_false T Spec a h).1, fun S => rfl⟩

theorem Updates_Errors (Body : Bodies) :
    ∀ (Ticks : List Tick) (c : IAutomationLatentCommand) (Spec : FTestSpecBase),
      Ticks ≠ [] →
      (∀ Flag ∈ (c.Updates Body Ticks Spec).1.dropLast, Flag = false) →
      (c.Updates Body Ticks Spec).2.2.Errors = (c.AfterBody Body Spec).Errors ∨
      (c.Updates Body Ticks Spec).2.2.Errors
        = (c.AfterBody Body Spec).Errors ++ [TimedOutText]
  | [], _, _, h, _ => absurd rfl h
  | [T], c, Spec, _, _ => by
    rcases Update_Errors Body T Spec c with h | ⟨h, _⟩
    · left; exact h
    · right; exact h
  | T :: T2 :: rest, c, Spec, _, hF => by
    have hfirst : (c.Update Body T Spec).bReturn = false := by
      apply hF
      simp only [IAutomationLatentCommand.Updates]
      exact List.mem_cons_self _ _
    obtain ⟨hS, hA⟩ := Update_false Body T Spec c hfirst
    have ih := Updates_Errors Body (T2 :: rest) (c.Update Body T Spec).Self
      (c.Update Body T Spec).Spec (by simp)
      (by
        intro Flag hm
        apply hF
        simp only [IAutomationLatentCommand.Updates] at hm ⊢
        exact List.mem_cons_of_mem _ hm)
    have key : (c.Update Body T Spec).Self.AfterBody Body (c.Update Body T Spec).Spec
        = c.AfterBody Body Spec := (hA _).trans hS
    rw [key] at ih
    exact ih


/-- C26: an `Update` that is not skipped by the guard and finds the done flag set (set
before the call, set from another thread during it, or, for an `FUntilDoneLatentCommand`
that is started by this call, set by the body executing the delegate before it returns)
returns true, adds no error and leaves the command idle, whatever the current time is, also
at or past `StartedRunning + Timeout`. An `Update` that adds an error adds exactly the one
error "Latent command timed out.", returns true, leaves the command idle, and the done flag
was unset. In a run of a command, a sequence of `Update` calls of which all but the last
return false, the errors afterwards are those the body left plus at most one timeout
error. -/
theorem C26_done_before_timeout (Body : Bodies) (T : Tick) (Spec : FTestSpecBase) :
    (∀ c : FUntilDoneLatentCommand,
      (c.bIsRunning = true ∨ (c.bSkipIfErrored && Spec.HasAnyErrors) = false) →
      (c.bDone = true ∨ T.bDoneSignalled = true
        ∨ (c.bIsRunning = false ∧ (Body c.Predicate Spec).bDoneExecuted = true)) →
        (c.Update Body T Spec).bReturn = true ∧
        (c.Update Body T Spec).Spec = IAutomationLatentCommand.AfterBody Body (.UntilDone c) Spec ∧
        (c.Update Body T Spec).Self.bIsRunning = false ∧
        (c.Update Body T Spec).Self.bDone = false) ∧
    (∀ c : FAsyncUntilDoneLatentCommand,
      (c.Future = true ∨ (c.bSkipIfErrored && Spec.HasAnyErrors) = false) →
      (c.bDone = true ∨ T.bDoneSignalled = true) →
        (c.Update T Spec).bReturn = true ∧ (c.Update T Spec).Spec = Spec ∧
        (c.Update T Spec).Self.Future = false ∧ (c.Update T Spec).Self.bDone = false) ∧
    (∀ c : FAsyncLatentCommand,
      (c.Future = true ∨ (c.bSkipIfErrored && Spec.HasAnyErrors) = false) →
      (c.bDone = true ∨ T.bDoneSignalled = true) →
        (c.Update T Spec).bReturn = true ∧ (c.Update T Spec).Spec.Errors = Spec.Errors ∧
        (c.Update T Spec).Self.Future = false ∧ (c.Update T Spec).Self.bDone = false) ∧
    (∀ c : FUntilDoneLatentCommand,
      (c.Update Body T Spec).Spec.Errors
          ≠ (IAutomationLatentCommand.AfterBody Body (.UntilDone c) Spec).Errors →
        (c.Update Body T Spec).Spec.Errors
          = (IAutomationLatentCommand.AfterBody Body (.UntilDone c) Spec).Errors
              ++ [TimedOutText] ∧
        (c.Update Body T Spec).bReturn = true ∧
        (c.Update Body T Spec).Self.bIsRunning = false ∧
        c.bDone = false ∧ T.bDoneSignalled = false ∧
        (c.bIsRunning = false → (Body c.Predicate Spec).bDoneExecuted = false)) ∧
    (∀ c : FAsyncUntilDoneLatentCommand,
      (c.Update T Spec).Spec.Errors ≠ Spec.Errors →
        (c.Update T Spec).Spec.Errors = Spec.Errors ++ [TimedOutText] ∧
        (c.Update T Spec).bReturn = true ∧ (c.Update T Spec).Self.Future = false ∧
        c.bDone = false ∧ T.bDoneSignalled = false) ∧
    (∀ c : FAsyncLatentCommand,
      (c.Update T Spec).Spec.Errors ≠ Spec.Errors →
        (c.Update T Spec).Spec.Errors = Spec.Errors ++ [TimedOutText] ∧
        (c.Update T Spec).bReturn = true ∧ (c.Update T Spec).Self.Future = false ∧
        c.bDone = false ∧ T.bDoneSignalled = false) ∧
    (∀ (Ticks : List Tick) (c : IAutomationLatentCommand), Ticks ≠ [] →
      (∀ Flag ∈ (c.Updates Body Ticks Spec).1.dropLast, Flag = false) →
        (c.Updates Body Ticks Spec).2.2.Errors = (c.AfterBody Body Spec).Errors ∨
        (c.Updates Body Ticks Spec).2.2.Errors
          = (c.AfterBody Body Spec).Errors ++ [TimedOutText]) := by
  refine ⟨fun c => UntilDone_Update_done Body T Spec c,
    fun c => AsyncUntilDone_Update_done T Spec c, ?_, ?_, ?_, ?_,
    fun Ticks c => Updates_Errors Body Ticks c Spec⟩
  · intro c hS hD
    obtain ⟨h1, h2, h3, h4⟩ := Async_Update_done T Spec c hS hD
    exact ⟨h1, by rw [h2], h3, h4⟩
  · intro c hne
    rcases UntilDone_Update_Errors Body T Spec c with h | ⟨h, hr, hi, _, hd, ht, hb⟩
    · exact absurd (congrArg FTestSpecBase.Errors h) hne
    · exact ⟨congrArg FTestSpecBase.Errors h, hr, hi, hd, ht, hb⟩
  · intro c hne
    rcases AsyncUntilDone_Update_Errors T Spec c with h | ⟨h, hr, hi, _, hd, ht⟩
    · exact absurd (congrArg FTestSpecBase.Errors h) hne
    · exact ⟨congrArg FTestSpecBase.Errors h, hr, hi, hd, ht⟩
  · intro c hne
    rcases Async_Update_Errors_cases T Spec c with h | ⟨h, hr, hi, _, hd, ht⟩
    · exact absurd h hne
    · exact ⟨congrArg FTestSpecBase.Errors h, hr, hi, hd, ht⟩

/-- C26, for an idle `FUntilDoneLatentCommand` with a timeout of 10 ticks whose body
executes the done delegate before it returns, on an `Update` whose clock reads are 50 ticks
apart: the `Update` returns true and the fresh spec has no error. -/
theorem C26_done_before_timeout_witness :
    (FUntilDoneLatentCommand.Update (fun _ S => { Spec := S, bDoneExecuted := true })
        { Started := 0, Now := 50, bDoneSignalled := false }
        (FUntilDoneLatentCommand.New 3 10 true) (FTestSpecBase.New [])).bReturn = true ∧
    (FUntilDoneLatentCommand.Update (fun _ S => { Spec := S, bDoneExecuted := true })
        { Started := 0, Now := 50, bDoneSignalled := false }
        (FUntilDoneLatentCommand.New 3 10 true) (FTestSpecBase.New [])).Spec.Errors = [] := by
  obtain ⟨h1, h2, _⟩ :=
    (C26_done_before_timeout (fun _ S => { Spec := S, bDoneExecuted := true })
      { Started := 0, Now := 50, bDoneSignalled := false } (FTestSpecBase.New [])).1
      (FUntilDoneLatentCommand.New 3 10 true) (Or.inr rfl) (Or.inr (Or.inr ⟨rfl, rfl⟩))
  exact ⟨h1, by rw [h2]; rfl⟩


/-! ## The command after a completed run -/

theorem UntilDone_completed_idle (Body : Bodies) (T : Tick) (Spec : FTestSpecBase)
    (c : FUntilDoneLatentCommand)
    (hStart : c.bIsRunning = true ∨ (c.bSkipIfErrored && Spec.HasAnyErrors) = false)
    (hRet : (c.Update Body T Spec).bReturn = true) :
    (c.Update Body T Spec).Self.bIsRunning = false ∧
    (c.Update Body T Spec).Self.bDone = false ∧
    (c.Update Body T Spec).Self.Predicate = c.Predicate ∧
    (c.Update Body T Spec).Self.Timeout = c.Timeout ∧
    (c.Update Body T Spec).Self.bSkipIfErrored = c.bSkipIfErrored := by
  revert hRet
  cases hR : c.bIsRunning <;> cases hK : c.bSkipIfErrored <;> cases hH : Spec.HasAnyErrors <;>
    cases hD : c.bDone <;> cases hT : T.bDoneSignalled <;>
    cases hB : (Body c.Predicate Spec).bDoneExecuted <;>
    simp_all [FUntilDoneLatentCommand.Update, FUntilDoneLatentCommand.Conclude,
      FUntilDoneLatentCommand.Done, FUntilDoneLatentCommand.Reset] <;>
    split <;> simp_all

theorem UntilDone_idle_Update (Body : Bodies) (T : Tick) (Spec : FTestSpecBase)
    (c : FUntilDoneLatentCommand) (hIdle : c.bIsRunning = false) (hDone : c.bDone = false) :
    (c.Update Body T Spec).bReturn
      = ((FUntilDoneLatentCommand.New c.Predicate c.Timeout c.bSkipIfErrored).Update
          Body T Spec).bReturn ∧
    (c.Update Body T Spec).Spec
      = ((FUntilDoneLatentCommand.New c.Predicate c.Timeout c.bSkipIfErrored).Update
          Body T Spec).Spec ∧
    (c.Update Body T Spec).Invoked
      = ((FUntilDoneLatentCommand.New c.Predicate c.Timeout c.bSkipIfErrored).Update
          Body T Spec).Invoked ∧
    ((c.bSkipIfErrored && Spec.HasAnyErrors) = false →
      c.Update Body T Spec
        = (FUntilDoneLatentCommand.New c.Predicate c.Timeout c.bSkipIfErrored).Update
            Body T Spec ∧
      (c.Update Body T Spec).Invoked = [c.Predicate] ∧
      ((Body c.Predicate Spec).bDoneExecuted = false → T.bDoneSignalled = false →
        ((c.Update Body T Spec).bReturn = true ↔ T.Now ≥ FDateTime.Plus T.Started c.Timeout) ∧
        ((c.Update Body T Spec).bReturn = false →
          (c.Update Body T Spec).Self.bIsRunning = true ∧
          (c.Update Body T Spec).Self.StartedRunning = T.Started))) := by
  obtain ⟨P, Tm, K, R, S, D⟩ := c
  simp only at hIdle hDone
  subst hIdle hDone
  cases hK : K <;> cases hH : Spec.HasAnyErrors <;>
    cases hT : T.bDoneSignalled <;> cases hB : (Body P Spec).bDoneExecuted <;>
    simp [FUntilDoneLatentCommand.Update, FUntilDoneLatentCommand.Conclude,
      FUntilDoneLatentCommand.Done, FUntilDoneLatentCommand.Reset, FUntilDoneLatentCommand.New,
      hH, hT, hB] <;>
    split <;> simp_all

theorem AsyncUntilDone_completed_idle (T : Tick) (Spec : FTestSpecBase)
    (c : FAsyncUntilDoneLatentCommand)
    (hStart : c.Future = true ∨ (c.bSkipIfErrored && Spec.HasAnyErrors) = false)
    (hRet : (c.Update T Spec).bReturn = true) :
    (c.Update T Spec).Self.Future = false ∧
    (c.Update T Spec).Self.bDone = false ∧
    (c.Update T Spec).Self.Execution = c.Execution ∧
    (c.Update T Spec).Self.Predicate = c.Predicate ∧
    (c.Update T Spec).Self.Timeout = c.Timeout ∧
    (c.Update T Spec).Self.bSkipIfErrored = c.bSkipIfErrored := by
  revert hRet
  cases hF : c.Future <;> cases hK : c.bSkipIfErrored <;> cases hH : Spec.HasAnyErrors <;>
    cases hD : c.bDone <;> cases hT : T.bDoneSignalled <;>
    simp_all [FAsyncUntilDoneLatentCommand.Update, FAsyncUntilDoneLatentCommand.Conclude,
      FAsyncUntilDoneLatentCommand.Done, FAsyncUntilDoneLatentCommand.Reset] <;>
    split <;> simp_all

theorem AsyncUntilDone_idle_Update (T : Tick) (Spec : FTestSpecBase)
    (c : FAsyncUntilDoneLatentCommand) (hIdle : c.Future = false) (hDone : c.bDone = false) :
    (c.Update T Spec).bReturn
      = ((FAsyncUntilDoneLatentCommand.New c.Execution c.Predicate c.Timeout
          c.bSkipIfErrored).Update T Spec).bReturn ∧
    (c.Update T Spec).Spec
      = ((FAsyncUntilDoneLatentCommand.New c.Execution c.Predicate c.Timeout
          c.bSkipIfErrored).Update T Spec).Spec ∧
    (c.Update T Spec).Dispatched
      = ((FAsyncUntilDoneLatentCommand.New c.Execution c.Predicate c.Timeout
          c.bSkipIfErrored).Update T Spec).Dispatched ∧
    ((c.bSkipIfErrored && Spec.HasAnyErrors) = false →
      c.Update T Spec
        = (FAsyncUntilDoneLatentCommand.New c.Execution c.Predicate c.Timeout
            c.bSkipIfErrored).Update T Spec ∧
      (c.Update T Spec).Dispatched = [c.Predicate] ∧
      (T.bDoneSignalled = false →
        ((c.Update T Spec).bReturn = true ↔ T.Now ≥ FDateTime.Plus T.Started c.Timeout) ∧
        ((c.Update T Spec).bReturn = false →
          (c.Update T Spec).Self.Future = true ∧
          (c.Update T Spec).Self.StartedRunning = T.Started))) := by
  obtain ⟨E, P, Tm, K, D, S, F⟩ := c
  simp only at hIdle hDone
  subst hIdle hDone
  cases hK : K <;> cases hH : Spec.HasAnyErrors <;> cases hT : T.bDoneSignalled <;>
    simp [FAsyncUntilDoneLatentCommand.Update, FAsyncUntilDoneLatentCommand.Conclude,
      FAsyncUntilDoneLatentCommand.Done, FAsyncUntilDoneLatentCommand.Reset,
      FAsyncUntilDoneLatentCommand.New, hH, hT] <;>
    split <;> simp_all

theorem Async_completed_idle (T : Tick) (Spec : FTestSpecBase) (c : FAsyncLatentCommand)
    (hStart : c.Future = true ∨ (c.bSkipIfErrored && Spec.HasAnyErrors) = false)
    (hRet : (c.Update T Spec).bReturn = true) :
    (c.Update T Spec).Self.Future = false ∧
    (c.Update T Spec).Self.bDone = false ∧
    (c.Update T Spec).Self.Execution = c.Execution ∧
    (c.Update T Spec).Self.Predicate = c.Predicate ∧
    (c.Update T Spec).Self.Timeout = c.Timeout ∧
    (c.Update T Spec).Self.bSkipIfErrored = c.bSkipIfErrored := by
  revert hRet
  cases hF : c.Future <;> cases hK : c.bSkipIfErrored <;> cases hH : Spec.HasAnyErrors <;>
    cases hD : c.bDone <;> cases hT : T.bDoneSignalled <;>
    simp_all [FAsyncLatentCommand.Update, FAsyncLatentCommand.Conclude,
      FAsyncLatentCommand.Done, FAsyncLatentCommand.Reset] <;>
    split <;> simp_all

theorem Async_idle_Update (T : Tick) (Spec : FTestSpecBase)
    (c : FAsyncLatentCommand) (hIdle : c.Future = false) (hDone : c.bDone = false) :
    (c.Update T Spec).bReturn
      = ((FAsyncLatentCommand.New c.Execution c.Predicate c.Timeout
          c.bSkipIfErrored).Update T Spec).bReturn ∧
    (c.Update T Spec).Spec
      = ((FAsyncLatentCommand.New c.Execution c.Predicate c.Timeout
          c.bSkipIfErrored).Update T Spec).Spec ∧
    (c.Update T Spec).Dispatched
      = ((FAsyncLatentCommand.New c.Execution c.Predicate c.Timeout
          c.bSkipIfErrored).Update T Spec).Dispatched ∧
    ((c.bSkipIfErrored && Spec.HasAnyErrors) = false →
      c.Update T Spec
        = (FAsyncLatentCommand.New c.Execution c.Predicate c.Timeout
            c.bSkipIfErrored).Update T Spec ∧
      (c.Update T Spec).Dispatched = [c.Predicate] ∧
      (T.bDoneSignalled = false →
        ((c.Update T Spec).bReturn = true ↔ T.Now ≥ FDateTime.Plus T.Started c.Timeout) ∧
        ((c.Update T Spec).bReturn = false →
          (c.Update T Spec).Self.Future = true ∧
          (c.Update T Spec).Self.StartedRunning = T.Started))) := by
  obtain ⟨E, P, Tm, K, D, S, F⟩ := c
  simp only at hIdle hDone
  subst hIdle hDone
  cases hK : K <;> cases hH : Spec.HasAnyErrors <;> cases hT : T.bDoneSignalled <;>
    simp [FAsyncLatentCommand.Update, FAsyncLatentCommand.Conclude,
      FAsyncLatentCommand.Done, FAsyncLatentCommand.Reset,
      FAsyncLatentCommand.New, hH, hT] <;>
    split <;> simp_all


/-- C21: for each of the three stateful classes, an `Update` that returns true on a command
that was started (by an earlier `Update` or by this one: the guard did not skip) leaves the
command idle: not running (`bIsRunning` false, `Future` invalid), the done flag false, the
constructor arguments as they were. The next `Update` of that idle command returns the
flag, leaves the spec and runs the body exactly as the first `Update` of a newly constructed
command with the same arguments would; where the guard does not skip, the two are equal in
everything, the body is invoked or handed to `Async` again, and with the done flag staying
unset the call returns true exactly when `Now` has reached the start time read in this very
call plus the timeout (the `int64` sum of the two tick counts, as the code computes it),
and otherwise leaves the command running from that start time. -/
theorem C21_reset_on_completion (Body : Bodies) (T : Tick) (Spec : FTestSpecBase) :
    (∀ c : FUntilDoneLatentCommand,
      (c.bIsRunning = true ∨ (c.bSkipIfErrored && Spec.HasAnyErrors) = false) →
      (c.Update Body T Spec).bReturn = true →
      ∃ idle : FUntilDoneLatentCommand,
        (c.Update Body T Spec).Self = idle ∧
        idle.bIsRunning = false ∧ idle.bDone = false ∧ idle.Predicate = c.Predicate ∧
        idle.Timeout = c.Timeout ∧ idle.bSkipIfErrored = c.bSkipIfErrored ∧
        ∀ (Next : Tick) (After : FTestSpecBase),
          (idle.Update Body Next After).bReturn
            = ((FUntilDoneLatentCommand.New c.Predicate c.Timeout c.bSkipIfErrored).Update
                Body Next After).bReturn ∧
          (idle.Update Body Next After).Spec
            = ((FUntilDoneLatentCommand.New c.Predicate c.Timeout c.bSkipIfErrored).Update
                Body Next After).Spec ∧
          (idle.Update Body Next After).Invoked
            = ((FUntilDoneLatentCommand.New c.Predicate c.Timeout c.bSkipIfErrored).Update
                Body Next After).Invoked ∧
          ((c.bSkipIfErrored && After.HasAnyErrors) = false →
            idle.Update Body Next After
              = (FUntilDoneLatentCommand.New c.Predicate c.Timeout c.bSkipIfErrored).Update
                  Body Next After ∧
            (idle.Update Body Next After).Invoked = [c.Predicate] ∧
            ((Body c.Predicate After).bDoneExecuted = false → Next.bDoneSignalled = false →
              ((idle.Update Body Next After).bReturn = true
                ↔ Next.Now ≥ FDateTime.Plus Next.Started c.Timeout) ∧
              ((idle.Update Body Next After).bReturn = false →
                (idle.Update Body Next After).Self.bIsRunning = true ∧
                (idle.Update Body Next After).Self.StartedRunning = Next.Started)))) ∧
    (∀ c : FAsyncUntilDoneLatentCommand,
      (c.Future = true ∨ (c.bSkipIfErrored && Spec.HasAnyErrors) = false) →
      (c.Update T Spec).bReturn = true →
      ∃ idle : FAsyncUntilDoneLatentCommand,
        (c.Update T Spec).Self = idle ∧
        idle.Future = false ∧ idle.bDone = false ∧ idle.Execution = c.Execution ∧
        idle.Predicate = c.Predicate ∧ idle.Timeout = c.Timeout ∧
        idle.bSkipIfErrored = c.bSkipIfErrored ∧
        ∀ (Next : Tick) (After : FTestSpecBase),
          (idle.Update Next After).bReturn
            = ((FAsyncUntilDoneLatentCommand.New c.Execution c.Predicate c.Timeout
                c.bSkipIfErrored).Update Next After).bReturn ∧
          (idle.Update Next After).Spec
            = ((FAsyncUntilDoneLatentCommand.New c.Execution c.Predicate c.Timeout
                c.bSkipIfErrored).Update Next After).Spec ∧
          (idle.Update Next After).Dispatched
            = ((FAsyncUntilDoneLatentCommand.New c.Execution c.Predicate c.Timeout
                c.bSkipIfErrored).Update Next After).Dispatched ∧
          ((c.bSkipIfErrored && After.HasAnyErrors) = false →
            idle.Update Next After
              = (FAsyncUntilDoneLatentCommand.New c.Execution c.Predicate c.Timeout
                  c.bSkipIfErrored).Update Next After ∧
            (idle.Update Next After).Dispatched = [c.Predicate] ∧
            (Next.bDoneSignalled = false →
              ((idle.Update Next After).bReturn = true
                ↔ Next.Now ≥ FDateTime.Plus Next.Started c.Timeout) ∧
              ((idle.Update Next After).bReturn = false →
                (idle.Update Next After).Self.Future = true ∧
                (idle.Update Next After).Self.StartedRunning = Next.Started)))) ∧
    (∀ c : FAsyncLatentCommand,
      (c.Future = true ∨ (c.bSkipIfErrored && Spec.HasAnyErrors) = false) →
      (c.Update T Spec).bReturn = true →
      ∃ idle : FAsyncLatentCommand,
        (c.Update T Spec).Self = idle ∧
        idle.Future = false ∧ idle.bDone = false ∧ idle.Execution = c.Execution ∧
        idle.Predicate = c.Predicate ∧ idle.Timeout = c.Timeout ∧
        idle.bSkipIfErrored = c.bSkipIfErrored ∧
        ∀ (Next : Tick) (After : FTestSpecBase),
          (idle.Update Next After).bReturn
            = ((FAsyncLatentCommand.New c.Execution c.Predicate c.Timeout
                c.bSkipIfErrored).Update Next After).bReturn ∧
          (idle.Update Next After).Spec
            = ((FAsyncLatentCommand.New c.Execution c.Predicate c.Timeout
                c.bSkipIfErrored).Update Next After).Spec ∧
          (idle.Update Next After).Dispatched
            = ((FAsyncLatentCommand.New c.Execution c.Predicate c.Timeout
                c.bSkipIfErrored).Update Next After).Dispatched ∧
          ((c.bSkipIfErrored && After.HasAnyErrors) = false →
            idle.Update Next After
              = (FAsyncLatentCommand.New c.Execution c.Predicate c.Timeout
                  c.bSkipIfErrored).Update Next After ∧
            (idle.Update Next After).Dispatched = [c.Predicate] ∧
            (Next.bDoneSignalled = false →
              ((idle.Update Next After).bReturn = true
                ↔ Next.Now ≥ FDateTime.Plus Next.Started c.Timeout) ∧
              ((idle.Update Next After).bReturn = false →
                (idle.Update Next After).Self.Future = true ∧
                (idle.Update Next After).Self.StartedRunning = Next.Started)))) := by
  refine ⟨?_, ?_, ?_⟩
  · intro c hS hR
    obtain ⟨h1, h2, hP, hTm, hK⟩ := UntilDone_completed_idle Body T Spec c hS hR
    refine ⟨_, rfl, h1, h2, hP, hTm, hK, fun Next After => ?_⟩
    have h := UntilDone_idle_Update Body Next After _ h1 h2
    rw [hP, hTm, hK] at h
    exact h
  · intro c hS hR
    obtain ⟨h1, h2, hE, hP, hTm, hK⟩ := AsyncUntilDone_completed_idle T Spec c hS hR
    refine ⟨_, rfl, h1, h2, hE, hP, hTm, hK, fun Next After => ?_⟩
    have h := AsyncUntilDone_idle_Update Next After _ h1 h2
    rw [hE, hP, hTm, hK] at h
    exact h
  · intro c hS hR
    obtain ⟨h1, h2, hE, hP, hTm, hK⟩ := Async_completed_idle T Spec c hS hR
    refine ⟨_, rfl, h1, h2, hE, hP, hTm, hK, fun Next After => ?_⟩
    have h := Async_idle_Update Next After _ h1 h2
    rw [hE, hP, hTm, hK] at h
    exact h

/-- C21, for a running `FUntilDoneLatentCommand` started at tick 5 with a timeout of 100
that times out at tick 200: the command is idle afterwards, and its next `Update`, at tick
300 on a spec without errors, invokes the body again and returns false, the clock running
from tick 300. -/
theorem C21_reset_on_completion_witness :
    ∃ idle : FUntilDoneLatentCommand,
      (FUntilDoneLatentCommand.Update (fun _ S => { Spec := S, bDoneExecuted := false })
          { Started := 200, Now := 200, bDoneSignalled := false }
          { Predicate := 3, Timeout := 100, bSkipIfErrored := true, bIsRunning := true,
            StartedRunning := 5, bDone := false }
          (FTestSpecBase.New [])).Self = idle ∧
      idle.bIsRunning = false ∧ idle.bDone = false ∧
      (idle.Update (fun _ S => { Spec := S, bDoneExecuted := false })
          { Started := 300, Now := 300, bDoneSignalled := false }
          (FTestSpecBase.New [])).Invoked = [3] ∧
      (idle.Update (fun _ S => { Spec := S, bDoneExecuted := false })
          { Started := 300, Now := 300, bDoneSignalled := false }
          (FTestSpecBase.New [])).bReturn = false := by
  obtain ⟨idle, hI, h1, h2, _, _, _, hNext⟩ :=
    (C21_reset_on_completion (fun _ S => { Spec := S, bDoneExecuted := false })
      { Started := 200, Now := 200, bDoneSignalled := false } (FTestSpecBase.New [])).1
      { Predicate := 3, Timeout := 100, bSkipIfErrored := true, bIsRunning := true,
        StartedRunning := 5, bDone := false } (Or.inl rfl) (by decide)
  obtain ⟨_, _, _, hG⟩ := hNext { Started := 300, Now := 300, bDoneSignalled := false }
    (FTestSpecBase.New [])
  obtain ⟨_, hInv, hClock⟩ := hG rfl
  refine ⟨idle, hI, h1, h2, hInv, ?_⟩
  have hc := (hClock rfl rfl).1
  cases hb : (idle.Update (fun _ S => { Spec := S, bDoneExecuted := false })
      { Started := 300, Now := 300, bDoneSignalled := false } (FTestSpecBase.New [])).bReturn with
  | false => rfl
  | true => exact absurd (hc.mp hb) (by decide)


/-! ## A worker that finishes after the timeout -/

/-- C22 on the code: let a dispatched `FAsyncLatentCommand` time out (its `Update` resets
the done flag and releases the future) and let the abandoned worker then finish, which sets
`bDone` on the same object. The first `Update` of the next run, not skipped by the guard,
dispatches the new body and finds the flag set: it returns true and decrements
`TestsRemaining` although the new body has not finished and the timeout has not elapsed,
whereas without the late completion it returns false and leaves `TestsRemaining` alone. The
same holds for an `FAsyncUntilDoneLatentCommand` whose abandoned body executes the done
delegate late, apart from the decrement. -/
theorem C22_late_completion_is_observed (First Second : Tick) (Spec Later : FTestSpecBase) :
    (∀ c : FAsyncLatentCommand,
      c.Future = true → c.bDone = false → First.bDoneSignalled = false →
      First.Now ≥ FDateTime.Plus c.StartedRunning c.Timeout →
      (c.bSkipIfErrored && Later.HasAnyErrors) = false →
      Second.bDoneSignalled = false → Second.Now < FDateTime.Plus Second.Started c.Timeout →
        (c.Update First Spec).bReturn = true ∧
        (c.Update First Spec).Spec = Spec.AddError TimedOutText ∧
        (c.Update First Spec).Self.bDone = false ∧
        ((c.Update First Spec).Self.Update Second Later).bReturn = false ∧
        ((c.Update First Spec).Self.Update Second Later).Spec = Later ∧
        ((c.Update First Spec).Self.Done.Update Second Later).bReturn = true ∧
        ((c.Update First Spec).Self.Done.Update Second Later).Dispatched = [c.Predicate] ∧
        ((c.Update First Spec).Self.Done.Update Second Later).Spec.TestsRemaining
          = Later.TestsRemaining - 1) ∧
    (∀ c : FAsyncUntilDoneLatentCommand,
      c.Future = true → c.bDone = false → First.bDoneSignalled = false →
      First.Now ≥ FDateTime.Plus c.StartedRunning c.Timeout →
      (c.bSkipIfErrored && Later.HasAnyErrors) = false →
      Second.bDoneSignalled = false → Second.Now < FDateTime.Plus Second.Started c.Timeout →
        (c.Update First Spec).bReturn = true ∧
        (c.Update First Spec).Spec = Spec.AddError TimedOutText ∧
        (c.Update First Spec).Self.bDone = false ∧
        ((c.Update First Spec).Self.Update Second Later).bReturn = false ∧
        ((c.Update First Spec).Self.Update Second Later).Spec = Later ∧
        ((c.Update First Spec).Self.Done.Update Second Later).bReturn = true ∧
        ((c.Update First Spec).Self.Done.Update Second Later).Dispatched = [c.Predicate]) := by
  constructor
  · intro c hF hD hS1 hN1 hG hS2 hN2
    have hlt : ¬ Second.Now ≥ FDateTime.Plus Second.Started c.Timeout := not_le.mpr hN2
    rw [Async_running_timeout First Spec c hF hD hS1 hN1]
    simp [FAsyncLatentCommand.Update, FAsyncLatentCommand.Conclude, FAsyncLatentCommand.Done,
      FAsyncLatentCommand.Reset, hG, hS2, hlt]
  · intro c hF hD hS1 hN1 hG hS2 hN2
    have hlt : ¬ Second.Now ≥ FDateTime.Plus Second.Started c.Timeout := not_le.mpr hN2
    rw [AsyncUntilDone_running_timeout First Spec c hF hD hS1 hN1]
    simp [FAsyncUntilDoneLatentCommand.Update, FAsyncUntilDoneLatentCommand.Conclude,
      FAsyncUntilDoneLatentCommand.Done, FAsyncUntilDoneLatentCommand.Reset, hG, hS2, hlt]

/-- C22 on the code, for an after-each `FAsyncLatentCommand` (skip flag false) with a
timeout of 100 ticks, dispatched at tick 0: it times out at tick 100, the abandoned worker
finishes, and the first `Update` of the next run at tick 500 returns true and takes
`TestsRemaining` from 0 to -1. -/
theorem C22_late_completion_is_observed_witness :
    ((FAsyncLatentCommand.Update { Started := 100, Now := 100, bDoneSignalled := false }
        { Execution := .ThreadPool, Predicate := 3, Timeout := 100, bSkipIfErrored := false,
          bDone := false, StartedRunning := 0, Future := true }
        (FTestSpecBase.New [])).Self.Done.Update
        { Started := 500, Now := 500, bDoneSignalled := false }
        (FTestSpecBase.New [])).bReturn = true ∧
    ((FAsyncLatentCommand.Update { Started := 100, Now := 100, bDoneSignalled := false }
        { Execution := .ThreadPool, Predicate := 3, Timeout := 100, bSkipIfErrored := false,
          bDone := false, StartedRunning := 0, Future := true }
        (FTestSpecBase.New [])).Self.Done.Update
        { Started := 500, Now := 500, bDoneSignalled := false }
        (FTestSpecBase.New [])).Spec.TestsRemaining = -1 := by
  obtain ⟨_, _, _, _, _, h1, _, h2⟩ :=
    (C22_late_completion_is_observed { Started := 100, Now := 100, bDoneSignalled := false }
      { Started := 500, Now := 500, bDoneSignalled := false }
      (FTestSpecBase.New []) (FTestSpecBase.New [])).1
      { Execution := .ThreadPool, Predicate := 3, Timeout := 100, bSkipIfErrored := false,
        bDone := false, StartedRunning := 0, Future := true }
      rfl rfl rfl (by decide) rfl rfl (by decide)
  exact ⟨h1, h2⟩


/-! ## When the bracket override applies -/

theorem JoinIdStep_suffix (ws : Char → Bool) (Acc Next : FString) :
    Next <:+ JoinIdStep ws Acc Next := by
  unfold JoinIdStep
  split
  · exact ⟨Acc ++ SpaceText, by simp⟩
  · exact ⟨Acc, rfl⟩

theorem FoldedId_suffix (ws : Char → Bool) (Outer : List FString) (Last : FString) :
    Last <:+ FoldedId ws (Outer ++ [Last]) := by
  cases Last with
  | nil => exact List.nil_suffix
  | cons x rest =>
    unfold FoldedId
    have hf : (Outer ++ [x :: rest]).filter (fun s => !s.isEmpty)
        = Outer.filter (fun s => !s.isEmpty) ++ [x :: rest] := by
      simp [List.filter_append]
    rw [hf]
    cases Outer.filter (fun s => !s.isEmpty) with
    | nil => exact List.suffix_refl _
    | cons a F =>
      simp only [List.cons_append, List.foldl_append, List.foldl_cons, List.foldl_nil]
      exact JoinIdStep_suffix ws _ _

theorem not_triggers_empty_tag (p : FString) : ¬ TriggersOverride (p ++ ['[', ']']) := by
  rintro ⟨q, t, h, hne, ht⟩
  have h1 : p ++ ['[', ']'] = (p ++ ['[']) ++ [']'] := by simp
  have h2 : q ++ '[' :: t ++ [']'] = (q ++ '[' :: t) ++ [']'] := by simp
  rw [h1, h2] at h
  have h3 := List.append_inj_left' h rfl
  -- the text before the final bracket ends with the opening bracket
  rcases List.eq_nil_or_concat t with rfl | ⟨t2, c, rfl⟩
  · exact hne rfl
  · have h4 : p ++ ['['] = (q ++ '[' :: t2) ++ [c] := by simpa using h3
    have h5 := List.append_inj_right' h4 rfl
    have hc : c = '[' := by simpa using h5.symm
    exact ht (by simp [hc])

theorem not_triggers_without_bracket (s : FString) (h : '[' ∉ s) : ¬ TriggersOverride s := by
  rintro ⟨p, t, rfl, _, _⟩
  exact h (by simp)

/-- C28: on a non-empty stack with last segment `Last`, `GetId` leaves through the bracket
override exactly when `Last` is `p ++ "[" ++ t ++ "]"` with a non-empty `t` that holds no
opening bracket, that is, `Last` ends with a closing bracket and an opening bracket occurs
before it with at least one character after its last occurrence; then the id is `t`.
In every other case the id is the fold of the whole stack, which ends with `Last` itself,
brackets included. A segment ending in "[]" and a segment without an opening bracket are
such other cases. -/
theorem C28_bracket_override_iff (IsWhitespace : Char → Bool) (Outer : List FString)
    (Last : FString) :
    ((∃ x, GetIdOverride Last = some x) ↔ TriggersOverride Last) ∧
    (∀ p t : FString, Last = p ++ '[' :: t ++ [']'] → t ≠ [] → '[' ∉ t →
      GetId IsWhitespace (Outer ++ [Last]) = .ok t) ∧
    (¬ TriggersOverride Last →
      GetId IsWhitespace (Outer ++ [Last]) = .ok (FoldedId IsWhitespace (Outer ++ [Last])) ∧
      Last <:+ FoldedId IsWhitespace (Outer ++ [Last])) ∧
    (∀ p : FString, ¬ TriggersOverride (p ++ ['[', ']'])) ∧
    (∀ s : FString, '[' ∉ s → ¬ TriggersOverride s) := by
  refine ⟨⟨?_, ?_⟩, ?_, ?_, not_triggers_empty_tag, not_triggers_without_bracket⟩
  · rintro ⟨x, hx⟩
    exact GetIdOverride_some Last x hx
  · rintro ⟨p, t, rfl, hne, ht⟩
    exact ⟨t, GetIdOverride_tag p t hne ht⟩
  · rintro p t rfl hne ht
    simp only [GetId, List.getLast?_concat, GetIdOverride_tag p t hne ht]
  · intro hno
    refine ⟨?_, FoldedId_suffix IsWhitespace Outer Last⟩
    simp only [GetId, List.getLast?_concat, GetIdOverride_none_of_not_triggers Last hno,
      GetIdLoop_eq_FoldedId]

/-- C28, at three last segments under the group "Group": "Foo [stable-id]" has the id
"stable-id"; "Foo []" and "Foo ]" do not trigger the override and have the ids
"Group Foo []" and "Group Foo ]". -/
theorem C28_bracket_override_iff_witness :
    GetId Char.isWhitespace ["Group".toList, "Foo [stable-id]".toList]
      = .ok "stable-id".toList ∧
    ¬ TriggersOverride "Foo []".toList ∧
    GetId Char.isWhitespace ["Group".toList, "Foo []".toList] = .ok "Group Foo []".toList ∧
    ¬ TriggersOverride "Foo ]".toList ∧
    GetId Char.isWhitespace ["Group".toList, "Foo ]".toList] = .ok "Group Foo ]".toList := by
  have h1 := (C28_bracket_override_iff Char.isWhitespace ["Group".toList]
    "Foo [stable-id]".toList).2.1 "Foo ".toList "stable-id".toList rfl (by decide) (by decide)
  have h2 := (C28_bracket_override_iff Char.isWhitespace ["Group".toList]
    "Foo []".toList).2.2.2.1 "Foo ".toList
  have h3 := (C28_bracket_override_iff Char.isWhitespace ["Group".toList]
    "Foo ]".toList).2.2.2.2 "Foo ]".toList (by decide)
  have h4 := ((C28_bracket_override_iff Char.isWhitespace ["Group".toList]
    "Foo []".toList).2.2.1 h2).1
  have h5 := ((C28_bracket_override_iff Char.isWhitespace ["Group".toList]
    "Foo ]".toList).2.2.1 h3).1
  refine ⟨h1, h2, ?_, h3, ?_⟩
  · rw [show ["Group".toList, "Foo []".toList] = ["Group".toList] ++ ["Foo []".toList] from rfl,
      h4]
    decide
  · rw [show ["Group".toList, "Foo ]".toList] = ["Group".toList] ++ ["Foo ]".toList] from rfl,
      h5]
    decide


/-! ## The disabled declarations -/

theorem RunAll_append (ws : Char → Bool) (A B : List Declaration) :
    ∀ self : FTestSpecBase, RunAll ws (A ++ B) self = (RunAll ws A self).bind (RunAll ws B) := by
  induction A with
  | nil => intro self; simp [RunAll, Except.bind]
  | cons a rest ih =>
    intro self
    simp only [List.cons_append, RunAll, bind, Except.bind]
    cases a.Run ws self with
    | error e => rfl
    | ok s => exact ih s

theorem RunAll_DropsDisabled (ws : Char → Bool) (With Without : List Declaration)
    (h : DropsDisabled With Without) : RunAll ws With = RunAll ws Without := by
  induction h with
  | here pre d post =>
    funext self
    have hpost : RunAll ws (.Disabled d :: post) = RunAll ws post := by
      funext s
      simp [RunAll, Declaration.Run, bind, Except.bind]
    rw [RunAll_append, RunAll_append, hpost]
  | inside pre x With Without post _ ih =>
    funext self
    have hpost : RunAll ws (.Describe x With :: post) = RunAll ws (.Describe x Without :: post) := by
      funext s
      simp only [RunAll, Declaration.Run, ih]
    rw [RunAll_append, RunAll_append, hpost]

/-- C29: an `x`-variant declaration returns at once with the spec exactly as it was (the
scope tree, both stacks and the pool of command objects unchanged), whatever declaration it
disables: the body handed to it is not run, also when running it would fail. Hence a
definition body with an `x`-variant at the top level or inside nested groups runs, on every
spec, exactly as the body with that declaration deleted; the definition pass on a fresh
spec, `EnsureDefinitions` and the compiled table are the same for the two bodies. -/
theorem C29_disabled_declarations_are_noops (IsWhitespace : Char → Bool) :
    (∀ (d : Declaration) (self : FTestSpecBase),
      (Declaration.Disabled d).Run IsWhitespace self = .ok self) ∧
    (∀ With Without : List Declaration, DropsDisabled With Without →
      (∀ self : FTestSpecBase, RunAll IsWhitespace With self = RunAll IsWhitespace Without self) ∧
      (∀ InName : FString,
        Compile IsWhitespace InName With = Compile IsWhitespace InName Without) ∧
      (∀ self : FTestSpecBase,
        self.EnsureDefinitions IsWhitespace With
          = self.EnsureDefinitions IsWhitespace Without) ∧
      (∀ (InName : FString) (compiled : FTestSpecBase),
        Compile IsWhitespace InName With = .ok compiled →
        ∃ other : FTestSpecBase,
          Compile IsWhitespace InName Without = .ok other ∧
          other.IdToSpecMap = compiled.IdToSpecMap)) := by
  refine ⟨fun d self => by rw [Declaration.Run], ?_⟩
  intro With Without h
  have hR := RunAll_DropsDisabled IsWhitespace With Without h
  have hC : ∀ InName : FString,
      Compile IsWhitespace InName With = Compile IsWhitespace InName Without := by
    intro InName
    simp only [Compile, Define, hR]
  refine ⟨fun self => by rw [hR], hC, ?_, ?_⟩
  · intro self
    simp only [FTestSpecBase.EnsureDefinitions, hR]
  · intro InName compiled hc
    exact ⟨compiled, by rw [← hC]; exact hc, rfl⟩

/-- C29, at the repository's own spec with a disabled group in front of its test and with the
disabled group deleted: the two definition passes are the same, and the disabled group,
whose body declares the same test twice, does not make the pass fail. -/
theorem C29_disabled_declarations_are_noops_witness :
    DropsDisabled
      (.Disabled (.Describe "Group".toList
          [ .It "same".toList "Example.spec.cpp".toList 3 (.Sync 0),
            .It "same".toList "Example.spec.cpp".toList 6 (.Sync 1) ]) :: FAutomatronSpec)
      FAutomatronSpec ∧
    Compile Char.isWhitespace "Automatron".toList
      (.Disabled (.Describe "Group".toList
          [ .It "same".toList "Example.spec.cpp".toList 3 (.Sync 0),
            .It "same".toList "Example.spec.cpp".toList 6 (.Sync 1) ]) :: FAutomatronSpec)
      = Compile Char.isWhitespace "Automatron".toList FAutomatronSpec ∧
    ∃ compiled : FTestSpecBase,
      Compile Char.isWhitespace "Automatron".toList FAutomatronSpec = .ok compiled ∧
      compiled.GetNumTests = 1 := by
  have hd : DropsDisabled
      (.Disabled (.Describe "Group".toList
          [ .It "same".toList "Example.spec.cpp".toList 3 (.Sync 0),
            .It "same".toList "Example.spec.cpp".toList 6 (.Sync 1) ]) :: FAutomatronSpec)
      FAutomatronSpec := DropsDisabled.here [] _ FAutomatronSpec
  refine ⟨hd, ((C29_disabled_declarations_are_noops Char.isWhitespace).2 _ _ hd).2.1 _, ?_⟩
  refine ⟨_, Compile_ok _ _ _ (by decide), ?_⟩
  decide


/-! ## The order of the table -/

theorem FlattenChildren_append (B A : List CmdRef) (X Y : List FSpecDefinitionScope) :
    FlattenChildren B A (X ++ Y) = FlattenChildren B A Y ++ FlattenChildren B A X := by
  induction X with
  | nil => simp [FlattenChildren]
  | cons x rest ih => simp [FlattenChildren, ih]

theorem Flatten_map_Info (B A : List CmdRef) (Scope : FSpecDefinitionScope) :
    (Scope.Flatten B A).map FSpec.Info
      = Scope.It.map FSpecIt.Info
        ++ (FlattenChildren (B ++ Scope.BeforeEach) (A ++ Scope.AfterEach) Scope.Children).map
            FSpec.Info := by
  cases Scope with
  | mk D Bf I Af C =>
    simp [FSpecDefinitionScope.Flatten, ExpectedSpec, FSpec.Info, FSpecIt.Info,
      Function.comp_def]

mutual
theorem Declare_order (ws : Char → Bool) :
    ∀ (d : Declaration) (D : List FString) (Next : Nat) (Scope : FSpecDefinitionScope)
      (B A : List CmdRef),
      (d.Declare ws D Next Scope).It.map FSpecIt.Info
          = Scope.It.map FSpecIt.Info ++ (d.TableOrder ws D).1 ∧
      (FlattenChildren B A (d.Declare ws D Next Scope).Children).map FSpec.Info
          = (d.TableOrder ws D).2 ++ (FlattenChildren B A Scope.Children).map FSpec.Info
  | .Describe x Body, D, Next, Scope, B, A => by
    have hNew := DeclareAll_order ws Body (D ++ [x]) Next
      { FSpecDefinitionScope.New with Description := x }
    simp only [Declaration.Declare, Declaration.TableOrder]
    generalize DeclareAll ws Body (D ++ [x]) Next
      { FSpecDefinitionScope.New with Description := x } = New at hNew
    have hIt : New.It.map FSpecIt.Info = (TableOrderAll ws Body (D ++ [x])).1 := by
      have := (hNew [] []).1
      simpa [FSpecDefinitionScope.New] using this
    have hKids : ∀ B A : List CmdRef, (FlattenChildren B A New.Children).map FSpec.Info
        = (TableOrderAll ws Body (D ++ [x])).2 := by
      intro B A
      have := (hNew B A).2
      simpa [FSpecDefinitionScope.New, FlattenChildren] using this
    split
    · rename_i hc
      have hI : New.It = [] := by
        cases h : New.It with
        | nil => rfl
        | cons a r => simp [h] at hc
      have hC : New.Children = [] := by
        cases h : New.Children with
        | nil => rfl
        | cons a r => simp [h] at hc
      rw [hI] at hIt
      have hk := hKids [] []
      rw [hC] at hk
      simp only [List.map_nil, FlattenChildren] at hIt hk
      simp [← hIt, ← hk]
    · simp only [List.append_nil, FlattenChildren_append, FlattenChildren, List.nil_append,
        List.map_append, Flatten_map_Info, hIt, hKids, true_and]
  | .It d f l w, D, Next, Scope, B, A => by
    simp [Declaration.Declare, Declaration.TableOrder, FSpecIt.Info]
  | .BeforeEach w, D, Next, Scope, B, A => by
    simp [Declaration.Declare, Declaration.TableOrder]
  | .AfterEach w, D, Next, Scope, B, A => by
    simp [Declaration.Declare, Declaration.TableOrder]
  | .Disabled d, D, Next, Scope, B, A => by
    simp [Declaration.Declare, Declaration.TableOrder]
theorem DeclareAll_order (ws : Char → Bool) :
    ∀ (ds : List Declaration) (D : List FString) (Next : Nat) (Scope : FSpecDefinitionScope)
      (B A : List CmdRef),
      (DeclareAll ws ds D Next Scope).It.map FSpecIt.Info
          = Scope.It.map FSpecIt.Info ++ (TableOrderAll ws ds D).1 ∧
      (FlattenChildren B A (DeclareAll ws ds D Next Scope).Children).map FSpec.Info
          = (TableOrderAll ws ds D).2 ++ (FlattenChildren B A Scope.Children).map FSpec.Info
  | [], D, Next, Scope, B, A => by
    simp [DeclareAll, TableOrderAll]
  | d :: rest, D, Next, Scope, B, A => by
    have h1 := Declare_order ws d D Next Scope B A
    have h2 := DeclareAll_order ws rest D (Next + (d.NewObjects 0 false).length)
      (d.Declare ws D Next Scope) B A
    rw [DeclareAll, TableOrderAll]
    simp only [h2.1, h2.2, h1.1, h1.2, List.append_assoc, and_self]
end


theorem TableOrderAll_append (ws : Char → Bool) (X Y : List Declaration) (D : List FString) :
    TableOrderAll ws (X ++ Y) D
      = ((TableOrderAll ws X D).1 ++ (TableOrderAll ws Y D).1,
         (TableOrderAll ws Y D).2 ++ (TableOrderAll ws X D).2) := by
  induction X with
  | nil => simp [TableOrderAll]
  | cons x rest ih => simp [TableOrderAll, ih]

/-- The table of the flattened tree that a body declares on a fresh spec, entry for entry. -/
theorem Flatten_ExpectedTable (ws : Char → Bool) (Body : List Declaration) :
    ((DeclareAll ws Body [] 0 FSpecDefinitionScope.New).Flatten [] []).map FSpec.Info
      = ExpectedTable ws Body := by
  have h := DeclareAll_order ws Body [] 0 FSpecDefinitionScope.New
    ([] ++ (DeclareAll ws Body [] 0 FSpecDefinitionScope.New).BeforeEach)
    ([] ++ (DeclareAll ws Body [] 0 FSpecDefinitionScope.New).AfterEach)
  rw [Flatten_map_Info, h.1, h.2]
  simp [ExpectedTable, FSpecDefinitionScope.New, FlattenChildren]

/-- C27: in the table order the tests of a scope stand in the order of declaration and
before the tests of the groups below it (the block of a `Describe` is the tests of its own
scope followed by the blocks of its groups), and the blocks of sibling groups stand in the
reverse order of declaration: for a group `a` declared before a group `b` the whole block of
`b` precedes the whole block of `a`. When the ids a body declares are pairwise different
keys of the map (different also without regard to the case of the letters), the
definition pass on a fresh spec returns and its table is, entry for entry, that order; so
are the arrays `GetTests` fills, and the commands a run of all tests enqueues are those of
the table in that order. -/
theorem C27_table_order (IsWhitespace : Char → Bool) :
    (∀ (x : FString) (DoWork : List Declaration) (D : List FString),
      (Declaration.Describe x DoWork).TableOrder IsWhitespace D
        = ([], (TableOrderAll IsWhitespace DoWork (D ++ [x])).1
                ++ (TableOrderAll IsWhitespace DoWork (D ++ [x])).2)) ∧
    (∀ (X Y : List Declaration) (D : List FString),
      TableOrderAll IsWhitespace (X ++ Y) D
        = ((TableOrderAll IsWhitespace X D).1 ++ (TableOrderAll IsWhitespace Y D).1,
           (TableOrderAll IsWhitespace Y D).2 ++ (TableOrderAll IsWhitespace X D).2)) ∧
    (∀ (pre mid post A B : List Declaration) (a b : FString) (D : List FString),
      (TableOrderAll IsWhitespace
          (pre ++ .Describe a A :: (mid ++ .Describe b B :: post)) D).2
        = (TableOrderAll IsWhitespace post D).2
          ++ ((Declaration.Describe b B).TableOrder IsWhitespace D).2
          ++ (TableOrderAll IsWhitespace mid D).2
          ++ ((Declaration.Describe a A).TableOrder IsWhitespace D).2
          ++ (TableOrderAll IsWhitespace pre D).2) ∧
    (∀ (InName : FString) (Body : List Declaration),
      (((DeclaredAll IsWhitespace Body []).map TestInfo.Id).map IgnoreCase).Nodup →
      ∃ compiled : FTestSpecBase,
        Compile IsWhitespace InName Body = .ok compiled ∧
        compiled.IdToSpecMap.map FSpec.Info = ExpectedTable IsWhitespace Body ∧
        (∀ Names Commands : List FString,
          ∃ r : GetTestsResult,
            compiled.GetTests IsWhitespace Body Names Commands = .ok r ∧
            r.OutTestCommands
              = Commands ++ (ExpectedTable IsWhitespace Body).map TestInfo.Id ∧
            r.OutBeautifiedNames
              = Names ++ (ExpectedTable IsWhitespace Body).map TestInfo.Description) ∧
        (∀ Queue : List CmdRef,
          ∃ r : RunTestResult,
            compiled.RunTest IsWhitespace Body [] Queue = .ok r ∧
            r.Queue = Queue ++ (compiled.IdToSpecMap.map FSpec.Commands).flatten)) := by
  refine ⟨fun x DoWork D => rfl, TableOrderAll_append IsWhitespace, ?_, ?_⟩
  · intro pre mid post A B a b D
    rw [TableOrderAll_append]
    simp only [TableOrderAll, TableOrderAll_append, List.append_assoc]
  · intro InName Body hIds
    have hC := Compile_ok IsWhitespace InName Body hIds
    have hT := Flatten_ExpectedTable IsWhitespace Body
    refine ⟨_, hC, hT, ?_, ?_⟩
    · intro Names Commands
      refine ⟨_, GetTests_of_Ensured IsWhitespace Body Names Commands _ _
        (EnsureDefinitions_defined IsWhitespace Body _ rfl), ?_, ?_⟩
      · show Commands ++ _ = _
        rw [← hT]
        simp [List.map_map, Function.comp_def, FSpec.Info]
      · show Names ++ _ = _
        rw [← hT]
        simp [List.map_map, Function.comp_def, FSpec.Info]
    · intro Queue
      refine ⟨_, RunTest_of_Ensured IsWhitespace Body [] Queue _ _
        (EnsureDefinitions_defined IsWhitespace Body _ rfl), ?_⟩
      simp

/-- C27, at `ExampleGroups`, where the group "A" (test "x", nested group "B" with test "y") is
declared before the group "S" (test "z"): the table is "S z", then "A x", then "A B y". -/
theorem C27_table_order_witness :
    (((DeclaredAll Char.isWhitespace ExampleGroups []).map TestInfo.Id).map IgnoreCase).Nodup ∧
    ∃ compiled : FTestSpecBase,
      Compile Char.isWhitespace [] ExampleGroups = .ok compiled ∧
      compiled.IdToSpecMap.map FSpec.Id = ["S z".toList, "A x".toList, "A B y".toList] := by
  have hN : (((DeclaredAll Char.isWhitespace ExampleGroups []).map TestInfo.Id).map IgnoreCase).Nodup := by decide
  obtain ⟨compiled, hC, hT, _⟩ :=
    (C27_table_order Char.isWhitespace).2.2.2 [] ExampleGroups hN
  refine ⟨hN, compiled, hC, ?_⟩
  have h := congrArg (List.map TestInfo.Id) hT
  simp only [List.map_map] at h
  have hE : (ExpectedTable Char.isWhitespace ExampleGroups).map TestInfo.Id
      = ["S z".toList, "A x".toList, "A B y".toList] := by decide
  rw [hE] at h
  exact h


/-! ## The iterations of `PostDefine` -/

theorem PostDefineLoopVisits_step (Fuel : Nat) (Scope : FSpecDefinitionScope)
    (below : List FSpecDefinitionScope) (BeforeEach AfterEach : List CmdRef) (Map : List FSpec)
    (Visited : List FSpecDefinitionScope) :
    PostDefineLoopVisits (Fuel + 1)
        { Stack := Scope :: below, BeforeEach := BeforeEach, AfterEach := AfterEach,
          IdToSpecMap := Map } Visited
      = (PostDefineStep Scope below
          { Stack := Scope :: below, BeforeEach := BeforeEach, AfterEach := AfterEach,
            IdToSpecMap := Map }).bind
          (fun T => PostDefineLoopVisits Fuel T (Visited ++ [Scope])) := by
  rw [PostDefineLoopVisits]
  rfl

mutual
theorem PostDefineLoopVisits_scope :
    ∀ (Scope : FSpecDefinitionScope) (below : List FSpecDefinitionScope)
      (BeforeEach AfterEach : List CmdRef) (Map : List FSpec) (Fuel : Nat)
      (Visited : List FSpecDefinitionScope),
      Scope.GroupsNonEmpty = true →
      PostDefineLoopVisits (Scope.NumScopes + Fuel)
          { Stack := Scope :: below, BeforeEach := BeforeEach, AfterEach := AfterEach,
            IdToSpecMap := Map } Visited
        = (AddAll (Scope.Flatten BeforeEach AfterEach) Map).bind
            (ResumeBelowVisits Fuel below BeforeEach AfterEach (Visited ++ Scope.VisitOrder))
  | ⟨D, Before, It, After, Children⟩, below, BeforeEach, AfterEach, Map, Fuel, Visited, hG => by
    have hfuel : (FSpecDefinitionScope.mk D Before It After Children).NumScopes + Fuel
        = (NumScopesAll Children + Fuel) + 1 := by
      simp only [FSpecDefinitionScope.NumScopes]; omega
    rw [hfuel, PostDefineLoopVisits_step, FSpecDefinitionScope.Flatten, AddAll_append]
    simp only [PostDefineStep, CompileIts_eq, bind, Except.bind]
    cases hadd : AddAll (List.map (ExpectedSpec (BeforeEach ++ Before) (AfterEach ++ After)) It) Map with
    | error e => rfl
    | ok Map1 =>
      simp only []
      cases Children with
      | nil =>
        have hpop := PopFinished_done ⟨D, Before, [], After, []⟩ below BeforeEach AfterEach rfl rfl
        simp only [] at hpop
        simp only [List.length_nil, gt_iff_lt, Nat.lt_irrefl, if_false, hpop, FlattenChildren,
          AddAll, NumScopesAll, Nat.zero_add, ResumeBelowVisits, FSpecDefinitionScope.VisitOrder,
          VisitOrderOf]
        cases hp : PopFinished below BeforeEach AfterEach with
        | error e => rfl
        | ok r => rfl
      | cons Child rest =>
        have hpop := PopFinished_done ⟨D, Before, [], After, []⟩ below BeforeEach AfterEach rfl rfl
        simp only [] at hpop
        have hG2 : AllGroupsNonEmpty (Child :: rest) = true := by
          simpa [FSpecDefinitionScope.GroupsNonEmpty] using hG
        simp only [List.length_cons, gt_iff_lt, Nat.zero_lt_succ, if_true]
        rw [PostDefineLoopVisits_children (Child :: rest) _ _ _ Map1 Fuel _ hG2 (by simp)]
        have hres : ∀ V : List FSpecDefinitionScope,
            ResumeBelowVisits Fuel (⟨D, Before, [], After, []⟩ :: below)
              (BeforeEach ++ Before) (AfterEach ++ After) V
            = ResumeBelowVisits Fuel below BeforeEach AfterEach V := by
          intro V
          funext M
          simp only [ResumeBelowVisits, hpop]
        rw [hres]
        simp only [FSpecDefinitionScope.VisitOrder, List.append_assoc, List.singleton_append]
        rfl
theorem PostDefineLoopVisits_children :
    ∀ (Children : List FSpecDefinitionScope) (below : List FSpecDefinitionScope)
      (BeforeEach AfterEach : List CmdRef) (Map : List FSpec) (Fuel : Nat)
      (Visited : List FSpecDefinitionScope),
      AllGroupsNonEmpty Children = true → Children ≠ [] →
      PostDefineLoopVisits (NumScopesAll Children + Fuel)
          { Stack := Children.reverse ++ below, BeforeEach := BeforeEach, AfterEach := AfterEach,
            IdToSpecMap := Map } Visited
        = (AddAll (FlattenChildren BeforeEach AfterEach Children) Map).bind
            (ResumeBelowVisits Fuel below BeforeEach AfterEach (Visited ++ VisitOrderOf Children))
  | [], _, _, _, _, _, _, _, hne => absurd rfl hne
  | Child :: rest, below, BeforeEach, AfterEach, Map, Fuel, Visited, hG, _ => by
    have hG1 : (!Child.It.isEmpty || !Child.Children.isEmpty) = true
        ∧ Child.GroupsNonEmpty = true ∧ AllGroupsNonEmpty rest = true := by
      simpa [AllGroupsNonEmpty, and_assoc] using hG
    rw [FlattenChildren, AddAll_append]
    cases rest with
    | nil =>
      simp only [List.reverse_cons, List.reverse_nil, List.nil_append, List.singleton_append,
        NumScopesAll, Nat.add_zero, FlattenChildren, AddAll, Except.bind, VisitOrderOf]
      exact PostDefineLoopVisits_scope Child below BeforeEach AfterEach Map Fuel Visited hG1.2.1
    | cons Second rest2 =>
      have hfuel : NumScopesAll (Child :: Second :: rest2) + Fuel
          = NumScopesAll (Second :: rest2) + (Child.NumScopes + Fuel) := by
        simp only [NumScopesAll]; omega
      have hstack : (Child :: Second :: rest2).reverse ++ below
          = (Second :: rest2).reverse ++ (Child :: below) := by simp
      rw [hfuel, hstack,
        PostDefineLoopVisits_children (Second :: rest2) (Child :: below) BeforeEach AfterEach Map
          (Child.NumScopes + Fuel) Visited hG1.2.2 (by simp)]
      cases hadd : AddAll (FlattenChildren BeforeEach AfterEach (Second :: rest2)) Map with
      | error e => rfl
      | ok Map1 =>
        simp only [Except.bind, ResumeBelowVisits,
          PopFinished_pending Child below BeforeEach AfterEach hG1.1]
        have h := PostDefineLoopVisits_scope Child below BeforeEach AfterEach Map1 Fuel
          (Visited ++ VisitOrderOf (Second :: rest2)) hG1.2.1
        have hV : Visited ++ VisitOrderOf (Child :: Second :: rest2)
            = Visited ++ VisitOrderOf (Second :: rest2) ++ Child.VisitOrder := by
          rw [VisitOrderOf, List.append_assoc]
        rw [hV]
        exact h
end


mutual
theorem VisitOrder_perm :
    ∀ Scope : FSpecDefinitionScope, List.Perm Scope.VisitOrder Scope.AllScopes
  | ⟨D, B, I, A, C⟩ => by
    rw [FSpecDefinitionScope.VisitOrder, FSpecDefinitionScope.AllScopes]
    exact List.Perm.cons _ (VisitOrderOf_perm C)
theorem VisitOrderOf_perm :
    ∀ Children : List FSpecDefinitionScope, List.Perm (VisitOrderOf Children) (AllScopesOf Children)
  | [] => by rw [VisitOrderOf, AllScopesOf]
  | Child :: rest => by
    rw [VisitOrderOf, AllScopesOf]
    exact List.perm_append_comm.trans
      (List.Perm.append (VisitOrder_perm Child) (VisitOrderOf_perm rest))
end

mutual
theorem AllScopes_length :
    ∀ Scope : FSpecDefinitionScope, Scope.AllScopes.length = Scope.NumScopes
  | ⟨D, B, I, A, C⟩ => by
    rw [FSpecDefinitionScope.AllScopes, FSpecDefinitionScope.NumScopes, List.length_cons,
      AllScopesOf_length C]
    omega
theorem AllScopesOf_length :
    ∀ Children : List FSpecDefinitionScope, (AllScopesOf Children).length = NumScopesAll Children
  | [] => by rw [AllScopesOf, NumScopesAll]; rfl
  | Child :: rest => by
    rw [AllScopesOf, NumScopesAll, List.length_append, AllScopes_length Child,
      AllScopesOf_length rest]
end


theorem Update_IsAsync (Body : Bodies) (T : Tick) (Spec : FTestSpecBase)
    (c : IAutomationLatentCommand) : (c.Update Body T Spec).Self.IsAsync = c.IsAsync := by
  cases c <;> rfl

theorem Update_Objects (Body : Bodies)
    (hBody : ∀ (f : FnId) (S : FTestSpecBase), (Body f S).Spec.Objects = S.Objects)
    (T : Tick) (Spec : FTestSpecBase) (c : IAutomationLatentCommand) :
    (c.Update Body T Spec).Spec.Objects = Spec.Objects := by
  have hAB : (c.AfterBody Body Spec).Objects = Spec.Objects := by
    cases c with
    | SingleExecute a =>
      simp only [IAutomationLatentCommand.AfterBody]
      split
      · rfl
      · exact hBody _ _
    | UntilDone a =>
      simp only [IAutomationLatentCommand.AfterBody]
      split
      · exact hBody _ _
      · rfl
    | AsyncUntilDone a => rfl
    | Async a => rfl
  cases c with
  | SingleExecute a =>
    rw [← hAB]
    simp only [IAutomationLatentCommand.Update, IAutomationLatentCommand.AfterBody,
      FSingleExecuteLatentCommand.Update]
    split <;> rfl
  | UntilDone a =>
    rcases UntilDone_Update_Errors Body T Spec a with h | ⟨h, _⟩
    · exact (congrArg FTestSpecBase.Objects h).trans hAB
    · exact (congrArg FTestSpecBase.Objects h).trans hAB
  | AsyncUntilDone a =>
    rcases AsyncUntilDone_Update_Errors T Spec a with h | ⟨h, _⟩
    · exact congrArg FTestSpecBase.Objects h
    · exact (congrArg FTestSpecBase.Objects h).trans rfl
  | Async a =>
    show (a.Update T Spec).Spec.Objects = Spec.Objects
    simp only [FAsyncLatentCommand.Update, FAsyncLatentCommand.Conclude]
    split_ifs <;> rfl

theorem Update_TestsRemaining (Body : Bodies)
    (hBody : ∀ (f : FnId) (S : FTestSpecBase), (Body f S).Spec.TestsRemaining = S.TestsRemaining)
    (T : Tick) (Spec : FTestSpecBase) (c : IAutomationLatentCommand) (hc : c.IsAsync = false) :
    (c.Update Body T Spec).Spec.TestsRemaining = Spec.TestsRemaining := by
  have hAB : (c.AfterBody Body Spec).TestsRemaining = Spec.TestsRemaining := by
    cases c with
    | SingleExecute a =>
      simp only [IAutomationLatentCommand.AfterBody]
      split
      · rfl
      · exact hBody _ _
    | UntilDone a =>
      simp only [IAutomationLatentCommand.AfterBody]
      split
      · exact hBody _ _
      · rfl
    | AsyncUntilDone a => rfl
    | Async a => rfl
  cases c with
  | SingleExecute a =>
    rw [← hAB]
    simp only [IAutomationLatentCommand.Update, IAutomationLatentCommand.AfterBody,
      FSingleExecuteLatentCommand.Update]
    split <;> rfl
  | UntilDone a =>
    rcases UntilDone_Update_Errors Body T Spec a with h | ⟨h, _⟩
    · exact (congrArg FTestSpecBase.TestsRemaining h).trans hAB
    · exact (congrArg FTestSpecBase.TestsRemaining h).trans hAB
  | AsyncUntilDone a =>
    rcases AsyncUntilDone_Update_Errors T Spec a with h | ⟨h, _⟩
    · exact congrArg FTestSpecBase.TestsRemaining h
    · exact (congrArg FTestSpecBase.TestsRemaining h).trans rfl
  | Async a => exact absurd hc (by simp [IAutomationLatentCommand.IsAsync])


theorem NoneAsync_eq (self : FTestSpecBase) (Steps : List (CmdRef × Tick)) :
    self.NoneAsync Steps
      = Steps.all (fun Step =>
          (self.Objects.map IAutomationLatentCommand.IsAsync).get? Step.1 == some false) := by
  unfold FTestSpecBase.NoneAsync
  congr 1
  funext Step
  simp only [List.get?_eq_getElem?, List.getElem?_map]
  cases self.Objects[Step.1]? with
  | none => rfl
  | some c => cases h : c.IsAsync <;> simp [h]

theorem set_same_class (Objects : List IAutomationLatentCommand) (Ref : Nat)
    (c x : IAutomationLatentCommand) (hget : Objects.get? Ref = some c)
    (hx : x.IsAsync = c.IsAsync) :
    (Objects.set Ref x).map IAutomationLatentCommand.IsAsync
      = Objects.map IAutomationLatentCommand.IsAsync := by
  rw [List.map_set]
  apply List.ext_getElem?
  intro i
  by_cases hi : Ref = i
  · subst hi
    simp only [List.get?_eq_getElem?] at hget
    have hlt : Ref < Objects.length := by
      rcases List.getElem?_eq_some_iff.mp hget with ⟨h, _⟩
      exact h
    rw [List.getElem?_set_self (by simpa using hlt), List.getElem?_map, hget, hx]
    rfl
  · rw [List.getElem?_set_ne hi]

theorem UpdateCommands_TestsRemaining (Body : Bodies)
    (hBody : ∀ (f : FnId) (S : FTestSpecBase),
      (Body f S).Spec.TestsRemaining = S.TestsRemaining ∧ (Body f S).Spec.Objects = S.Objects) :
    ∀ (Steps : List (CmdRef × Tick)) (self after : FTestSpecBase),
      self.NoneAsync Steps = true → self.UpdateCommands Body Steps = .ok after →
      after.TestsRemaining = self.TestsRemaining
  | [], self, after, _, h => by
    rw [FTestSpecBase.UpdateCommands] at h
    injection h with h
    rw [h]
  | (Ref, T) :: rest, self, after, hN, h => by
    have hN1 : (match self.Objects.get? Ref with
        | some Command => !Command.IsAsync
        | none => false) = true ∧ self.NoneAsync rest = true := by
      have h0 := hN
      unfold FTestSpecBase.NoneAsync at h0
      rw [List.all_cons, Bool.and_eq_true] at h0
      exact h0
    cases hget : self.Objects.get? Ref with
    | none =>
      rw [hget] at hN1
      exact absurd hN1.1 (by simp)
    | some c =>
      rw [hget] at hN1
      have hc : c.IsAsync = false := by
        have h1 := hN1.1
        simpa using h1
      rw [FTestSpecBase.UpdateCommands] at h
      simp only [FTestSpecBase.UpdateCommand, hget, bind, Except.bind] at h
      have hO := Update_Objects Body (fun f S => (hBody f S).2) T self c
      have hT := Update_TestsRemaining Body (fun f S => (hBody f S).1) T self c hc
      have hN2 : FTestSpecBase.NoneAsync
          { (c.Update Body T self).Spec with
            Objects := (c.Update Body T self).Spec.Objects.set Ref (c.Update Body T self).Self }
          rest = true := by
        rw [NoneAsync_eq]
        show (rest.all fun Step =>
          ((((c.Update Body T self).Spec.Objects.set Ref (c.Update Body T self).Self).map
            IAutomationLatentCommand.IsAsync).get? Step.1 == some false)) = true
        rw [hO, set_same_class self.Objects Ref c _ hget (Update_IsAsync Body T self c),
          ← NoneAsync_eq]
        exact hN1.2
      have ih := UpdateCommands_TestsRemaining Body hBody rest _ after hN2 h
      rw [ih]
      exact hT


/-- C25 on the code: `RunTest` with the empty parameter sets `TestsRemaining` to the number
`N` of compiled tests, and afterwards only the done path of an `FAsyncLatentCommand`
decrements it. So in a run of a spec with `N >= 1` tests in which the framework only ever
updates command objects of the other three classes (synchronous bodies and hooks, latent
ones, the world preparation of `PreDefine`), with bodies that leave the private members
alone, `TestsRemaining` is still `N` at every moment of the run, in particular when the hook
of `FTestSpec::PostDefine` runs for the last test: with `bUsePIEWorld` and
`bReusePIEWorldForAllTests` true the hook does not reach the tear-down. With reuse disabled
it reaches it on every spec. -/
theorem C25_world_not_released_after_last_test (IsWhitespace : Char → Bool)
    (Declarations : List Declaration) (Body : Bodies)
    (hBody : ∀ (f : FnId) (S : FTestSpecBase),
      (Body f S).Spec.TestsRemaining = S.TestsRemaining ∧ (Body f S).Spec.Objects = S.Objects)
    (self : FTestSpecBase) (E : Ensured)
    (hE : self.EnsureDefinitions IsWhitespace Declarations = .ok E)
    (hTests : 1 ≤ E.Spec.GetNumTests) (Queue : List CmdRef)
    (Steps : List (CmdRef × Tick)) (hSteps : E.Spec.NoneAsync Steps = true) :
    (∃ r : RunTestResult,
      self.RunTest IsWhitespace Declarations [] Queue = .ok r ∧
      r.Spec.GetTestsRemaining = (E.Spec.GetNumTests : Int) ∧
      ∀ after : FTestSpecBase, r.Spec.UpdateCommands Body Steps = .ok after →
        after.GetTestsRemaining = (E.Spec.GetNumTests : Int) ∧
        FTestSpec.TearsDown true true after = false) ∧
    (∀ Spec : FTestSpecBase, FTestSpec.TearsDown true false Spec = true) ∧
    (∀ Spec : FTestSpecBase,
      FTestSpec.TearsDown true true Spec = decide (Spec.GetTestsRemaining ≤ 0)) := by
  refine ⟨⟨_, RunTest_of_Ensured IsWhitespace Declarations [] Queue self E hE, rfl, ?_⟩, ?_, ?_⟩
  · intro after h
    have hN : FTestSpecBase.NoneAsync
        ({ E.Spec with TestsRemaining := (E.Spec.GetNumTests : Int) }) Steps = true := hSteps
    have hT := UpdateCommands_TestsRemaining Body hBody Steps
      ({ E.Spec with TestsRemaining := (E.Spec.GetNumTests : Int) }) after hN h
    have hR : after.GetTestsRemaining = (E.Spec.GetNumTests : Int) := hT
    refine ⟨hR, ?_⟩
    simp only [FTestSpec.TearsDown, hR, Bool.not_true, Bool.or_false, Bool.false_eq_true,
      if_false, decide_eq_false_iff_not, not_le]
    exact_mod_cast hTests
  · intro Spec
    simp [FTestSpec.TearsDown]
  · intro Spec
    simp [FTestSpec.TearsDown]

theorem C25_world_not_released_after_last_test_witness :
    ∃ r : RunTestResult,
      (FTestSpecBase.New "FExampleSpec".toList).RunTest Char.isWhitespace ExampleTestSpec
        [] [] = .ok r ∧
      r.Queue = [0, 1, 2, 3] ∧
      r.Spec.GetTestsRemaining = 1 ∧
      (r.Spec.UpdateCommands (fun _ S => { Spec := S, bDoneExecuted := false })
        [(0, { Started := 0, Now := 0, bDoneSignalled := false }),
         (1, { Started := 0, Now := 1, bDoneSignalled := false }),
         (1, { Started := 2, Now := 2, bDoneSignalled := true }),
         (2, { Started := 3, Now := 3, bDoneSignalled := false })]).toBool = true ∧
      ∀ after : FTestSpecBase,
        r.Spec.UpdateCommands (fun _ S => { Spec := S, bDoneExecuted := false })
          [(0, { Started := 0, Now := 0, bDoneSignalled := false }),
           (1, { Started := 0, Now := 1, bDoneSignalled := false }),
           (1, { Started := 2, Now := 2, bDoneSignalled := true }),
           (2, { Started := 3, Now := 3, bDoneSignalled := false })] = .ok after →
        after.GetTestsRemaining = 1 ∧ FTestSpec.TearsDown true true after = false := by
  have hE : (FTestSpecBase.New "FExampleSpec".toList).EnsureDefinitions Char.isWhitespace
      ExampleTestSpec
      = .ok { Spec :=
                { FTestSpecBase.New "FExampleSpec".toList with
                  IdToSpecMap := (DeclareAll Char.isWhitespace ExampleTestSpec [] 0
                    FSpecDefinitionScope.New).Flatten [] [],
                  RootDefinitionScope := none, DefinitionScopeStack := [],
                  bHasBeenDefined := true,
                  Objects := NewObjectsAll ThirtySeconds true ExampleTestSpec },
              DefineCalls := 1, PostDefineCalls := 1 } := by
    rw [EnsureDefinitions_New, Compile_ok _ _ _ (by decide)]
    rfl
  obtain ⟨r, hr, hT, hAll⟩ :=
    (C25_world_not_released_after_last_test Char.isWhitespace ExampleTestSpec
      (fun _ S => { Spec := S, bDoneExecuted := false }) (fun _ _ => ⟨rfl, rfl⟩)
      (FTestSpecBase.New "FExampleSpec".toList) _ hE (by decide) []
      [(0, { Started := 0, Now := 0, bDoneSignalled := false }),
       (1, { Started := 0, Now := 1, bDoneSignalled := false }),
       (1, { Started := 2, Now := 2, bDoneSignalled := true }),
       (2, { Started := 3, Now := 3, bDoneSignalled := false })] (by decide)).1
  have hr2 := RunTest_of_Ensured Char.isWhitespace ExampleTestSpec [] []
    (FTestSpecBase.New "FExampleSpec".toList) _ hE
  have hEq := Except.ok.inj (hr.symm.trans hr2)
  subst hEq
  exact ⟨_, hr2, by decide, hT, by decide, hAll⟩

end Automatron
